import Mathlib

/-!
# meeseeks-box: job logs and builtin commands

A shallow embedding of `jobs/logs/logs.go` and of `commands/builtins/builtins.go`:
the command descriptors, the cancellation commands, the commands that list
jobs, logs and tokens, and the creation and revocation of tokens.  The packages `jobs`,
`tokens`, `auth`, `db` and `template` of the repository are not among the
sources; what the commands use of them is modelled from the specification and
marked as such.  Of the Go library, `strconv.ParseUint`, `strconv.ParseInt`,
the package `flag` and `strings.Title` are modelled as far as the commands use
them (64-bit `int`).

The log store sits on a key-ordered transactional store.  Only what the log
store touches is modelled: the top-level `logs` bucket, one nested bucket per
job (holding the output lines under their sequence keys and, once an error has
been set, a nested `error` bucket), and the per-bucket sequence counter.  A
transaction whose body returns an error is rolled back, so a failing operation
leaves the state as it was.  The storage engine itself is assumed healthy: no
I/O failure and no size limit is modelled.

Go values are rendered as follows: `uint64` is a `Nat` reduced modulo `2^64`
where the code can overflow, a `string` is a `String`, a returned `error` is an
`Option Error` (`none` for `nil`).
-/

namespace Meeseeks

/-! ## Errors -/

/-- The two causes `strconv.ParseUint` reports. -/
inductive NumErrorKind where
  | ErrSyntax
  | ErrRange
  deriving DecidableEq, Repr

/-- A non-nil Go `error` returned by the modelled code.

`text m` is `errors.New(m)`, or an `fmt.Errorf` whose text is `m`.
`invalidJobID arg cause` is `fmt.Errorf("invalid job ID %s: %s", arg, err)`
with `err` the `*strconv.NumError` of `ParseUint` on `arg`; the quoting that
`strconv` applies to `arg` inside its own message is not rendered.
`invalidFlagValue value name cause` is the error of the package `flag` for a
value that the flag `name` does not accept, "invalid value ... for flag
-name: ...", of which the quoted value and the cause are not rendered
either.
`wrapped context cause` is `fmt.Errorf(context + "%s", cause)`: the text of
`cause` after the text `context`. -/
inductive Error where
  | text (message : String)
  | invalidJobID (arg : String) (cause : NumErrorKind)
  | invalidFlagValue (value : String) (name : String) (cause : NumErrorKind)
  | wrapped (context : String) (cause : Error)
  deriving DecidableEq, Repr

/-! ## The key-ordered store -/

/-- A key of the store: a byte string. -/
abbrev Key := List Nat

/-- Byte-wise lexicographic order on keys, the order in which a cursor visits
the keys of a bucket. -/
def keyLt : Key → Key → Bool
  | [], [] => false
  | [], _ :: _ => true
  | _ :: _, [] => false
  | a :: as, b :: bs => decide (a < b) || (decide (a = b) && keyLt as bs)

/-- Store `v` under `k` in a key-ordered list of pairs: an existing pair with
the same key is replaced, otherwise the pair is inserted at its place in the
key order. -/
def put {α : Type} (k : Key) (v : α) : List (Key × α) → List (Key × α)
  | [] => [(k, v)]
  | (k', v') :: rest =>
    if k = k' then (k, v) :: rest
    else if keyLt k k' then (k, v) :: (k', v') :: rest
    else (k', v') :: put k v rest

/-- The value stored under `k`, if any. -/
def lookup {α : Type} (k : Key) : List (Key × α) → Option α
  | [] => none
  | (k', v') :: rest => if k = k' then some v' else lookup k rest

namespace db

/-- Modelled from the spec: `db.IDToBytes` is not among the sources; the spec
describes the keys as "big-endian/sortable uint64 ID", that is the eight bytes
of the identifier, most significant first. -/
def IDToBytes (id : Nat) : Key :=
  [id / 2 ^ 56 % 256, id / 2 ^ 48 % 256, id / 2 ^ 40 % 256, id / 2 ^ 32 % 256,
   id / 2 ^ 24 % 256, id / 2 ^ 16 % 256, id / 2 ^ 8 % 256, id % 256]

end db

/-- The bucket nested under the `error` key of a job bucket: plain pairs. -/
abbrev ErrorBucket := List (Key × String)

/-- What a job bucket holds under a key: a stored value, or a nested bucket. -/
inductive Entry where
  | value (v : String)
  | bucket (b : ErrorBucket)
  deriving DecidableEq, Repr

/-- The bucket of one job inside the `logs` bucket: its sequence counter and its
pairs in key order. -/
structure JobBucket where
  sequence : Nat
  entries : List (Key × Entry)
  deriving DecidableEq, Repr

/-- The state of the store as far as the log store is concerned: the top-level
`logs` bucket (absent until first created), keyed by job. -/
structure DB where
  logs : Option (List (Key × JobBucket))
  deriving DecidableEq, Repr

/-- A freshly created store. -/
def DB.empty : DB := { logs := none }

/-- A bucket as `CreateBucketIfNotExists` makes it. -/
def JobBucket.empty : JobBucket := { sequence := 0, entries := [] }

namespace logs

/-- The bytes of "logs". -/
def logsBucketKey : Key := [108, 111, 103, 115]

/-- The bytes of "error". -/
def errorKey : Key := [101, 114, 114, 111, 114]

def ErrNoLogsForJob : Error := .text "No logs for job"

/-- The error of the store when a key holds a value where a bucket is needed,
or a bucket where a value is to be put. -/
def ErrIncompatibleValue : String := "incompatible value"

/-- All the logging information of a job. -/
structure JobLog where
  Error : String
  Output : String
  deriving DecidableEq, Repr

/-- The method `JobLog.GetError`. -/
def JobLog.GetError (j : JobLog) : Option Meeseeks.Error :=
  if j.Error = "" then none else some (.text j.Error)

/-- The job bucket that `getJobBucket` hands to the transaction: the `logs`
bucket and the job's bucket are created when missing. -/
def getJobBucket (jobID : Nat) (d : DB) : JobBucket :=
  (lookup (db.IDToBytes jobID) (d.logs.getD [])).getD JobBucket.empty

/-- Write a job bucket back under its key, as the commit of the transaction
does. -/
def commitJobBucket (jobID : Nat) (b : JobBucket) (d : DB) : DB :=
  { logs := some (put (db.IDToBytes jobID) b (d.logs.getD [])) }

/-- The body of the transaction of `Append`, on the job bucket: take the next
sequence number and put the content under its key.  The put is refused when
the key holds a nested bucket. -/
def appendLine (content : String) (jobBucket : JobBucket) : Except String JobBucket :=
  let sequence := (jobBucket.sequence + 1) % 2 ^ 64
  match lookup (db.IDToBytes sequence) jobBucket.entries with
  | some (.bucket _) => .error ErrIncompatibleValue
  | _ =>
    .ok { sequence := sequence
          entries := put (db.IDToBytes sequence) (.value content) jobBucket.entries }

/-- The function `Append`: the returned error and the state afterwards. -/
def Append (jobID : Nat) (content : String) (d : DB) : Option Meeseeks.Error × DB :=
  if content = "" then (none, d)
  else
    match appendLine content (getJobBucket jobID d) with
    | .error err => (some (.text err), d)
    | .ok jobBucket => (none, commitJobBucket jobID jobBucket d)

/-- The body of the transaction of `SetError`, on the job bucket: create the
nested `error` bucket when missing and put the message under the `error` key
inside it.  The creation is refused when the key holds a plain value. -/
def putError (msg : String) (jobBucket : JobBucket) : Except String JobBucket :=
  match lookup errorKey jobBucket.entries with
  | some (.value _) => .error ErrIncompatibleValue
  | some (.bucket errorBucket) =>
    .ok { jobBucket with
          entries := put errorKey (.bucket (put errorKey msg errorBucket)) jobBucket.entries }
  | none =>
    .ok { jobBucket with
          entries := put errorKey (.bucket (put errorKey msg [])) jobBucket.entries }

/-- The function `SetError`.  The argument stands for `jobErr`: `none` for
`nil`, otherwise the text of `jobErr.Error()`, which is all the function
reads of it. -/
def SetError (jobID : Nat) (jobErr : Option String) (d : DB) : Option Meeseeks.Error × DB :=
  match jobErr with
  | none => (none, d)
  | some msg =>
    match putError msg (getJobBucket jobID d) with
    | .error err =>
      (some (.text ("could not get error bucket for job " ++ toString jobID ++ ": " ++ err)), d)
    | .ok jobBucket => (none, commitJobBucket jobID jobBucket d)

/-- The read loop of `Get`: starting at the cursor's first pair, write each
value to the output until the cursor yields a nil value, which it does at the
end of the bucket and at a nested bucket. -/
def readLines : List (Key × Entry) → String
  | [] => ""
  | (_, .value line) :: rest => line ++ readLines rest
  | (_, .bucket _) :: _ => ""

/-- What `Get` reads from the job bucket once it has found it: the output from
the cursor, the error from the nested `error` bucket when there is one. -/
def readJobBucket (jobBucket : JobBucket) : JobLog :=
  { Output := readLines jobBucket.entries
    Error :=
      match lookup errorKey jobBucket.entries with
      | some (.bucket errorBucket) => (lookup errorKey errorBucket).getD ""
      | _ => "" }

/-- The function `Get`: the returned `JobLog` and error. -/
def Get (jobID : Nat) (d : DB) : JobLog × Option Meeseeks.Error :=
  match d.logs with
  | none => ({ Error := "", Output := "" }, some ErrNoLogsForJob)
  | some logsBucket =>
    match lookup (db.IDToBytes jobID) logsBucket with
    | none => ({ Error := "", Output := "" }, some ErrNoLogsForJob)
    | some jobBucket => (readJobBucket jobBucket, none)

/-- One call on the log store. -/
inductive Op where
  | append (jobID : Nat) (content : String)
  | setError (jobID : Nat) (jobErr : Option String)
  deriving DecidableEq, Repr

/-- The job a call is addressed to. -/
def Op.jobID : Op → Nat
  | .append jobID _ => jobID
  | .setError jobID _ => jobID

/-- Whether a call writes: an `Append` of a non-empty content or a `SetError`
of a non-nil error. -/
def Op.writes : Op → Bool
  | .append _ content => decide (content ≠ "")
  | .setError _ jobErr => jobErr.isSome

/-- Perform one call; the error it returns is dropped. -/
def Op.apply (o : Op) (d : DB) : DB :=
  match o with
  | .append jobID content => (Append jobID content d).2
  | .setError jobID jobErr => (SetError jobID jobErr d).2

/-- Perform a sequence of calls, in order. -/
def run (ops : List Op) (d : DB) : DB :=
  ops.foldl (fun acc o => o.apply acc) d

/-- The non-empty contents appended to job `j` by a sequence of calls, in call
order. -/
def appended (j : Nat) : List Op → List String
  | [] => []
  | .append jobID content :: rest =>
    if jobID = j ∧ content ≠ "" then content :: appended j rest else appended j rest
  | .setError _ _ :: rest => appended j rest

end logs

/-! ## Requests, jobs and the job ledger -/

namespace request

/-- The fields of `request.Request` that the sources show. -/
structure Request where
  Command : String := ""
  Channel : String := ""
  ChannelID : String := ""
  ChannelLink : String := ""
  UserID : String := ""
  Username : String := ""
  Args : List String := []
  IsIM : Bool := false
  deriving DecidableEq, Repr

end request

namespace jobs

/-- The fields of `jobs.Job` that the sources show; the start time is an
abstract timestamp. -/
structure Job where
  ID : Nat := 0
  Request : request.Request := {}
  StartTime : Nat := 0
  Status : String := ""
  deriving DecidableEq, Repr

/-- Modelled from the spec: the error `jobs.ErrNoJobWithID` is declared in the
`jobs` package, which is not among the sources; its text is the one the test
of the cancel command expects. -/
def ErrNoJobWithID : Error := .text "no job could be found"

/-- Modelled from the spec: `jobs.Get` is not among the sources; the spec says
"`Get(jobID) -> Job, error`: fails with `NoJobWithID` if absent".  The ledger
is the list of stored jobs. -/
def Get (jobID : Nat) (ledger : List Job) : Except Error Job :=
  match ledger.find? (fun j => decide (j.ID = jobID)) with
  | some j => .ok j
  | none => .error ErrNoJobWithID

end jobs

/-! ## Number parsing -/

namespace strconv

/-- The largest `uint64`. -/
def maxUint64 : Nat := 2 ^ 64 - 1

/-- The loop of `strconv.ParseUint` for base 10 and 64 bits, on the characters
still to read and the number read so far. -/
def parseUintLoop : List Char → Nat → Except NumErrorKind Nat
  | [], n => .ok n
  | c :: rest, n =>
    if '0' ≤ c ∧ c ≤ '9' then
      let d := c.toNat - '0'.toNat
      if n ≥ maxUint64 / 10 + 1 then .error .ErrRange
      else
        let n10 := n * 10 % 2 ^ 64
        let n1 := (n10 + d) % 2 ^ 64
        if n1 < n10 ∨ n1 > maxUint64 then .error .ErrRange
        else parseUintLoop rest n1
    else .error .ErrSyntax

/-- The call `strconv.ParseUint(s, 10, 64)`. -/
def ParseUint (s : String) : Except NumErrorKind Nat :=
  if s = "" then .error .ErrSyntax else parseUintLoop s.toList 0

end strconv

/-! ## Builtin commands -/

namespace auth

/-- Modelled from the spec: the `auth` package is not among the sources; the
spec gives "`AuthStrategy` ∈ {Any, AllowedGroup}". -/
inductive Strategy where
  | Any
  | AllowedGroup
  deriving DecidableEq, Repr

def AuthStrategyAny : Strategy := .Any

def AuthStrategyAllowedGroup : Strategy := .AllowedGroup

end auth

namespace builtins

def BuiltinVersionCommand : String := "version"

def BuiltinHelpCommand : String := "help"

def BuiltinGroupsCommand : String := "groups"

def BuiltinJobsCommand : String := "jobs"

def BuiltinFindJobCommand : String := "job"

def BuiltinAuditCommand : String := "audit"

def BuiltinAuditJobCommand : String := "auditjob"

def BuiltinAuditLogsCommand : String := "auditlogs"

def BuiltinLastCommand : String := "last"

def BuiltinTailCommand : String := "tail"

def BuiltinLogsCommand : String := "logs"

def BuiltinCancelJobCommand : String := "cancel"

def BuiltinKillJobCommand : String := "kill"

def BuiltinNewAPITokenCommand : String := "token-new"

def BuiltinListAPITokenCommand : String := "tokens"

def BuiltinRevokeAPITokenCommand : String := "token-revoke"

/-- Which of the two template sets a command declares. -/
inductive TemplateSet where
  | plainTemplates
  | defaultTemplates
  deriving DecidableEq, Repr

/-- The descriptor methods of a `command.Command`, as the values they return.
The timeout is left out: every builtin declares the default one. -/
structure Command where
  Cmd : String
  Help : String
  HasHandshake : Bool
  Record : Bool
  AuthStrategy : auth.Strategy
  AllowedGroups : List String
  Templates : TemplateSet
  Args : List String
  deriving DecidableEq, Repr

namespace emptyArgs

def Args : List String := []

end emptyArgs

namespace noRecord

def Record : Bool := false

end noRecord

namespace allowAll

def AuthStrategy : auth.Strategy := auth.AuthStrategyAny

def AllowedGroups : List String := []

end allowAll

namespace allowAdmins

def AuthStrategy : auth.Strategy := auth.AuthStrategyAllowedGroup

/-- The method `allowAdmins.AllowedGroups`; the constant `auth.AdminGroup`,
declared outside the sources, is the parameter. -/
def AllowedGroups (AdminGroup : String) : List String := [AdminGroup]

end allowAdmins

namespace noHandshake

def HasHandshake : Bool := false

end noHandshake

/-- The type `versionCommand`, which embeds `cmd`, `help`, `noHandshake`, `noRecord`,
`allowAll`, `plainTemplates`, `emptyArgs` and `defaultTimeout`. -/
def versionCommand (cmd help : String) : Command :=
  { Cmd := cmd
    Help := help
    HasHandshake := noHandshake.HasHandshake
    Record := noRecord.Record
    AuthStrategy := allowAll.AuthStrategy
    AllowedGroups := allowAll.AllowedGroups
    Templates := .plainTemplates
    Args := emptyArgs.Args }

/-- The type `helpCommand`, which embeds `cmd`, `help`, `noHandshake`, `noRecord`,
`allowAll`, `plainTemplates`, `emptyArgs` and `defaultTimeout`. -/
def helpCommand (cmd help : String) : Command :=
  { Cmd := cmd
    Help := help
    HasHandshake := noHandshake.HasHandshake
    Record := noRecord.Record
    AuthStrategy := allowAll.AuthStrategy
    AllowedGroups := allowAll.AllowedGroups
    Templates := .plainTemplates
    Args := emptyArgs.Args }

/-- The type `cancelJobCommand`, which embeds `cmd`, `help`, `noHandshake`, `noRecord`,
`allowAll`, `defaultTemplates`, `emptyArgs` and `defaultTimeout`. -/
def cancelJobCommand (cmd help : String) : Command :=
  { Cmd := cmd
    Help := help
    HasHandshake := noHandshake.HasHandshake
    Record := noRecord.Record
    AuthStrategy := allowAll.AuthStrategy
    AllowedGroups := allowAll.AllowedGroups
    Templates := .defaultTemplates
    Args := emptyArgs.Args }

/-- The type `killJobCommand`, which embeds `cmd`, `help`, `noHandshake`, `noRecord`,
`allowAdmins`, `defaultTemplates`, `emptyArgs` and `defaultTimeout`. -/
def killJobCommand (AdminGroup : String) (cmd help : String) : Command :=
  { Cmd := cmd
    Help := help
    HasHandshake := noHandshake.HasHandshake
    Record := noRecord.Record
    AuthStrategy := allowAdmins.AuthStrategy
    AllowedGroups := allowAdmins.AllowedGroups AdminGroup
    Templates := .defaultTemplates
    Args := emptyArgs.Args }

/-- The type `groupsCommand`, which embeds `cmd`, `help`, `noHandshake`, `noRecord`,
`allowAdmins`, `plainTemplates`, `emptyArgs` and `defaultTimeout`. -/
def groupsCommand (AdminGroup : String) (cmd help : String) : Command :=
  { Cmd := cmd
    Help := help
    HasHandshake := noHandshake.HasHandshake
    Record := noRecord.Record
    AuthStrategy := allowAdmins.AuthStrategy
    AllowedGroups := allowAdmins.AllowedGroups AdminGroup
    Templates := .plainTemplates
    Args := emptyArgs.Args }

/-- The type `jobsCommand`, which embeds `cmd`, `help`, `noHandshake`, `noRecord`,
`allowAll`, `plainTemplates`, `emptyArgs` and `defaultTimeout`. -/
def jobsCommand (cmd help : String) : Command :=
  { Cmd := cmd
    Help := help
    HasHandshake := noHandshake.HasHandshake
    Record := noRecord.Record
    AuthStrategy := allowAll.AuthStrategy
    AllowedGroups := allowAll.AllowedGroups
    Templates := .plainTemplates
    Args := emptyArgs.Args }

/-- The type `auditCommand`, which embeds `cmd`, `help`, `noHandshake`, `noRecord`,
`allowAdmins`, `plainTemplates`, `emptyArgs` and `defaultTimeout`. -/
def auditCommand (AdminGroup : String) (cmd help : String) : Command :=
  { Cmd := cmd
    Help := help
    HasHandshake := noHandshake.HasHandshake
    Record := noRecord.Record
    AuthStrategy := allowAdmins.AuthStrategy
    AllowedGroups := allowAdmins.AllowedGroups AdminGroup
    Templates := .plainTemplates
    Args := emptyArgs.Args }

/-- The type `lastCommand`, which embeds `cmd`, `help`, `noHandshake`, `noRecord`,
`allowAll`, `plainTemplates`, `emptyArgs` and `defaultTimeout`. -/
def lastCommand (cmd help : String) : Command :=
  { Cmd := cmd
    Help := help
    HasHandshake := noHandshake.HasHandshake
    Record := noRecord.Record
    AuthStrategy := allowAll.AuthStrategy
    AllowedGroups := allowAll.AllowedGroups
    Templates := .plainTemplates
    Args := emptyArgs.Args }

/-- The type `findJobCommand`, which embeds `cmd`, `help`, `noHandshake`, `noRecord`,
`allowAll`, `plainTemplates`, `emptyArgs` and `defaultTimeout`. -/
def findJobCommand (cmd help : String) : Command :=
  { Cmd := cmd
    Help := help
    HasHandshake := noHandshake.HasHandshake
    Record := noRecord.Record
    AuthStrategy := allowAll.AuthStrategy
    AllowedGroups := allowAll.AllowedGroups
    Templates := .plainTemplates
    Args := emptyArgs.Args }

/-- The type `auditJobCommand`, which embeds `cmd`, `help`, `noHandshake`, `noRecord`,
`allowAdmins`, `plainTemplates`, `emptyArgs` and `defaultTimeout`. -/
def auditJobCommand (AdminGroup : String) (cmd help : String) : Command :=
  { Cmd := cmd
    Help := help
    HasHandshake := noHandshake.HasHandshake
    Record := noRecord.Record
    AuthStrategy := allowAdmins.AuthStrategy
    AllowedGroups := allowAdmins.AllowedGroups AdminGroup
    Templates := .plainTemplates
    Args := emptyArgs.Args }

/-- The type `auditLogsCommand`, which embeds `cmd`, `help`, `noHandshake`, `noRecord`,
`allowAll`, `defaultTemplates`, `emptyArgs` and `defaultTimeout`. -/
def auditLogsCommand (cmd help : String) : Command :=
  { Cmd := cmd
    Help := help
    HasHandshake := noHandshake.HasHandshake
    Record := noRecord.Record
    AuthStrategy := allowAll.AuthStrategy
    AllowedGroups := allowAll.AllowedGroups
    Templates := .defaultTemplates
    Args := emptyArgs.Args }

/-- The type `tailCommand`, which embeds `cmd`, `help`, `noHandshake`, `noRecord`,
`allowAll`, `defaultTemplates`, `emptyArgs` and `defaultTimeout`. -/
def tailCommand (cmd help : String) : Command :=
  { Cmd := cmd
    Help := help
    HasHandshake := noHandshake.HasHandshake
    Record := noRecord.Record
    AuthStrategy := allowAll.AuthStrategy
    AllowedGroups := allowAll.AllowedGroups
    Templates := .defaultTemplates
    Args := emptyArgs.Args }

/-- The type `logsCommand`, which embeds `cmd`, `help`, `noHandshake`, `noRecord`,
`allowAll`, `defaultTemplates`, `emptyArgs` and `defaultTimeout`. -/
def logsCommand (cmd help : String) : Command :=
  { Cmd := cmd
    Help := help
    HasHandshake := noHandshake.HasHandshake
    Record := noRecord.Record
    AuthStrategy := allowAll.AuthStrategy
    AllowedGroups := allowAll.AllowedGroups
    Templates := .defaultTemplates
    Args := emptyArgs.Args }

/-- The type `newAPITokenCommand`, which embeds `cmd`, `help`, `noHandshake`, `noRecord`,
`allowAdmins`, `plainTemplates`, `emptyArgs` and `defaultTimeout`. -/
def newAPITokenCommand (AdminGroup : String) (cmd help : String) : Command :=
  { Cmd := cmd
    Help := help
    HasHandshake := noHandshake.HasHandshake
    Record := noRecord.Record
    AuthStrategy := allowAdmins.AuthStrategy
    AllowedGroups := allowAdmins.AllowedGroups AdminGroup
    Templates := .plainTemplates
    Args := emptyArgs.Args }

/-- The type `revokeAPITokenCommand`, which embeds `cmd`, `help`, `noHandshake`, `noRecord`,
`allowAdmins`, `plainTemplates`, `emptyArgs` and `defaultTimeout`. -/
def revokeAPITokenCommand (AdminGroup : String) (cmd help : String) : Command :=
  { Cmd := cmd
    Help := help
    HasHandshake := noHandshake.HasHandshake
    Record := noRecord.Record
    AuthStrategy := allowAdmins.AuthStrategy
    AllowedGroups := allowAdmins.AllowedGroups AdminGroup
    Templates := .plainTemplates
    Args := emptyArgs.Args }

/-- The type `listAPITokensCommand`, which embeds `cmd`, `help`, `noHandshake`, `noRecord`,
`allowAdmins`, `plainTemplates`, `emptyArgs` and `defaultTimeout`. -/
def listAPITokensCommand (AdminGroup : String) (cmd help : String) : Command :=
  { Cmd := cmd
    Help := help
    HasHandshake := noHandshake.HasHandshake
    Record := noRecord.Record
    AuthStrategy := allowAdmins.AuthStrategy
    AllowedGroups := allowAdmins.AllowedGroups AdminGroup
    Templates := .plainTemplates
    Args := emptyArgs.Args }

/-- The map `Commands`, as its pairs in the order of the source. -/
def Commands (AdminGroup : String) : List (String × Command) :=
  [ (BuiltinVersionCommand,
      versionCommand BuiltinVersionCommand "prints the running meeseeks version"),
    (BuiltinGroupsCommand,
      groupsCommand AdminGroup BuiltinGroupsCommand "prints the configured groups"),
    (BuiltinJobsCommand,
      jobsCommand BuiltinJobsCommand
        "shows the last executed jobs for the calling user, accepts -limit"),
    (BuiltinAuditCommand,
      auditCommand AdminGroup BuiltinAuditCommand
        "lists jobs from all users or a specific one (admin only), accepts -user and -limit to filter."),
    (BuiltinAuditJobCommand,
      auditJobCommand AdminGroup BuiltinAuditJobCommand
        "shows a command metadata by job ID from any user (admin only)"),
    (BuiltinAuditLogsCommand,
      auditLogsCommand BuiltinAuditLogsCommand
        "shows the logs of any command by job ID (admin only)"),
    (BuiltinLastCommand,
      lastCommand BuiltinLastCommand "shows the last executed command by the calling user"),
    (BuiltinFindJobCommand,
      findJobCommand BuiltinFindJobCommand "find one job by id"),
    (BuiltinTailCommand,
      tailCommand BuiltinTailCommand "returns the last command output or error"),
    (BuiltinLogsCommand,
      logsCommand BuiltinLogsCommand "returns the logs of the command id passed as argument"),
    (BuiltinNewAPITokenCommand,
      newAPITokenCommand AdminGroup BuiltinNewAPITokenCommand
        "creates a new API token for the calling user, channel and command with args, requires at least #channel and command"),
    (BuiltinListAPITokenCommand,
      listAPITokensCommand AdminGroup BuiltinListAPITokenCommand "lists the API tokens"),
    (BuiltinRevokeAPITokenCommand,
      revokeAPITokenCommand AdminGroup BuiltinRevokeAPITokenCommand "revokes an API token") ]

/-- The command a map holds under a name. -/
def find (name : String) (c : List (String × Command)) : Option Command :=
  c.lookup name

/-- The function `AddHelpCommand`: the map with the help command stored under
its name. -/
def AddHelpCommand (c : List (String × Command)) : List (String × Command) :=
  (BuiltinHelpCommand,
    helpCommand BuiltinHelpCommand "prints all the kwnown commands and its associated help")
    :: c.filter (fun p => decide (p.1 ≠ BuiltinHelpCommand))

/-- The descriptor of the command `NewCancelJobCommand` returns; its `cmd` is
left at the zero value. -/
def NewCancelJobCommand : Command :=
  cancelJobCommand "" "cancels a jobs owned by the calling user that is currently running"

/-- The descriptor of the command `NewKillJobCommand` returns; its `cmd` is
left at the zero value. -/
def NewKillJobCommand (AdminGroup : String) : Command :=
  killJobCommand AdminGroup "" "cancels a jobs that is currently running, from any user"

/-- The function `parseJobID`. -/
def parseJobID (job : jobs.Job) : Except Error Nat :=
  match job.Request.Args with
  | [] => .error (.text "no job id passed")
  | arg :: _ =>
    match strconv.ParseUint arg with
    | .error err => .error (.invalidJobID arg err)
    | .ok id => .ok id

/-- What a command body acts on: the job ledger, and the record of the calls
made to the supplied cancellation function (their arguments, oldest first). -/
structure World where
  jobs : List jobs.Job
  cancelCalls : List Nat
  deriving DecidableEq, Repr

/-- One call `cancelFunc(jobID)`.  The supplied function is given by what it
does to the ledger; the call is recorded. -/
def callCancelFunc (cancelFunc : Nat → List jobs.Job → List jobs.Job) (jobID : Nat)
    (w : World) : World :=
  { jobs := cancelFunc jobID w.jobs, cancelCalls := w.cancelCalls ++ [jobID] }

/-- The method `cancelJobCommand.Execute`: the output, the error, and the
world afterwards. -/
def cancelJobCommand.Execute (cancelFunc : Nat → List jobs.Job → List jobs.Job)
    (job : jobs.Job) (w : World) : (String × Option Error) × World :=
  match parseJobID job with
  | .error err => (("", some err), w)
  | .ok jobID =>
    match jobs.Get jobID w.jobs with
    | .error err => (("", some err), w)
    | .ok j =>
      if job.Request.Username ≠ j.Request.Username then
        (("", some jobs.ErrNoJobWithID), w)
      else
        (("Issued command cancellation to job " ++ toString jobID, none),
          callCancelFunc cancelFunc jobID w)

/-- The method `killJobCommand.Execute`: the output, the error, and the world
afterwards. -/
def killJobCommand.Execute (cancelFunc : Nat → List jobs.Job → List jobs.Job)
    (job : jobs.Job) (w : World) : (String × Option Error) × World :=
  match parseJobID job with
  | .error err => (("", some err), w)
  | .ok jobID =>
    match jobs.Get jobID w.jobs with
    | .error err => (("", some err), w)
    | .ok _ =>
      (("Issued command cancellation to job " ++ toString jobID, none),
        callCancelFunc cancelFunc jobID w)

end builtins

end Meeseeks

/-! ## Integer flags: `strconv.ParseInt` with base 0 -/

namespace Meeseeks

namespace strconv

/-- The helper `lower`: the code of the character with bit `0x20` set, which
maps the ASCII capitals onto the small letters. -/
def lower (c : Char) : Nat := c.toNat ||| 32

/-- The digit loop of `strconv.ParseUint` for a given base and 64 bits, on the
characters still to read, the number read so far and whether an underscore has
been seen.  `base0` says that the base was inferred from the prefix, in which
case underscores are skipped.  An error carries the number that is returned
with it. -/
def digitLoop (base : Nat) (base0 : Bool) :
    List Char → Nat → Bool → Except (Nat × NumErrorKind) (Nat × Bool)
  | [], n, underscores => .ok (n, underscores)
  | c :: rest, n, underscores =>
    if c = '_' ∧ base0 = true then digitLoop base base0 rest n true
    else
      let digit : Option Nat :=
        if '0' ≤ c ∧ c ≤ '9' then some (c.toNat - '0'.toNat)
        else if 97 ≤ lower c ∧ lower c ≤ 122 then some (lower c - 97 + 10)
        else none
      match digit with
      | none => .error (0, .ErrSyntax)
      | some d =>
        if d ≥ base then .error (0, .ErrSyntax)
        else if n ≥ maxUint64 / base + 1 then .error (maxUint64, .ErrRange)
        else
          let n10 := n * base % 2 ^ 64
          let n1 := (n10 + d) % 2 ^ 64
          if n1 < n10 ∨ n1 > maxUint64 then .error (maxUint64, .ErrRange)
          else digitLoop base base0 rest n1 underscores

/-- The loop of `underscoreOK`; `i` is the class of the previous character:
a digit, an underscore, something else, or the beginning. -/
def underscoreOKLoop (hex : Bool) : List Char → Char → Bool
  | [], i => decide (i ≠ '_')
  | c :: rest, i =>
    if ('0' ≤ c ∧ c ≤ '9') ∨ (hex = true ∧ 97 ≤ lower c ∧ lower c ≤ 102) then
      underscoreOKLoop hex rest '0'
    else if c = '_' then
      if i ≠ '0' then false else underscoreOKLoop hex rest '_'
    else if i = '_' then false
    else underscoreOKLoop hex rest '!'

/-- The function `underscoreOK`: underscores must separate digits, where a
base prefix counts as a digit. -/
def underscoreOK (s : List Char) : Bool :=
  let s1 :=
    match s with
    | c :: rest => if c = '-' ∨ c = '+' then rest else s
    | [] => s
  match s1 with
  | c0 :: c1 :: rest =>
    if c0 = '0' ∧ (lower c1 = 98 ∨ lower c1 = 111 ∨ lower c1 = 120) then
      underscoreOKLoop (decide (lower c1 = 120)) rest '0'
    else underscoreOKLoop false s1 '^'
  | _ => underscoreOKLoop false s1 '^'

/-- The base that `ParseUint` infers from the prefix when called with base 0,
and the characters that remain to be read as digits. -/
def inferBase : List Char → Nat × List Char
  | '0' :: c1 :: c2 :: rest =>
    if lower c1 = 98 then (2, c2 :: rest)
    else if lower c1 = 111 then (8, c2 :: rest)
    else if lower c1 = 120 then (16, c2 :: rest)
    else (8, c1 :: c2 :: rest)
  | '0' :: rest => (8, rest)
  | s => (10, s)

/-- The call `strconv.ParseUint(s, 0, 64)` on the characters of `s`: the
returned number and error. -/
def parseUintBase0 (s : List Char) : Nat × Option NumErrorKind :=
  match s with
  | [] => (0, some .ErrSyntax)
  | _ :: _ =>
    match digitLoop (inferBase s).1 true (inferBase s).2 0 false with
    | .error (v, kind) => (v, some kind)
    | .ok (n, underscores) =>
      if underscores = true ∧ underscoreOK s = false then (0, some .ErrSyntax) else (n, none)

/-- The call `strconv.ParseInt(s, 0, 64)`: the returned number and error. -/
def ParseInt (s : String) : Int × Option NumErrorKind :=
  match s.toList with
  | [] => (0, some .ErrSyntax)
  | c :: rest =>
    let neg : Bool := decide (c = '-')
    let digits : List Char := if c = '+' ∨ c = '-' then rest else c :: rest
    match parseUintBase0 digits with
    | (_, some .ErrSyntax) => (0, some .ErrSyntax)
    | (un, _) =>
      if neg = false ∧ un ≥ 2 ^ 63 then (2 ^ 63 - 1, some .ErrRange)
      else if neg = true ∧ un > 2 ^ 63 then (-(2 ^ 63), some .ErrRange)
      else if neg = true then (-(un : Int), none)
      else ((un : Int), none)

end strconv

/-! ## The package `flag` -/

namespace flag

/-- The value of a flag: the two kinds of flag the builtin commands define. -/
inductive Value where
  | intValue (v : Int)
  | stringValue (v : String)
  deriving DecidableEq, Repr

/-- A flag set: the defined flags by name, each with its current value. -/
abbrev FlagSet := List (String × Value)

def ErrHelp : Error := .text "flag: help requested"

/-- The method `Set` of a flag value.  An integer flag takes the number
`ParseInt` returns even when it returns an error as well. -/
def Value.Set : Value → String → Value × Option NumErrorKind
  | .intValue _, s => (.intValue (strconv.ParseInt s).1, (strconv.ParseInt s).2)
  | .stringValue _, s => (.stringValue s, none)

/-- Replace the value of the flag `name`. -/
def assign (name : String) (v : Value) : FlagSet → FlagSet
  | [] => []
  | (n, old) :: rest => if n = name then (n, v) :: rest else (n, old) :: assign name v rest

/-- The name of a flag argument with its minus signs removed, split at the
first equals sign into the name and the value given with it. -/
def splitName (name : List Char) : String × Option String :=
  match name.span (fun c => decide (c ≠ '=')) with
  | (n, []) => (String.mk n, none)
  | (n, _ :: value) => (String.mk n, some (String.mk value))

/-- How `parseOne` reads the first argument. -/
inductive Reading where
  | notAFlag
  | terminator
  | badSyntax
  | named (name : String) (value : Option String)
  deriving DecidableEq, Repr

/-- The first part of `parseOne`: a flag starts with one or two minus signs
followed by a name that does not start with a minus or an equals sign; the
argument "--" ends the flags. -/
def read (s : String) : Reading :=
  match s.toList with
  | '-' :: '-' :: [] => .terminator
  | '-' :: '-' :: c :: rest =>
    if c = '-' ∨ c = '=' then .badSyntax
    else .named (splitName (c :: rest)).1 (splitName (c :: rest)).2
  | '-' :: c :: rest =>
    if c = '=' then .badSyntax
    else .named (splitName (c :: rest)).1 (splitName (c :: rest)).2
  | _ => .notAFlag

/-- Give the flag `name` the value `value`, as the end of `parseOne` does. -/
def setFlag (name value : String) (current : Value) (flags : FlagSet) :
    Option Error × FlagSet :=
  match (current.Set value).2 with
  | some cause => (some (.invalidFlagValue value name cause), assign name (current.Set value).1 flags)
  | none => (none, assign name (current.Set value).1 flags)

/-- The result of `parseOne`: whether a flag was seen, the error, the flag
set afterwards, and whether the argument after the flag was taken as its
value. -/
structure Step where
  seen : Bool
  err : Option Error
  flags : FlagSet
  tookNext : Bool
  deriving DecidableEq, Repr

/-- The method `FlagSet.parseOne`, for a flag set without boolean flags, on the
first of the remaining arguments `s` and the arguments `rest` after it. -/
def parseOne (flags : FlagSet) (s : String) (rest : List String) : Step :=
  match read s with
  | .notAFlag => { seen := false, err := none, flags := flags, tookNext := false }
  | .terminator => { seen := false, err := none, flags := flags, tookNext := false }
  | .badSyntax =>
    { seen := false, err := some (.text ("bad flag syntax: " ++ s)), flags := flags,
      tookNext := false }
  | .named name value =>
    match flags.lookup name with
    | none =>
      if name = "help" ∨ name = "h" then
        { seen := false, err := some ErrHelp, flags := flags, tookNext := false }
      else
        { seen := false, err := some (.text ("flag provided but not defined: -" ++ name)),
          flags := flags, tookNext := false }
    | some current =>
      match value, rest with
      | some v, _ =>
        { seen := decide ((setFlag name v current flags).1 = none),
          err := (setFlag name v current flags).1,
          flags := (setFlag name v current flags).2, tookNext := false }
      | none, [] =>
        { seen := false, err := some (.text ("flag needs an argument: -" ++ name)),
          flags := flags, tookNext := false }
      | none, v :: _ =>
        { seen := decide ((setFlag name v current flags).1 = none),
          err := (setFlag name v current flags).1,
          flags := (setFlag name v current flags).2, tookNext := true }

/-- The loop of `FlagSet.Parse` with `ContinueOnError` over the remaining
arguments: `parseOne` is repeated while it sees a flag; `skip` says that the
first remaining argument was taken as the value of the flag before it. -/
def parseLoop (flags : FlagSet) (skip : Bool) : List String → Option Error × FlagSet
  | [] => (none, flags)
  | s :: rest =>
    if skip = true then parseLoop flags false rest
    else
      let step := parseOne flags s rest
      if step.seen = true then parseLoop step.flags step.tookNext rest
      else (step.err, step.flags)

/-- The method `FlagSet.Parse` with `ContinueOnError`: the returned error and
the flag set afterwards.  The flags set before an error keep their new
values. -/
def Parse (flags : FlagSet) (arguments : List String) : Option Error × FlagSet :=
  parseLoop flags false arguments

/-- The current value of the integer flag `name` (what the pointer returned
by `FlagSet.Int` holds). -/
def intOf (name : String) (flags : FlagSet) : Int :=
  match flags.lookup name with
  | some (.intValue v) => v
  | _ => 0

/-- The current value of the string flag `name` (what the pointer returned by
`FlagSet.String` holds). -/
def stringOf (name : String) (flags : FlagSet) : String :=
  match flags.lookup name with
  | some (.stringValue v) => v
  | _ => ""

end flag

end Meeseeks

/-! ## The library function `strings.Title` -/

namespace Meeseeks

namespace unicode

/-- The two facts about characters beyond ASCII that `strings.Title` takes from
the tables of the package `unicode`: the title case of a character, and
whether it separates words (it is a space and neither a letter nor a digit).
Within ASCII both are computed. -/
structure Tables where
  ToTitle : Char → Char
  IsSeparator : Char → Bool

end unicode

namespace strings

/-- The helper `isSeparator`: within ASCII, everything but the letters, the
digits and the underscore separates words. -/
def isSeparator (u : unicode.Tables) (r : Char) : Bool :=
  if r.toNat ≤ 127 then
    !(decide ('0' ≤ r ∧ r ≤ '9') || decide ('a' ≤ r ∧ r ≤ 'z') || decide ('A' ≤ r ∧ r ≤ 'Z')
      || decide (r = '_'))
  else u.IsSeparator r

/-- The function `unicode.ToTitle`: within ASCII, a small letter is mapped to
its capital. -/
def toTitle (u : unicode.Tables) (r : Char) : Char :=
  if r.toNat ≤ 127 then
    if 'a' ≤ r ∧ r ≤ 'z' then Char.ofNat (r.toNat - 32) else r
  else u.ToTitle r

/-- The mapping of `strings.Title` over the characters, with the character
before the current one. -/
def titleLoop (u : unicode.Tables) : List Char → Char → List Char
  | [], _ => []
  | r :: rest, prev =>
    (if isSeparator u prev = true then toTitle u r else r) :: titleLoop u rest r

/-- The function `strings.Title`: every character that begins a word is
mapped to its title case. -/
def Title (u : unicode.Tables) (s : String) : String :=
  String.mk (titleLoop u s.toList ' ')

end strings

end Meeseeks

/-! ## The job ledger: creation, finishing and filtering -/

namespace Meeseeks

/-- The scan of a filter over the candidates in their order: a candidate is
taken iff it matches, and the scan stops once `limit` matches are collected. -/
def scan {α : Type} (isMatch : α → Bool) : Nat → List α → List α
  | 0, _ => []
  | _ + 1, [] => []
  | n + 1, c :: rest =>
    if isMatch c then c :: scan isMatch n rest else scan isMatch (n + 1) rest

namespace jobs

/-- Modelled from the spec: the status constants are declared in the `jobs`
package, which is not among the sources; the spec gives the statuses
"Running, Successful, Failed, Cancelled", and the tests show the texts of the
first two. -/
def RunningStatus : String := "Running"

def SuccessStatus : String := "Successful"

def FailedStatus : String := "Failed"

def CancelledStatus : String := "Cancelled"

/-- Modelled from the spec: the error kind `AlreadyTerminal`, "attempt to
finish a job twice". -/
def ErrAlreadyTerminal : Error := .text "job is already terminal"

/-- The ledger with its sequence counter. -/
structure Store where
  sequence : Nat
  jobs : List Job
  deriving DecidableEq, Repr

/-- A fresh ledger. -/
def Store.empty : Store := { sequence := 0, jobs := [] }

/-- Modelled from the spec: `jobs.Create` is not among the sources; the spec
says "allocates the next sequence value as `ID`, stores `{ID, Request,
Status=Running, StartTime=now}` in one atomic transaction".  The sequence
counter is a `uint64`.  Returns the job and the ledger afterwards. -/
def Create (req : request.Request) (now : Nat) (s : Store) : Job × Store :=
  let id := (s.sequence + 1) % 2 ^ 64
  let job : Job := { ID := id, Request := req, StartTime := now, Status := RunningStatus }
  (job, { sequence := id, jobs := s.jobs ++ [job] })

/-- Replace the status of the stored job with the given ID. -/
def setStatus (jobID : Nat) (status : String) : List Job → List Job
  | [] => []
  | j :: rest =>
    if j.ID = jobID then { j with Status := status } :: rest
    else j :: setStatus jobID status rest

/-- Modelled from the spec: `Finish` is not among the sources; the spec says
"sets the terminal status", and of a call on an already-terminal job "first
terminal write wins; reject or ignore subsequent calls", with the error kind
`AlreadyTerminal` that "must be rejected, not overwritten".  A job that is not
stored is reported like by `Get`.  Returns the error and the ledger
afterwards. -/
def Finish (jobID : Nat) (status : String) (ledger : List Job) : Option Error × List Job :=
  match Get jobID ledger with
  | .error err => (some err, ledger)
  | .ok j =>
    if j.Status = RunningStatus then (none, setStatus jobID status ledger)
    else (some ErrAlreadyTerminal, ledger)

/-- The type `jobs.JobFilter`. -/
structure JobFilter where
  Limit : Int
  Match : Job → Bool

/-- Modelled from the spec: `jobs.MultiMatch` is not among the sources; the
spec says "a job is selected only if every sub-predicate returns true". -/
def MultiMatch (matchers : List (Job → Bool)) : Job → Bool :=
  fun j => matchers.all (fun m => m j)

/-- The order of the scan: the job with the higher ID comes first. -/
def newerFirst (a b : Job) : Prop := b.ID ≤ a.ID

instance : DecidableRel newerFirst := fun a b => inferInstanceAs (Decidable (b.ID ≤ a.ID))

/-- Modelled from the spec: `jobs.Find` is not among the sources; the spec says
"Candidates are scanned in descending ID order", "A candidate is included iff
`Match(candidate)` is true", "Scanning stops once `Limit` matches have been
collected (Limit ≤ 0 yields zero results)".  The storage does not fail. -/
def Find (filter : JobFilter) (ledger : List Job) : Except Error (List Job) :=
  .ok (scan filter.Match filter.Limit.toNat (ledger.insertionSort newerFirst))

end jobs

/-! ## The token store -/

namespace tokens

/-- The fields of `tokens.Token` that the sources show. -/
structure Token where
  TokenID : String := ""
  UserID : String := ""
  UserLink : String := ""
  ChannelLink : String := ""
  Text : String := ""
  deriving DecidableEq, Repr

/-- The fields of `tokens.NewTokenRequest` that the sources show. -/
structure NewTokenRequest where
  UserID : String := ""
  UserLink : String := ""
  ChannelLink : String := ""
  Text : String := ""
  deriving DecidableEq, Repr

/-- The type `tokens.Filter`. -/
structure Filter where
  Limit : Int
  Match : Token → Bool

/-- Modelled from the spec: `tokens.MultiMatch` is not among the sources; the
spec says "filters combine via AND as above". -/
def MultiMatch (matchers : List (Token → Bool)) : Token → Bool :=
  fun t => matchers.all (fun m => m t)

/-- Modelled from the spec: `tokens.Create` is not among the sources; the spec
says "generates a fresh unguessable ID, persists the record, returns the ID".
The generated ID is the parameter `newID`; the store is the list of tokens in
scan order.  Returns the ID, the error, and the store afterwards. -/
def Create (newID : String) (r : NewTokenRequest) (store : List Token) :
    (String × Option Error) × List Token :=
  ((newID, none),
    store ++ [{ TokenID := newID, UserID := r.UserID, UserLink := r.UserLink,
                ChannelLink := r.ChannelLink, Text := r.Text }])

/-- Modelled from the spec: `tokens.Find` is not among the sources; the spec
says "same scan-and-match-and-limit contract as Job filtering", in an order
that is "insertion order or ID order".  The storage does not fail. -/
def Find (filter : Filter) (store : List Token) : Except Error (List Token) :=
  .ok (scan filter.Match filter.Limit.toNat store)

end tokens

/-! ## Builtin commands that query the ledger, the logs and the tokens -/

namespace builtins

/-- One line of the rendering of `jobsTemplate`. -/
def jobLine (HumanizeTime : Nat → String) (j : jobs.Job) : String :=
  "*" ++ toString j.ID ++ "* - " ++ HumanizeTime j.StartTime ++ " - *" ++ j.Request.Command
    ++ "* by *" ++ j.Request.Username ++ "* in *"
    ++ (if j.Request.IsIM = true then "DM" else j.Request.ChannelLink)
    ++ "* - *" ++ j.Status ++ "*\n"

/-- Modelled from the spec: the package `template` is not among the sources;
the spec treats rendering as "a pure function from a named payload to text".
This is the text that `jobsTemplate` yields for the payload `jobs`: a fixed
line when there are none, otherwise one line per job.  The template function
`HumanizeTime` is the parameter. -/
def renderJobsTemplate (HumanizeTime : Nat → String) (js : List jobs.Job) : String :=
  match js with
  | [] => "No jobs found\n"
  | _ :: _ => String.join (js.map (jobLine HumanizeTime))

/-- Modelled from the spec: the text that `jobTemplate` yields for the payload
`job`; the line of the arguments is left out when there are none. -/
def renderJobTemplate (HumanizeTime : Nat → String) (j : jobs.Job) : String :=
  "* *ID* " ++ toString j.ID ++ "\n* *Status* " ++ j.Status ++ "\n* *Command* "
    ++ j.Request.Command
    ++ (match j.Request.Args with
        | [] => ""
        | _ :: _ => "\n* *Args* \"" ++ "\" \"".intercalate j.Request.Args ++ "\" ")
    ++ "\n* *Where* " ++ (if j.Request.IsIM = true then "IM" else j.Request.ChannelLink)
    ++ "\n* *When* " ++ HumanizeTime j.StartTime ++ "\n"

/-- One line of the rendering of `listTokensTemplate`. -/
def tokenLine (t : tokens.Token) : String :=
  "- *" ++ t.TokenID ++ "* " ++ t.UserLink ++ " at " ++ t.ChannelLink ++ " _" ++ t.Text ++ "_\n"

/-- Modelled from the spec: the text that `listTokensTemplate` yields for the
payload `tokens`. -/
def renderListTokensTemplate (ts : List tokens.Token) : String :=
  match ts with
  | [] => "No tokens could be found"
  | _ :: _ => String.join (ts.map tokenLine)

/-- The function `isUser`. -/
def isUser (username : String) : jobs.Job → Bool :=
  fun j => decide (j.Request.Username = username)

/-- The function `isJobID`. -/
def isJobID (jobID : Nat) : jobs.Job → Bool :=
  fun j => decide (j.ID = jobID)

/-- The function `isStatusOrEmpty`. -/
def isStatusOrEmpty (status : String) : jobs.Job → Bool :=
  fun j => if status = "" then true else decide (j.Status = status)

/-- The flags that `jobsCommand.Execute` defines, with their default values. -/
def jobsCommand.flags : flag.FlagSet :=
  [("limit", .intValue 5), ("status", .stringValue "")]

/-- The method `jobsCommand.Execute`: the output and the error. -/
def jobsCommand.Execute (HumanizeTime : Nat → String) (u : unicode.Tables)
    (job : jobs.Job) (ledger : List jobs.Job) : String × Option Error :=
  let parsed := flag.Parse jobsCommand.flags job.Request.Args
  match parsed.1 with
  | some err => ("", some err)
  | none =>
    let limit := flag.intOf "limit" parsed.2
    let status := flag.stringOf "status" parsed.2
    let callingUser := job.Request.Username
    let requestedStatus := strings.Title u status
    match jobs.Find
        { Limit := limit
          Match := jobs.MultiMatch [isUser callingUser, isStatusOrEmpty requestedStatus] }
        ledger with
    | .error err => ("", some err)
    | .ok found => (renderJobsTemplate HumanizeTime found, none)

/-- The flags that `auditCommand.Execute` defines, with their default values. -/
def auditCommand.flags : flag.FlagSet :=
  [("limit", .intValue 5), ("user", .stringValue ""), ("status", .stringValue "")]

/-- The method `auditCommand.Execute`: the output and the error. -/
def auditCommand.Execute (HumanizeTime : Nat → String) (u : unicode.Tables)
    (job : jobs.Job) (ledger : List jobs.Job) : String × Option Error :=
  let parsed := flag.Parse auditCommand.flags job.Request.Args
  match parsed.1 with
  | some err => ("", some err)
  | none =>
    let limit := flag.intOf "limit" parsed.2
    let user := flag.stringOf "user" parsed.2
    let status := flag.stringOf "status" parsed.2
    let requestedStatus := strings.Title u status
    match jobs.Find
        { Limit := limit
          Match := jobs.MultiMatch
            [isStatusOrEmpty requestedStatus,
             fun j => if user = "" then true else decide (user = j.Request.Username)] }
        ledger with
    | .error err => ("", some err)
    | .ok found => (renderJobsTemplate HumanizeTime found, none)

/-- The method `lastCommand.Execute`: the output and the error. -/
def lastCommand.Execute (HumanizeTime : Nat → String) (job : jobs.Job)
    (ledger : List jobs.Job) : String × Option Error :=
  let callingUser := job.Request.Username
  match jobs.Find { Limit := 1, Match := isUser callingUser } ledger with
  | .error err => ("", some (.wrapped "failed to get the last job: " err))
  | .ok [] => ("", some (.text "No last command for current user"))
  | .ok (j :: _) => (renderJobTemplate HumanizeTime j, none)

/-- The method `findJobCommand.Execute`: the output and the error. -/
def findJobCommand.Execute (HumanizeTime : Nat → String) (job : jobs.Job)
    (ledger : List jobs.Job) : String × Option Error :=
  match parseJobID job with
  | .error err => ("", some err)
  | .ok id =>
    let callingUser := job.Request.Username
    match jobs.Find
        { Limit := 1, Match := jobs.MultiMatch [isUser callingUser, isJobID id] } ledger with
    | .error err => ("", some (.wrapped "failed to get the last job: " err))
    | .ok [] => ("", some (.text "No last command for current user"))
    | .ok (j :: _) => (renderJobTemplate HumanizeTime j, none)

/-- The method `logsCommand.Execute`: the output and the error, from the
ledger and the log store. -/
def logsCommand.Execute (job : jobs.Job) (ledger : List jobs.Job) (d : DB) :
    String × Option Error :=
  match parseJobID job with
  | .error err => ("", some err)
  | .ok id =>
    let callingUser := job.Request.Username
    match jobs.Find
        { Limit := 1, Match := jobs.MultiMatch [isUser callingUser, isJobID id] } ledger with
    | .error err =>
      ("", some (.wrapped ("failed to find job with id " ++ toString id ++ ": ") err))
    | .ok [] =>
      ("", some (.text ("No job with id " ++ toString id ++ " for user " ++ callingUser)))
    | .ok (j :: _) =>
      match logs.Get j.ID d with
      | (_, some err) => ("", some err)
      | (jobLogs, none) => (jobLogs.Output, jobLogs.GetError)

/-- The error of the three token commands outside an IM conversation. -/
def errNotIM : Error :=
  .text "API tokens can only be managed over an IM conversation, security ffs"

/-- The method `newAPITokenCommand.Execute`: the output, the error, and the
token store afterwards.  `newID` is the ID that `tokens.Create` generates. -/
def newAPITokenCommand.Execute (newID : String) (job : jobs.Job)
    (store : List tokens.Token) : (String × Option Error) × List tokens.Token :=
  if job.Request.IsIM = false then (("", some errNotIM), store)
  else if job.Request.Args.length < 3 then
    (("", some (.text "not enough arguments passed in")), store)
  else
    let created := tokens.Create newID
      { UserLink := job.Request.Args.getD 0 ""
        ChannelLink := job.Request.Args.getD 1 ""
        Text := " ".intercalate (job.Request.Args.drop 2) } store
    (("created token " ++ created.1.1, created.1.2), created.2)

/-- The matchers that `listAPITokensCommand.Execute` builds from its flags. -/
def tokenMatchers (user channel command : String) : List (tokens.Token → Bool) :=
  (if user ≠ "" then [fun t : tokens.Token => decide (t.UserLink = user)] else [])
    ++ (if channel ≠ "" then [fun t : tokens.Token => decide (t.ChannelLink = channel)] else [])
    ++ (if command ≠ "" then [fun t : tokens.Token => command.toList.isPrefixOf t.Text.toList]
        else [])

/-- The flags that `listAPITokensCommand.Execute` defines, with their default
values. -/
def listAPITokensCommand.flags : flag.FlagSet :=
  [("limit", .intValue 5), ("user", .stringValue ""), ("channel", .stringValue ""),
   ("command", .stringValue "")]

/-- The method `listAPITokensCommand.Execute`: the output and the error.  The
error of `flags.Parse` is dropped, as in the source. -/
def listAPITokensCommand.Execute (job : jobs.Job) (store : List tokens.Token) :
    String × Option Error :=
  if job.Request.IsIM = false then ("", some errNotIM)
  else
    let parsed := flag.Parse listAPITokensCommand.flags job.Request.Args
    let limit := flag.intOf "limit" parsed.2
    let user := flag.stringOf "user" parsed.2
    let channel := flag.stringOf "channel" parsed.2
    let command := flag.stringOf "command" parsed.2
    match tokens.Find
        { Limit := limit, Match := tokens.MultiMatch (tokenMatchers user channel command) }
        store with
    | .error err => ("", some err)
    | .ok found => (renderListTokensTemplate found, none)

end builtins

end Meeseeks

/-! ## Revoking tokens -/

namespace Meeseeks

namespace tokens

/-- Modelled from the spec: the error of the token store for a token that is
not stored, the "not-found kind" of `Get` and `Revoke`. -/
def ErrTokenNotFound : Error := .text "no token found"

/-- Modelled from the spec: `tokens.Revoke` is not among the sources; the spec
says "deletes the record; fails if absent".  Returns the error and the store
afterwards. -/
def Revoke (tokenID : String) (store : List Token) : Option Error × List Token :=
  if store.any (fun t => decide (t.TokenID = tokenID)) then
    (none, store.filter (fun t => decide (t.TokenID ≠ tokenID)))
  else (some ErrTokenNotFound, store)

end tokens

namespace builtins

/-- The method `revokeAPITokenCommand.Execute`: the output, the error, and the
token store afterwards. -/
def revokeAPITokenCommand.Execute (job : jobs.Job) (store : List tokens.Token) :
    (String × Option Error) × List tokens.Token :=
  if job.Request.IsIM = false then (("", some errNotIM), store)
  else
    match job.Request.Args with
    | [tokenID] =>
      match tokens.Revoke tokenID store with
      | (some err, store1) => (("", some err), store1)
      | (none, store1) => (("Token *" ++ tokenID ++ "* has been revoked", none), store1)
    | _ => (("", some (.text "only one token ID should be passed as an argument")), store)

end builtins

end Meeseeks

/-! ## Notions used in the statements and proofs -/

namespace Meeseeks

/-- The number a key denotes when read as big-endian digits in base 256. -/
def keyVal : Key → Nat
  | [] => 0
  | a :: as => a * 256 ^ as.length + keyVal as

end Meeseeks

namespace Meeseeks

namespace logs

/-- The bucket of job `j` inside the `logs` bucket, if both exist. -/
def bucketOf (j : Nat) (d : DB) : Option JobBucket :=
  match d.logs with
  | none => none
  | some logsBucket => lookup (db.IDToBytes j) logsBucket

/-- The pairs holding the lines `cs` under the sequence numbers that follow
`s`. -/
def lineEntries : Nat → List String → List (Key × Entry)
  | _, [] => []
  | s, c :: cs => (db.IDToBytes (s + 1), .value c) :: lineEntries (s + 1) cs

/-- The job bucket after the lines `cs` have been appended to a job that had
none: absent when there are none. -/
def linesBucket (cs : List String) : Option JobBucket :=
  match cs with
  | [] => none
  | _ :: _ => some { sequence := cs.length, entries := lineEntries 0 cs }

/-- A pair as the log store writes them into a job bucket: a line under an
eight-byte key, or a nested bucket under the `error` key. -/
def EntryOK (p : Key × Entry) : Prop :=
  (p.1.length = 8 ∧ ∃ v, p.2 = .value v) ∨ (p.1 = errorKey ∧ ∃ b, p.2 = .bucket b)

/-- A job bucket all of whose pairs are as the log store writes them. -/
def WellFormed (b : JobBucket) : Prop :=
  ∀ p ∈ b.entries, EntryOK p

/-- A store all of whose job buckets are well formed. -/
def DBWellFormed (d : DB) : Prop :=
  ∀ j b, bucketOf j d = some b → WellFormed b

/-- A sequence of `Append` calls, each given by its job and its content. -/
def appendCalls (calls : List (Nat × String)) : List Op :=
  calls.map (fun p => Op.append p.1 p.2)

end logs

end Meeseeks

namespace Meeseeks

/-- A decimal digit. -/
def isDecimalDigit (c : Char) : Prop := '0' ≤ c ∧ c ≤ '9'

instance : DecidablePred isDecimalDigit := fun c => inferInstanceAs (Decidable ('0' ≤ c ∧ c ≤ '9'))

/-- The number that decimal digits denote after the number `n` read before
them. -/
def decimalFold (n : Nat) (cs : List Char) : Nat :=
  cs.foldl (fun a c => a * 10 + (c.toNat - 48)) n

/-- The number a text denotes in base 10, when it is a non-empty sequence of
decimal digits. -/
def decimalValue (s : String) : Option Nat :=
  if s.toList ≠ [] ∧ ∀ c ∈ s.toList, isDecimalDigit c then some (decimalFold 0 s.toList) else none

end Meeseeks

namespace Meeseeks

namespace jobs

/-- Perform a sequence of `Finish` calls, each given by its job and status; the
errors they return are dropped. -/
def finishAll (calls : List (Nat × String)) (ledger : List Job) : List Job :=
  calls.foldl (fun acc c => (Finish c.1 c.2 acc).2) ledger

/-- Perform a sequence of `Create` calls, each given by its request and time:
the jobs they return, in call order, and the ledger afterwards. -/
def createAll : List (request.Request × Nat) → Store → List Job × Store
  | [], s => ([], s)
  | c :: rest, s =>
    ((Create c.1 c.2 s).1 :: (createAll rest (Create c.1 c.2 s).2).1,
      (createAll rest (Create c.1 c.2 s).2).2)

/-- The stored status of a job, if the job is stored. -/
def statusOf (jobID : Nat) (ledger : List Job) : Option String :=
  match Get jobID ledger with
  | .ok j => some j.Status
  | .error _ => none

end jobs

end Meeseeks

namespace Meeseeks

namespace logs

/-- What may follow the lines in a job bucket: nothing, or the nested `error`
bucket. -/
def ErrorTail (tail : List (Key × Entry)) : Prop :=
  tail = [] ∨ ∃ eb, tail = [(errorKey, .bucket eb)]

/-- A job bucket that holds the lines `cs` under the sequence numbers from 1
on, followed by the `error` bucket if there is one. -/
def HoldsLines (cs : List String) (b : JobBucket) : Prop :=
  ∃ tail, ErrorTail tail ∧ b = { sequence := cs.length, entries := lineEntries 0 cs ++ tail }

/-- Whether a call is an `Append`. -/
def Op.isAppend : Op → Bool
  | .append _ _ => true
  | .setError _ _ => false

end logs

end Meeseeks

namespace Meeseeks

namespace builtins

/-- The constraints that the flags of the tokens command put on a token: each
of the three is void when its flag is empty. -/
def tokenSelected (user channel command : String) (t : tokens.Token) : Bool :=
  decide ((user = "" ∨ t.UserLink = user) ∧ (channel = "" ∨ t.ChannelLink = channel) ∧
    (command = "" ∨ command.toList.isPrefixOf t.Text.toList = true))

/-- The jobs of the ledger, the one with the highest ID first. -/
def newestFirst (ledger : List jobs.Job) : List jobs.Job :=
  ledger.insertionSort jobs.newerFirst

end builtins

end Meeseeks

namespace Meeseeks

namespace builtins

/-- The jobs that the jobs command selects for a calling user and a value of
the flag `-status`: those of that user, and when the title-cased status is not
empty, with that status. -/
def jobsCommand.selected (u : unicode.Tables) (caller status : String) (j : jobs.Job) : Bool :=
  decide (j.Request.Username = caller ∧
    (strings.Title u status = "" ∨ j.Status = strings.Title u status))

/-- The jobs that the audit command selects for the values of the flags
`-status` and `-user`: an empty value selects every job. -/
def auditCommand.selected (u : unicode.Tables) (status user : String) (j : jobs.Job) : Bool :=
  decide ((strings.Title u status = "" ∨ j.Status = strings.Title u status) ∧
    (user = "" ∨ j.Request.Username = user))

/-- The first `limit` selected jobs of the ledger, newest first. -/
def listed (selected : jobs.Job → Bool) (limit : Int) (ledger : List jobs.Job) :
    List jobs.Job :=
  ((newestFirst ledger).filter selected).take limit.toNat

end builtins

end Meeseeks

namespace Meeseeks

namespace builtins

/-- The value of the flag `-limit` of the jobs command after its arguments
have been parsed. -/
def jobsCommand.limitFlag (job : jobs.Job) : Int :=
  flag.intOf "limit" (flag.Parse jobsCommand.flags job.Request.Args).2

/-- The value of the flag `-status` of the jobs command after its arguments
have been parsed. -/
def jobsCommand.statusFlag (job : jobs.Job) : String :=
  flag.stringOf "status" (flag.Parse jobsCommand.flags job.Request.Args).2

/-- The jobs of a user, or of every user when the name is empty. -/
def ofUser (user : String) (j : jobs.Job) : Bool :=
  decide (user = "" ∨ j.Request.Username = user)

end builtins

end Meeseeks

/-! ## The key order -/

namespace Meeseeks

theorem keyVal_lt (as : Key) (h : ∀ x ∈ as, x < 256) : keyVal as < 256 ^ as.length := by
  induction as with
  | nil => simp [keyVal]
  | cons a as ih =>
    have ha : a < 256 := h a (by simp)
    have ih1 := ih (fun x hx => h x (by simp [hx]))
    simp only [keyVal, List.length_cons, pow_succ]
    nlinarith

theorem keyLt_eq_decide_keyVal (as bs : Key) (hlen : as.length = bs.length)
    (ha : ∀ x ∈ as, x < 256) (hb : ∀ x ∈ bs, x < 256) :
    keyLt as bs = decide (keyVal as < keyVal bs) := by
  induction as generalizing bs with
  | nil =>
    cases bs with
    | nil => simp [keyLt, keyVal]
    | cons b bs => simp at hlen
  | cons a as ih =>
    cases bs with
    | nil => simp at hlen
    | cons b bs =>
      have hlen1 : as.length = bs.length := by simpa using hlen
      have iha := ih bs hlen1 (fun x hx => ha x (by simp [hx])) (fun x hx => hb x (by simp [hx]))
      have h1 := keyVal_lt as (fun x hx => ha x (by simp [hx]))
      have h2 := keyVal_lt bs (fun x hx => hb x (by simp [hx]))
      simp only [keyLt, keyVal, iha, hlen1]
      rw [hlen1] at h1
      generalize 256 ^ bs.length = P at h1 h2 ⊢
      rcases Nat.lt_trichotomy a b with hab | hab | hab
      · have : a * P + P ≤ b * P := by nlinarith
        simp [hab]; omega
      · subst hab; simp
      · have : b * P + P ≤ a * P := by nlinarith
        have h3 : ¬ a < b := by omega
        have h4 : a ≠ b := by omega
        simp [h3, h4]; omega

theorem keyVal_IDToBytes (a : Nat) (h : a < 2 ^ 64) : keyVal (db.IDToBytes a) = a := by
  simp only [db.IDToBytes, keyVal, List.length_cons, List.length_nil]
  norm_num
  omega

theorem IDToBytes_bytes (a : Nat) : ∀ x ∈ db.IDToBytes a, x < 256 := by
  intro x hx
  simp only [db.IDToBytes, List.mem_cons, List.mem_singleton] at hx
  simp only [List.not_mem_nil, or_false] at hx
  rcases hx with h | h | h | h | h | h | h | h <;> subst h <;> exact Nat.mod_lt _ (by norm_num)

theorem IDToBytes_length (a : Nat) : (db.IDToBytes a).length = 8 := rfl

theorem keyLt_IDToBytes (a b : Nat) (ha : a < 2 ^ 64) (hb : b < 2 ^ 64) :
    keyLt (db.IDToBytes a) (db.IDToBytes b) = decide (a < b) := by
  rw [keyLt_eq_decide_keyVal (db.IDToBytes a) (db.IDToBytes b) rfl (IDToBytes_bytes a)
      (IDToBytes_bytes b),
    keyVal_IDToBytes a ha, keyVal_IDToBytes b hb]

theorem IDToBytes_injective (a b : Nat) (ha : a < 2 ^ 64) (hb : b < 2 ^ 64)
    (h : db.IDToBytes a = db.IDToBytes b) : a = b := by
  rw [← keyVal_IDToBytes a ha, ← keyVal_IDToBytes b hb, h]

end Meeseeks

/-! ## The store -/

namespace Meeseeks

theorem lookup_put_same {α : Type} (k : Key) (v : α) (l : List (Key × α)) :
    lookup k (put k v l) = some v := by
  induction l with
  | nil => simp [put, lookup]
  | cons p rest ih =>
    obtain ⟨k1, v1⟩ := p
    simp only [put]
    split
    · simp [lookup]
    · split
      · simp [lookup]
      · rename_i h _
        simp [lookup, h, ih]

theorem lookup_put_ne {α : Type} (k k2 : Key) (v : α) (l : List (Key × α)) (h : k2 ≠ k) :
    lookup k2 (put k v l) = lookup k2 l := by
  induction l with
  | nil => simp [put, lookup, h]
  | cons p rest ih =>
    obtain ⟨k1, v1⟩ := p
    simp only [put]
    split
    · rename_i hk
      subst hk
      simp [lookup, h]
    · split
      · simp [lookup, h]
      · simp [lookup, ih]

theorem mem_put {α : Type} (k : Key) (v : α) (l : List (Key × α)) (p : Key × α)
    (h : p ∈ put k v l) : p = (k, v) ∨ p ∈ l := by
  induction l with
  | nil => simpa [put] using h
  | cons q rest ih =>
    obtain ⟨k1, v1⟩ := q
    simp only [put] at h
    split at h
    · simp only [List.mem_cons] at h ⊢
      rcases h with h | h
      · exact Or.inl h
      · exact Or.inr (Or.inr h)
    · split at h
      · simp only [List.mem_cons] at h ⊢
        exact h
      · simp only [List.mem_cons] at h ⊢
        rcases h with h | h
        · exact Or.inr (Or.inl h)
        · rcases ih h with h | h
          · exact Or.inl h
          · exact Or.inr (Or.inr h)

theorem put_eq_append {α : Type} (k : Key) (v : α) (l : List (Key × α))
    (h : ∀ p ∈ l, k ≠ p.1 ∧ keyLt k p.1 = false) : put k v l = l ++ [(k, v)] := by
  induction l with
  | nil => simp [put]
  | cons q rest ih =>
    obtain ⟨k1, v1⟩ := q
    have hq := h (k1, v1) (by simp)
    have ihr := ih (fun p hp => h p (by simp [hp]))
    simp [put, hq.1, hq.2, ihr]

theorem lookup_mem {α : Type} (k : Key) (v : α) (l : List (Key × α))
    (h : lookup k l = some v) : (k, v) ∈ l := by
  induction l with
  | nil => simp [lookup] at h
  | cons q rest ih =>
    obtain ⟨k1, v1⟩ := q
    simp only [lookup] at h
    split at h
    · rename_i hk
      subst hk
      simp only [Option.some.injEq] at h
      subst h
      simp
    · simp [ih h]

theorem lookup_eq_none {α : Type} (k : Key) (l : List (Key × α))
    (h : ∀ p ∈ l, p.1 ≠ k) : lookup k l = none := by
  induction l with
  | nil => simp [lookup]
  | cons q rest ih =>
    obtain ⟨k1, v1⟩ := q
    have hq := h (k1, v1) (by simp)
    have hne : ¬ k = k1 := fun e => hq e.symm
    simp [lookup, hne, ih (fun p hp => h p (by simp [hp]))]

end Meeseeks

/-! ## The log store -/

namespace Meeseeks

namespace logs

theorem getJobBucket_eq (j : Nat) (d : DB) :
    getJobBucket j d = (bucketOf j d).getD JobBucket.empty := by
  unfold getJobBucket bucketOf
  cases h : d.logs <;> simp [lookup]

theorem bucketOf_commit (j k : Nat) (b : JobBucket) (d : DB) :
    bucketOf j (commitJobBucket k b d)
      = if db.IDToBytes j = db.IDToBytes k then some b else bucketOf j d := by
  unfold bucketOf commitJobBucket
  by_cases h : db.IDToBytes j = db.IDToBytes k
  · simp only [h, if_true]
    exact lookup_put_same _ _ _
  · simp only [h, if_false]
    rw [lookup_put_ne _ _ _ _ h]
    cases d.logs <;> simp [lookup]

theorem Get_eq (j : Nat) (d : DB) :
    Get j d = match bucketOf j d with
      | none => ({ Error := "", Output := "" }, some ErrNoLogsForJob)
      | some b => (readJobBucket b, none) := by
  unfold Get bucketOf
  cases d.logs with
  | none => rfl
  | some lb => cases lookup (db.IDToBytes j) lb <;> rfl

theorem bucketOf_Append_ne (j k : Nat) (c : String) (d : DB)
    (h : db.IDToBytes j ≠ db.IDToBytes k) :
    bucketOf j (Append k c d).2 = bucketOf j d := by
  unfold Append
  split
  · rfl
  · split
    · rfl
    · simp [bucketOf_commit, h]

theorem bucketOf_SetError_ne (j k : Nat) (e : Option String) (d : DB)
    (h : db.IDToBytes j ≠ db.IDToBytes k) :
    bucketOf j (SetError k e d).2 = bucketOf j d := by
  unfold SetError
  split
  · rfl
  · split
    · rfl
    · simp [bucketOf_commit, h]

theorem appendLine_ok (c : String) (b : JobBucket) (hb : WellFormed b) :
    appendLine c b = .ok
      { sequence := (b.sequence + 1) % 2 ^ 64
        entries := put (db.IDToBytes ((b.sequence + 1) % 2 ^ 64)) (.value c) b.entries } := by
  unfold appendLine
  dsimp only
  split
  · rename_i eb heq
    rcases hb _ (lookup_mem _ _ _ heq) with ⟨_, v, hv⟩ | ⟨hk, _⟩
    · simp at hv
    · have := congrArg List.length hk
      simp [db.IDToBytes, errorKey] at this
  · rfl

theorem putError_ok (msg : String) (b : JobBucket) (hb : WellFormed b) :
    ∃ eb, putError msg b = .ok
      { b with entries := put errorKey (.bucket (put errorKey msg eb)) b.entries } := by
  unfold putError
  split
  · rename_i v heq
    rcases hb _ (lookup_mem _ _ _ heq) with ⟨hk, _⟩ | ⟨_, eb, he⟩
    · simp [errorKey] at hk
    · simp at he
  · rename_i eb _
    exact ⟨eb, rfl⟩
  · exact ⟨[], rfl⟩

theorem WellFormed_empty : WellFormed JobBucket.empty := by
  intro p hp
  simp [JobBucket.empty] at hp

theorem WellFormed_put_line (b : JobBucket) (hb : WellFormed b) (s n : Nat) (c : String) :
    WellFormed { sequence := s, entries := put (db.IDToBytes n) (.value c) b.entries } := by
  intro p hp
  rcases mem_put _ _ _ _ hp with h | h
  · subst h
    exact Or.inl ⟨rfl, c, rfl⟩
  · exact hb p h

theorem WellFormed_put_error (b : JobBucket) (hb : WellFormed b) (eb : ErrorBucket) :
    WellFormed { b with entries := put errorKey (.bucket eb) b.entries } := by
  intro p hp
  rcases mem_put _ _ _ _ hp with h | h
  · subst h
    exact Or.inr ⟨rfl, eb, rfl⟩
  · exact hb p h

theorem WellFormed_getJobBucket (j : Nat) (d : DB) (hd : DBWellFormed d) :
    WellFormed (getJobBucket j d) := by
  rw [getJobBucket_eq]
  cases h : bucketOf j d with
  | none => exact WellFormed_empty
  | some b => exact hd j b h

theorem DBWellFormed_commit (k : Nat) (b : JobBucket) (d : DB) (hd : DBWellFormed d)
    (hb : WellFormed b) : DBWellFormed (commitJobBucket k b d) := by
  intro j b2 h
  rw [bucketOf_commit] at h
  split at h
  · simp only [Option.some.injEq] at h
    subst h
    exact hb
  · exact hd j b2 h

theorem DBWellFormed_empty : DBWellFormed DB.empty := by
  intro j b h
  simp [bucketOf, DB.empty] at h

theorem Append_eq (k : Nat) (c : String) (d : DB) (hd : DBWellFormed d) (hc : c ≠ "") :
    Append k c d = (none, commitJobBucket k
      { sequence := ((getJobBucket k d).sequence + 1) % 2 ^ 64
        entries := put (db.IDToBytes (((getJobBucket k d).sequence + 1) % 2 ^ 64)) (.value c)
          (getJobBucket k d).entries } d) := by
  unfold Append
  rw [appendLine_ok c _ (WellFormed_getJobBucket k d hd)]
  simp [hc]

theorem SetError_eq (k : Nat) (msg : String) (d : DB) (hd : DBWellFormed d) :
    ∃ eb, SetError k (some msg) d = (none, commitJobBucket k
      { getJobBucket k d with
        entries := put errorKey (.bucket (put errorKey msg eb)) (getJobBucket k d).entries } d) := by
  obtain ⟨eb, h⟩ := putError_ok msg _ (WellFormed_getJobBucket k d hd)
  refine ⟨eb, ?_⟩
  unfold SetError
  simp only [h]

theorem DBWellFormed_apply (o : Op) (d : DB) (hd : DBWellFormed d) :
    DBWellFormed (o.apply d) := by
  cases o with
  | append k c =>
    by_cases hc : c = ""
    · simpa [Op.apply, Append, hc] using hd
    · simp only [Op.apply, Append_eq k c d hd hc]
      exact DBWellFormed_commit _ _ _ hd
        (WellFormed_put_line _ (WellFormed_getJobBucket k d hd) _ _ _)
  | setError k e =>
    cases e with
    | none => simpa [Op.apply, SetError] using hd
    | some msg =>
      obtain ⟨eb, h⟩ := SetError_eq k msg d hd
      simp only [Op.apply, h]
      exact DBWellFormed_commit _ _ _ hd
        (WellFormed_put_error _ (WellFormed_getJobBucket k d hd) _)

theorem DBWellFormed_run (ops : List Op) (d : DB) (hd : DBWellFormed d) :
    DBWellFormed (run ops d) := by
  induction ops generalizing d with
  | nil => exact hd
  | cons o rest ih => exact ih _ (DBWellFormed_apply o d hd)

theorem reachable_wellFormed (ops : List Op) : DBWellFormed (run ops DB.empty) :=
  DBWellFormed_run ops _ DBWellFormed_empty

/-- After a successful `SetError` the job's bucket exists and the error read
back from it is the one that was set. -/
theorem Get_SetError (k : Nat) (msg : String) (d : DB) (hd : DBWellFormed d) :
    (SetError k (some msg) d).1 = none ∧
    (Get k (SetError k (some msg) d).2).2 = none ∧
    (Get k (SetError k (some msg) d).2).1.Error = msg := by
  obtain ⟨eb, h⟩ := SetError_eq k msg d hd
  rw [h, Get_eq, bucketOf_commit]
  simp [readJobBucket, lookup_put_same]

end logs

end Meeseeks

namespace Meeseeks

namespace logs

theorem String_join_cons (c : String) (cs : List String) :
    String.join (c :: cs) = c ++ String.join cs := by
  have key : ∀ (l : List String) (acc : String),
      List.foldl (fun r s => r ++ s) acc l = acc ++ List.foldl (fun r s => r ++ s) "" l := by
    intro l
    induction l with
    | nil => intro acc; simp
    | cons x xs ih =>
      intro acc
      simp only [List.foldl_cons]
      rw [ih (acc ++ x), ih ("" ++ x), String.empty_append, String.append_assoc]
  simp only [String.join, List.foldl_cons]
  rw [key cs ("" ++ c), String.empty_append]

theorem readLines_lineEntries (s : Nat) (cs : List String) :
    readLines (lineEntries s cs) = String.join cs := by
  induction cs generalizing s with
  | nil => rfl
  | cons c cs ih => simp only [lineEntries, readLines, ih, String_join_cons]

theorem lineEntries_append (s : Nat) (cs : List String) (c : String) :
    lineEntries s (cs ++ [c])
      = lineEntries s cs ++ [(db.IDToBytes (s + cs.length + 1), .value c)] := by
  induction cs generalizing s with
  | nil => simp [lineEntries]
  | cons x xs ih =>
    have h1 : s + 1 + xs.length + 1 = s + (xs.length + 1) + 1 := by omega
    show (db.IDToBytes (s + 1), Entry.value x) :: lineEntries (s + 1) (xs ++ [c]) = _
    rw [ih (s + 1), h1]
    rfl

theorem mem_lineEntries (s : Nat) (cs : List String) (p : Key × Entry)
    (h : p ∈ lineEntries s cs) :
    ∃ i, s < i ∧ i ≤ s + cs.length ∧ p.1 = db.IDToBytes i ∧ ∃ v, p.2 = .value v := by
  induction cs generalizing s with
  | nil => simp [lineEntries] at h
  | cons x xs ih =>
    simp only [lineEntries, List.mem_cons] at h
    rcases h with h | h
    · subst h
      exact ⟨s + 1, by omega, by simp, rfl, x, rfl⟩
    · obtain ⟨i, h1, h2, h3⟩ := ih (s + 1) h
      exact ⟨i, by omega, by simp only [List.length_cons]; omega, h3⟩

theorem WellFormed_lineEntries (n : Nat) (cs : List String) :
    WellFormed { sequence := n, entries := lineEntries 0 cs } := by
  intro p hp
  obtain ⟨i, _, _, hk, hv⟩ := mem_lineEntries 0 cs p hp
  exact Or.inl ⟨by rw [hk]; rfl, hv⟩

theorem linesBucket_getD (cs : List String) :
    (linesBucket cs).getD JobBucket.empty
      = { sequence := cs.length, entries := lineEntries 0 cs } := by
  cases cs <;> rfl

theorem linesBucket_append (cs : List String) (c : String) :
    linesBucket (cs ++ [c])
      = some { sequence := cs.length + 1, entries := lineEntries 0 (cs ++ [c]) } := by
  cases cs <;> simp [linesBucket]

/-- Appending one more line to a job that holds the lines `cs`, while the
sequence counter has not wrapped. -/
theorem appendLine_lines (cs : List String) (c : String) (h : cs.length + 1 < 2 ^ 64) :
    appendLine c { sequence := cs.length, entries := lineEntries 0 cs }
      = .ok { sequence := cs.length + 1, entries := lineEntries 0 (cs ++ [c]) } := by
  rw [appendLine_ok c _ (WellFormed_lineEntries _ cs)]
  simp only [Nat.mod_eq_of_lt h, lineEntries_append, Nat.zero_add]
  rw [put_eq_append]
  intro p hp
  obtain ⟨i, h1, h2, hk, _⟩ := mem_lineEntries 0 cs p hp
  rw [hk]
  constructor
  · intro e
    have := IDToBytes_injective _ _ h (by omega) e
    omega
  · rw [keyLt_IDToBytes _ _ h (by omega)]
    simp
    omega

theorem bucketOf_run_appends (j : Nat) (hj : j < 2 ^ 64) (calls : List (Nat × String))
    (hids : ∀ p ∈ calls, p.1 < 2 ^ 64) (cs0 : List String) (d : DB)
    (hd : bucketOf j d = linesBucket cs0)
    (hn : (cs0 ++ appended j (appendCalls calls)).length < 2 ^ 64) :
    bucketOf j (run (appendCalls calls) d) = linesBucket (cs0 ++ appended j (appendCalls calls)) := by
  induction calls generalizing cs0 d with
  | nil => simpa [appendCalls, run, appended] using hd
  | cons p rest ih =>
    obtain ⟨k, c⟩ := p
    have hk : k < 2 ^ 64 := hids (k, c) (by simp)
    have hrest : ∀ q ∈ rest, q.1 < 2 ^ 64 := fun q hq => hids q (by simp [hq])
    have hrun : run (appendCalls ((k, c) :: rest)) d
        = run (appendCalls rest) (Append k c d).2 := by
      simp [appendCalls, run, Op.apply]
    have happ : appended j (appendCalls ((k, c) :: rest))
        = if k = j ∧ c ≠ "" then c :: appended j (appendCalls rest)
          else appended j (appendCalls rest) := by
      simp [appendCalls, appended]
    rw [hrun, happ]
    rw [happ] at hn
    by_cases hkc : k = j ∧ c ≠ ""
    · obtain ⟨hkj, hc⟩ := hkc
      subst hkj
      simp only [hc, ne_eq, not_false_eq_true, and_self, if_true] at hn ⊢
      have hlen : cs0.length + 1 < 2 ^ 64 := by
        simp only [List.length_append, List.length_cons] at hn
        omega
      have hstep : bucketOf k (Append k c d).2 = linesBucket (cs0 ++ [c]) := by
        unfold Append
        rw [getJobBucket_eq, hd, linesBucket_getD, appendLine_lines cs0 c hlen]
        simp [hc, bucketOf_commit, linesBucket_append]
      have := ih hrest (cs0 ++ [c]) _ hstep (by simpa using hn)
      simpa using this
    · simp only [hkc, if_false] at hn ⊢
      have hstep : bucketOf j (Append k c d).2 = linesBucket cs0 := by
        by_cases hc : c = ""
        · simpa [Append, hc] using hd
        · have hne : k ≠ j := fun e => hkc ⟨e, hc⟩
          rw [bucketOf_Append_ne j k c d
            (fun e => hne (IDToBytes_injective _ _ hj hk e).symm), hd]
      exact ih hrest cs0 _ hstep hn

theorem bucketOf_apply_isSome (j : Nat) (hj : j < 2 ^ 64) (o : Op) (ho : o.jobID < 2 ^ 64)
    (d : DB) (hd : DBWellFormed d) :
    (bucketOf j (o.apply d)).isSome
      = ((bucketOf j d).isSome || (decide (o.jobID = j) && o.writes)) := by
  cases o with
  | append k c =>
    simp only [Op.jobID] at ho
    by_cases hc : c = ""
    · simp [Op.apply, Append, hc, Op.writes]
    · by_cases hkj : k = j
      · subst hkj
        simp [Op.apply, Append_eq k c d hd hc, bucketOf_commit, Op.writes, Op.jobID, hc]
      · rw [show (Op.append k c).apply d = (Append k c d).2 from rfl,
          bucketOf_Append_ne j k c d (fun e => hkj (IDToBytes_injective _ _ hj ho e).symm)]
        simp [Op.jobID, hkj]
  | setError k e =>
    simp only [Op.jobID] at ho
    cases e with
    | none => simp [Op.apply, SetError, Op.writes]
    | some msg =>
      by_cases hkj : k = j
      · subst hkj
        obtain ⟨eb, h⟩ := SetError_eq k msg d hd
        simp [Op.apply, h, bucketOf_commit, Op.writes, Op.jobID]
      · rw [show (Op.setError k (some msg)).apply d = (SetError k (some msg) d).2 from rfl,
          bucketOf_SetError_ne j k _ d (fun e => hkj (IDToBytes_injective _ _ hj ho e).symm)]
        simp [Op.jobID, hkj]

theorem bucketOf_run_isSome (j : Nat) (hj : j < 2 ^ 64) (ops : List Op)
    (hids : ∀ o ∈ ops, o.jobID < 2 ^ 64) (d : DB) (hd : DBWellFormed d) :
    (bucketOf j (run ops d)).isSome
      = ((bucketOf j d).isSome || ops.any (fun o => decide (o.jobID = j) && o.writes)) := by
  induction ops generalizing d with
  | nil => simp [run]
  | cons o rest ih =>
    have hrun : run (o :: rest) d = run rest (o.apply d) := rfl
    rw [hrun, ih (fun q hq => hids q (by simp [hq])) _ (DBWellFormed_apply o d hd),
      bucketOf_apply_isSome j hj o (hids o (by simp)) d hd]
    simp [Bool.or_assoc]

end logs

end Meeseeks

/-! ## Properties of the log store -/

namespace Meeseeks

namespace logs

theorem appended_appendCalls (j : Nat) (calls : List (Nat × String)) :
    appended j (appendCalls calls)
      = (calls.filter (fun p => decide (p.1 = j ∧ p.2 ≠ ""))).map Prod.snd := by
  induction calls with
  | nil => rfl
  | cons p rest ih =>
    obtain ⟨k, c⟩ := p
    have h : appended j (appendCalls ((k, c) :: rest))
        = if k = j ∧ c ≠ "" then c :: appended j (appendCalls rest)
          else appended j (appendCalls rest) := by
      simp [appendCalls, appended]
    rw [h, ih]
    by_cases hkc : k = j ∧ c ≠ ""
    · simp [hkc, List.filter_cons]
    · have hd : decide (k = j ∧ c ≠ "") = false := by simpa using hkc
      simp only [hkc, if_false, List.filter_cons, hd]
      simp

/-- C1: on an initially empty store, after any sequence of `Append` calls
(each to any job), the output `Get` returns for job `j` is the concatenation,
in call order and without separator, of exactly the non-empty contents that
were appended to `j`.  Job identifiers are `uint64` values and the sequence
counter of `j` has not wrapped (fewer than `2^64` lines). -/
theorem Get_output_after_appends (calls : List (Nat × String)) (j : Nat) (hj : j < 2 ^ 64)
    (hids : ∀ p ∈ calls, p.1 < 2 ^ 64)
    (hn : ((calls.filter (fun p => decide (p.1 = j ∧ p.2 ≠ ""))).map Prod.snd).length < 2 ^ 64) :
    (Get j (run (appendCalls calls) DB.empty)).1.Output
      = String.join ((calls.filter (fun p => decide (p.1 = j ∧ p.2 ≠ ""))).map Prod.snd) := by
  rw [← appended_appendCalls] at hn ⊢
  have h := bucketOf_run_appends j hj calls hids [] DB.empty rfl (by simpa using hn)
  rw [Get_eq, h]
  simp only [List.nil_append]
  cases hcs : appended j (appendCalls calls) with
  | nil => rfl
  | cons c cs =>
    show readLines (lineEntries 0 (c :: cs)) = _
    exact readLines_lineEntries 0 (c :: cs)

/-- An instance of C1: two lines on job 1, with a line on job 2 and an empty
append in between. -/
theorem Get_output_after_appends_witness :
    (Get 1 (run (appendCalls [(1, "a"), (2, "x"), (1, ""), (1, "b")]) DB.empty)).1.Output
      = "ab" :=
  (Get_output_after_appends [(1, "a"), (2, "x"), (1, ""), (1, "b")] 1 (by decide) (by decide)
    (by decide)).trans (by decide)

/-- C2: in every state the log store can reach, after `SetError(j, e1)`
followed by `SetError(j, e2)` with non-nil errors, `Get(j)` succeeds and its
`Error` field is the text of `e2`. -/
theorem SetError_twice_last_wins (ops : List Op) (j : Nat) (e1 e2 : String) :
    (Get j (SetError j (some e2) (SetError j (some e1) (run ops DB.empty)).2).2).2 = none ∧
    (Get j (SetError j (some e2) (SetError j (some e1) (run ops DB.empty)).2).2).1.Error
      = e2 := by
  have hd1 : DBWellFormed (SetError j (some e1) (run ops DB.empty)).2 :=
    DBWellFormed_apply (.setError j (some e1)) _ (reachable_wellFormed ops)
  exact (Get_SetError j e2 _ hd1).2

/-- C3 (the error is settable at most once) does not hold: on a fresh store
the second `SetError` on job 1 is accepted and replaces the error, so `Get` no
longer returns the first one. -/
theorem SetError_second_not_ignored :
    (SetError 1 (some "first") DB.empty).1 = none ∧
    (SetError 1 (some "second") (SetError 1 (some "first") DB.empty).2).1 = none ∧
    (Get 1 (SetError 1 (some "second") (SetError 1 (some "first") DB.empty).2).2).1.Error
      ≠ "first" := by
  decide

/-- C3, amended: the error of a job log is overwritten by every set.  In every
reachable state, `SetError(j, e1)` succeeds, a following `SetError(j, e2)` is
accepted as well, and `Get(j).Error` is then the text of `e2`; it is still the
text of `e1` only when the two texts are equal. -/
theorem SetError_overwrites (ops : List Op) (j : Nat) (e1 e2 : String) :
    (SetError j (some e1) (run ops DB.empty)).1 = none ∧
    (SetError j (some e2) (SetError j (some e1) (run ops DB.empty)).2).1 = none ∧
    (Get j (SetError j (some e2) (SetError j (some e1) (run ops DB.empty)).2).2).1.Error
      = e2 ∧
    ((Get j (SetError j (some e2) (SetError j (some e1) (run ops DB.empty)).2).2).1.Error
      = e1 ↔ e2 = e1) := by
  have hd : DBWellFormed (run ops DB.empty) := reachable_wellFormed ops
  have hd1 : DBWellFormed (SetError j (some e1) (run ops DB.empty)).2 :=
    DBWellFormed_apply (.setError j (some e1)) _ hd
  have h2 := Get_SetError j e2 _ hd1
  refine ⟨(Get_SetError j e1 _ hd).1, h2.1, h2.2.2, ?_⟩
  rw [h2.2.2]

/-- C4: on an initially empty store, `Get(j)` fails with `ErrNoLogsForJob`
exactly when no earlier call was an `Append` of a non-empty content to `j` or
a `SetError` of a non-nil error on `j`, and it succeeds exactly when there was
one; job identifiers are `uint64` values. -/
theorem Get_fails_iff_no_write (ops : List Op) (j : Nat) (hj : j < 2 ^ 64)
    (hids : ∀ o ∈ ops, o.jobID < 2 ^ 64) :
    ((Get j (run ops DB.empty)).2 = some ErrNoLogsForJob
      ↔ ¬ ∃ o ∈ ops, o.jobID = j ∧ o.writes = true) ∧
    ((Get j (run ops DB.empty)).2 = none ↔ ∃ o ∈ ops, o.jobID = j ∧ o.writes = true) := by
  have h := bucketOf_run_isSome j hj ops hids DB.empty DBWellFormed_empty
  have h0 : bucketOf j DB.empty = none := rfl
  rw [h0] at h
  simp only [Option.isSome_none, Bool.false_or] at h
  rw [Get_eq]
  cases hb : bucketOf j (run ops DB.empty) with
  | none =>
    rw [hb] at h
    have hno : ¬ ∃ o ∈ ops, o.jobID = j ∧ o.writes = true := by
      intro ⟨o, ho, h1, h2⟩
      have : ops.any (fun o => decide (o.jobID = j) && o.writes) = true :=
        List.any_eq_true.mpr ⟨o, ho, by simp [h1, h2]⟩
      rw [← h] at this
      simp at this
    simp [hno]
  | some b =>
    rw [hb] at h
    have hyes : ∃ o ∈ ops, o.jobID = j ∧ o.writes = true := by
      obtain ⟨o, ho, h1⟩ := List.any_eq_true.mp h.symm
      simp only [Bool.and_eq_true, decide_eq_true_eq] at h1
      exact ⟨o, ho, h1⟩
    simp [hyes]

/-- An instance of C4: job 7 has only seen an empty append and a nil error. -/
theorem Get_fails_iff_no_write_witness :
    ((Get 7 (run [.append 3 "x", .append 7 "", .setError 7 none] DB.empty)).2
        = some ErrNoLogsForJob
      ↔ ¬ ∃ o ∈ [Op.append 3 "x", .append 7 "", .setError 7 none],
          o.jobID = 7 ∧ o.writes = true) ∧
    ((Get 7 (run [.append 3 "x", .append 7 "", .setError 7 none] DB.empty)).2 = none
      ↔ ∃ o ∈ [Op.append 3 "x", .append 7 "", .setError 7 none],
          o.jobID = 7 ∧ o.writes = true) :=
  Get_fails_iff_no_write [.append 3 "x", .append 7 "", .setError 7 none] 7 (by decide)
    (by decide)

/-- C5: in every state of the store, `Append(j, "")` returns nil and leaves the
store as it was: `Get` gives the same result for every job, and no sequence
counter has moved. -/
theorem Append_empty_content (d : DB) (j : Nat) :
    Append j "" d = (none, d) ∧
    (∀ k, Get k (Append j "" d).2 = Get k d) ∧
    (∀ k, (getJobBucket k (Append j "" d).2).sequence = (getJobBucket k d).sequence) := by
  have h : Append j "" d = (none, d) := by simp [Append]
  exact ⟨h, fun k => by rw [h], fun k => by rw [h]⟩

/-- C6: `GetError` returns nil exactly when the `Error` field is empty, and
otherwise an error whose text is that field; so in every reachable state, after
`SetError(j, e)` with a non-nil `e`, `Get(j)` succeeds and its `GetError()` is
nil exactly when the text of `e` is empty and is otherwise an error with that
text. -/
theorem GetError_after_SetError (l : JobLog) (ops : List Op) (j : Nat) (msg : String) :
    (l.GetError = none ↔ l.Error = "") ∧
    (∀ e, l.GetError = some e ↔ (l.Error ≠ "" ∧ e = .text l.Error)) ∧
    (Get j (SetError j (some msg) (run ops DB.empty)).2).2 = none ∧
    ((Get j (SetError j (some msg) (run ops DB.empty)).2).1.GetError = none ↔ msg = "") ∧
    (∀ e, (Get j (SetError j (some msg) (run ops DB.empty)).2).1.GetError = some e
      ↔ (msg ≠ "" ∧ e = .text msg)) := by
  have key : ∀ l : JobLog, (l.GetError = none ↔ l.Error = "") ∧
      (∀ e, l.GetError = some e ↔ (l.Error ≠ "" ∧ e = .text l.Error)) := by
    intro l
    unfold JobLog.GetError
    by_cases h : l.Error = ""
    · simp [h]
    · simp only [h, if_false, ne_eq, not_false_eq_true, true_and]
      exact ⟨by simp, fun e => ⟨fun he => (Option.some.inj he).symm, fun he => by rw [he]⟩⟩
  have h := Get_SetError j msg _ (reachable_wellFormed ops)
  have k2 := key (Get j (SetError j (some msg) (run ops DB.empty)).2).1
  rw [h.2.2] at k2
  exact ⟨(key l).1, (key l).2, h.2.1, k2.1, k2.2⟩

end logs

end Meeseeks

/-! ## Properties of the builtin commands -/

namespace Meeseeks

namespace builtins

/-- C7: when the first argument of a cancel invocation parses to the ID of a
stored job `J` and the caller is not the user of `J`, `Execute` returns an
empty output and the error `jobs.ErrNoJobWithID` (text "no job could be
found"), the cancellation function is not called, and the ledger, hence the
status of `J`, is as before. -/
theorem cancel_by_other_user (cancelFunc : Nat → List jobs.Job → List jobs.Job)
    (job J : jobs.Job) (w : World)
    (hparse : parseJobID job = .ok J.ID)
    (hstored : jobs.Get J.ID w.jobs = .ok J)
    (huser : job.Request.Username ≠ J.Request.Username) :
    (cancelJobCommand.Execute cancelFunc job w).1 = ("", some jobs.ErrNoJobWithID) ∧
    jobs.ErrNoJobWithID = .text "no job could be found" ∧
    (cancelJobCommand.Execute cancelFunc job w).2.cancelCalls = w.cancelCalls ∧
    (cancelJobCommand.Execute cancelFunc job w).2.jobs = w.jobs ∧
    jobs.Get J.ID (cancelJobCommand.Execute cancelFunc job w).2.jobs = .ok J := by
  have h : cancelJobCommand.Execute cancelFunc job w = (("", some jobs.ErrNoJobWithID), w) := by
    unfold cancelJobCommand.Execute
    simp only [hparse, hstored]
    simp [huser]
  rw [h]
  exact ⟨rfl, rfl, rfl, rfl, hstored⟩

/-- An instance of C7: the scenario of the test of the cancel command with the
wrong user. -/
theorem cancel_by_other_user_witness :
    (cancelJobCommand.Execute (fun _ _ => [])
        { Request := { Username := "someone_else", Args := ["2"] } }
        { jobs := [{ ID := 1, Request := { Username := "someone" }, Status := "Running" },
                   { ID := 2, Request := { Username := "someone" }, Status := "Running" }],
          cancelCalls := [] }).1 = ("", some jobs.ErrNoJobWithID) ∧
    jobs.ErrNoJobWithID = .text "no job could be found" ∧
    (cancelJobCommand.Execute (fun _ _ => [])
        { Request := { Username := "someone_else", Args := ["2"] } }
        { jobs := [{ ID := 1, Request := { Username := "someone" }, Status := "Running" },
                   { ID := 2, Request := { Username := "someone" }, Status := "Running" }],
          cancelCalls := [] }).2.cancelCalls = [] ∧
    (cancelJobCommand.Execute (fun _ _ => [])
        { Request := { Username := "someone_else", Args := ["2"] } }
        { jobs := [{ ID := 1, Request := { Username := "someone" }, Status := "Running" },
                   { ID := 2, Request := { Username := "someone" }, Status := "Running" }],
          cancelCalls := [] }).2.jobs
      = [{ ID := 1, Request := { Username := "someone" }, Status := "Running" },
         { ID := 2, Request := { Username := "someone" }, Status := "Running" }] ∧
    jobs.Get 2 (cancelJobCommand.Execute (fun _ _ => [])
        { Request := { Username := "someone_else", Args := ["2"] } }
        { jobs := [{ ID := 1, Request := { Username := "someone" }, Status := "Running" },
                   { ID := 2, Request := { Username := "someone" }, Status := "Running" }],
          cancelCalls := [] }).2.jobs
      = .ok { ID := 2, Request := { Username := "someone" }, Status := "Running" } :=
  cancel_by_other_user (fun _ _ => [])
    { Request := { Username := "someone_else", Args := ["2"] } }
    { ID := 2, Request := { Username := "someone" }, Status := "Running" }
    { jobs := [{ ID := 1, Request := { Username := "someone" }, Status := "Running" },
               { ID := 2, Request := { Username := "someone" }, Status := "Running" }],
      cancelCalls := [] }
    rfl rfl (by decide)

/-- C8: when the first argument parses to the ID of a stored job `J`, the kill
command under any user, and the cancel command under the user of `J`, call the
cancellation function once, with `J.ID`, and return "Issued command
cancellation to job <J.ID>" with a nil error; when the ledger has no job with
the parsed ID, both return the error of the lookup with an empty output and do
not call the cancellation function. -/
theorem kill_and_cancel_issue_cancellation (cancelFunc : Nat → List jobs.Job → List jobs.Job)
    (job : jobs.Job) (w : World) :
    (∀ J : jobs.Job, parseJobID job = .ok J.ID → jobs.Get J.ID w.jobs = .ok J →
      killJobCommand.Execute cancelFunc job w
        = (("Issued command cancellation to job " ++ toString J.ID, none),
            { jobs := cancelFunc J.ID w.jobs, cancelCalls := w.cancelCalls ++ [J.ID] }) ∧
      (job.Request.Username = J.Request.Username →
        cancelJobCommand.Execute cancelFunc job w
          = (("Issued command cancellation to job " ++ toString J.ID, none),
              { jobs := cancelFunc J.ID w.jobs, cancelCalls := w.cancelCalls ++ [J.ID] }))) ∧
    (∀ (id : Nat) (err : Error), parseJobID job = .ok id → jobs.Get id w.jobs = .error err →
      killJobCommand.Execute cancelFunc job w = (("", some err), w) ∧
      cancelJobCommand.Execute cancelFunc job w = (("", some err), w)) := by
  constructor
  · intro J hparse hstored
    constructor
    · unfold killJobCommand.Execute
      simp only [hparse, hstored]
      rfl
    · intro huser
      unfold cancelJobCommand.Execute
      simp only [hparse, hstored]
      simp [huser, callCancelFunc]
  · intro id err hparse hget
    constructor
    · unfold killJobCommand.Execute
      simp only [hparse, hget]
    · unfold cancelJobCommand.Execute
      simp only [hparse, hget]

/-- An instance of C8: kill by another user, cancel by the owner, and kill of
a job that is not stored. -/
theorem kill_and_cancel_issue_cancellation_witness :
    killJobCommand.Execute (fun _ l => l)
        { Request := { Username := "admin_user", Args := ["1"] } }
        { jobs := [{ ID := 1, Request := { Username := "someone" }, Status := "Running" }],
          cancelCalls := [] }
      = (("Issued command cancellation to job 1", none),
          { jobs := [{ ID := 1, Request := { Username := "someone" }, Status := "Running" }],
            cancelCalls := [1] }) ∧
    cancelJobCommand.Execute (fun _ l => l)
        { Request := { Username := "someone", Args := ["1"] } }
        { jobs := [{ ID := 1, Request := { Username := "someone" }, Status := "Running" }],
          cancelCalls := [] }
      = (("Issued command cancellation to job 1", none),
          { jobs := [{ ID := 1, Request := { Username := "someone" }, Status := "Running" }],
            cancelCalls := [1] }) ∧
    killJobCommand.Execute (fun _ l => l)
        { Request := { Username := "admin_user", Args := ["5"] } }
        { jobs := [{ ID := 1, Request := { Username := "someone" }, Status := "Running" }],
          cancelCalls := [] }
      = (("", some jobs.ErrNoJobWithID),
          { jobs := [{ ID := 1, Request := { Username := "someone" }, Status := "Running" }],
            cancelCalls := [] }) :=
  ⟨((kill_and_cancel_issue_cancellation (fun _ l => l)
        { Request := { Username := "admin_user", Args := ["1"] } }
        { jobs := [{ ID := 1, Request := { Username := "someone" }, Status := "Running" }],
          cancelCalls := [] }).1
      { ID := 1, Request := { Username := "someone" }, Status := "Running" } rfl rfl).1,
   ((kill_and_cancel_issue_cancellation (fun _ l => l)
        { Request := { Username := "someone", Args := ["1"] } }
        { jobs := [{ ID := 1, Request := { Username := "someone" }, Status := "Running" }],
          cancelCalls := [] }).1
      { ID := 1, Request := { Username := "someone" }, Status := "Running" } rfl rfl).2 rfl,
   ((kill_and_cancel_issue_cancellation (fun _ l => l)
        { Request := { Username := "admin_user", Args := ["5"] } }
        { jobs := [{ ID := 1, Request := { Username := "someone" }, Status := "Running" }],
          cancelCalls := [] }).2 5 jobs.ErrNoJobWithID rfl rfl).1⟩

/-- C9 (auditlogs is admin only) does not hold of the code: the command
registered under "auditlogs" declares the
strategy `AuthStrategyAny` and no allowed groups, not the admin-only pair that
its help text announces and that `audit` and `auditjob` declare. -/
theorem auditlogs_declares_allowAll (AdminGroup : String) :
    (find "auditlogs" (Commands AdminGroup)).map (fun c => (c.Help, c.AuthStrategy, c.AllowedGroups))
      = some ("shows the logs of any command by job ID (admin only)", auth.AuthStrategyAny, []) ∧
    auth.AuthStrategyAny ≠ auth.AuthStrategyAllowedGroup ∧
    (find "audit" (Commands AdminGroup)).map (fun c => (c.AuthStrategy, c.AllowedGroups))
      = some (auth.AuthStrategyAllowedGroup, [AdminGroup]) ∧
    (find "auditjob" (Commands AdminGroup)).map (fun c => (c.AuthStrategy, c.AllowedGroups))
      = some (auth.AuthStrategyAllowedGroup, [AdminGroup]) := by
  refine ⟨rfl, by decide, rfl, rfl⟩

/-- C10: audit, auditjob, kill, groups, token-new, tokens and token-revoke
declare the strategy `AuthStrategyAllowedGroup` with the admin group as their
only allowed group; version, help, jobs, job, last, tail, logs and cancel
declare `AuthStrategyAny` with no allowed group. -/
theorem builtin_auth_declarations (AdminGroup : String) :
    (∀ name ∈ ["audit", "auditjob", "groups", "token-new", "tokens", "token-revoke"],
      (find name (AddHelpCommand (Commands AdminGroup))).map
          (fun c => (c.AuthStrategy, c.AllowedGroups))
        = some (auth.AuthStrategyAllowedGroup, [AdminGroup])) ∧
    ((NewKillJobCommand AdminGroup).AuthStrategy = auth.AuthStrategyAllowedGroup ∧
      (NewKillJobCommand AdminGroup).AllowedGroups = [AdminGroup]) ∧
    (∀ name ∈ ["version", "help", "jobs", "job", "last", "tail", "logs"],
      (find name (AddHelpCommand (Commands AdminGroup))).map
          (fun c => (c.AuthStrategy, c.AllowedGroups))
        = some (auth.AuthStrategyAny, [])) ∧
    (NewCancelJobCommand.AuthStrategy = auth.AuthStrategyAny ∧
      NewCancelJobCommand.AllowedGroups = []) := by
  refine ⟨?_, ⟨rfl, rfl⟩, ?_, ⟨rfl, rfl⟩⟩
  · intro name hname
    simp only [List.mem_cons, List.mem_singleton, List.not_mem_nil, or_false] at hname
    rcases hname with h | h | h | h | h | h <;> subst h <;> rfl
  · intro name hname
    simp only [List.mem_cons, List.mem_singleton, List.not_mem_nil, or_false] at hname
    rcases hname with h | h | h | h | h | h | h <;> subst h <;> rfl

end builtins

end Meeseeks

/-! ## Decimal texts -/

namespace Meeseeks

theorem isDecimalDigit_toNat (c : Char) (h : isDecimalDigit c) :
    48 ≤ c.toNat ∧ c.toNat ≤ 57 := by
  obtain ⟨h1, h2⟩ := h
  have e1 : ('0' : Char).toNat = 48 := rfl
  have e2 : ('9' : Char).toNat = 57 := rfl
  rw [Char.le_def] at h1 h2
  constructor
  · have := (UInt32.le_def).mp h1
    simpa [Char.toNat, e1] using this
  · have := (UInt32.le_def).mp h2
    simpa [Char.toNat, e2] using this

theorem decimalFold_ge (cs : List Char) (n : Nat) : n ≤ decimalFold n cs := by
  induction cs generalizing n with
  | nil => simp [decimalFold]
  | cons c cs ih =>
    have := ih (n * 10 + (c.toNat - 48))
    simp only [decimalFold, List.foldl_cons] at this ⊢
    omega

end Meeseeks

namespace Meeseeks

namespace strconv

/-- On decimal digits the base-10 loop reads the number they denote, and
reports a range error exactly when that number does not fit in 64 bits. -/
theorem parseUintLoop_digits (cs : List Char) (n : Nat) (hn : n < 2 ^ 64)
    (hcs : ∀ c ∈ cs, isDecimalDigit c) :
    parseUintLoop cs n
      = if decimalFold n cs < 2 ^ 64 then .ok (decimalFold n cs) else .error .ErrRange := by
  have P : (2 : Nat) ^ 64 = 18446744073709551616 := by norm_num
  rw [P] at hn ⊢
  induction cs generalizing n with
  | nil => simp [parseUintLoop, decimalFold, hn]
  | cons c cs ih =>
    have hc : isDecimalDigit c := hcs c (by simp)
    have hrest : ∀ x ∈ cs, isDecimalDigit x := fun x hx => hcs x (by simp [hx])
    obtain ⟨b1, b2⟩ := isDecimalDigit_toNat c hc
    have e0 : ('0' : Char).toNat = 48 := rfl
    have hfold : decimalFold n (c :: cs) = decimalFold (n * 10 + (c.toNat - 48)) cs := rfl
    have hge := decimalFold_ge cs (n * 10 + (c.toNat - 48))
    have hc2 : '0' ≤ c ∧ c ≤ '9' := hc
    rw [hfold]
    simp only [parseUintLoop, hc2, and_self, if_true, e0, maxUint64, P]
    have e : n * 10 + (c.toNat - 48) < 18446744073709551616 →
        (n * 10 % 18446744073709551616 + (c.toNat - 48)) % 18446744073709551616
          = n * 10 + (c.toNat - 48) := by
      intro h
      omega
    by_cases hF : decimalFold (n * 10 + (c.toNat - 48)) cs < 18446744073709551616
    · rw [if_pos hF]
      split_ifs with h1 h2
      · omega
      · omega
      · rw [e (by omega), ih _ (by omega) hrest, if_pos hF]
    · rw [if_neg hF]
      split_ifs with h1 h2
      · rfl
      · rfl
      · have hlt : n * 10 + (c.toNat - 48) < 18446744073709551616 := by omega
        rw [e hlt, ih _ hlt hrest, if_neg hF]

/-- When some character is not a decimal digit the base-10 loop fails. -/
theorem parseUintLoop_not_digits (cs : List Char) (n : Nat)
    (hcs : ¬ ∀ c ∈ cs, isDecimalDigit c) :
    ∃ kind, parseUintLoop cs n = .error kind := by
  induction cs generalizing n with
  | nil => simp at hcs
  | cons c cs ih =>
    by_cases hc : '0' ≤ c ∧ c ≤ '9'
    · have hrest : ¬ ∀ x ∈ cs, isDecimalDigit x := by
        intro h
        apply hcs
        intro x hx
        rcases List.mem_cons.mp hx with e | e
        · rw [e]; exact hc
        · exact h x e
      simp only [parseUintLoop, hc, and_self, if_true]
      split_ifs
      · exact ⟨_, rfl⟩
      · exact ⟨_, rfl⟩
      · exact ih _ hrest
    · exact ⟨.ErrSyntax, by simp only [parseUintLoop, hc, if_false]⟩

theorem String_eq_empty_iff (s : String) : s = "" ↔ s.toList = [] := by
  constructor
  · intro h; rw [h]; rfl
  · intro h
    have : s = String.mk s.toList := rfl
    rw [this, h]

theorem ParseUint_eq (s : String) :
    (∀ n, decimalValue s = some n → n < 2 ^ 64 → ParseUint s = .ok n) ∧
    ((decimalValue s = none ∨ ∃ n, decimalValue s = some n ∧ 2 ^ 64 ≤ n) →
      ∃ kind, ParseUint s = .error kind) := by
  have hP : ParseUint s = if s = "" then .error .ErrSyntax else parseUintLoop s.toList 0 := rfl
  have hV : decimalValue s
      = if s.toList ≠ [] ∧ ∀ c ∈ s.toList, isDecimalDigit c then some (decimalFold 0 s.toList)
        else none := rfl
  by_cases hne : s.toList ≠ []
  · have hs : ¬ s = "" := fun h => hne ((String_eq_empty_iff s).mp h)
    rw [hP, if_neg hs]
    by_cases hd : ∀ c ∈ s.toList, isDecimalDigit c
    · rw [hV, if_pos ⟨hne, hd⟩, parseUintLoop_digits s.toList 0 (by norm_num) hd]
      constructor
      · intro n h1 h2
        have e : decimalFold 0 s.toList = n := Option.some.inj h1
        rw [e, if_pos h2]
      · intro h
        rcases h with h | ⟨n, h1, h2⟩
        · exact absurd h (by simp)
        · have e : decimalFold 0 s.toList = n := Option.some.inj h1
          rw [e, if_neg (by omega)]
          exact ⟨_, rfl⟩
    · rw [hV, if_neg (fun h => hd h.2)]
      constructor
      · intro n h1; exact absurd h1 (by simp)
      · intro _
        exact parseUintLoop_not_digits s.toList 0 hd
  · have hnil : s.toList = [] := not_not.mp hne
    have hs : s = "" := (String_eq_empty_iff s).mpr hnil
    rw [hP, if_pos hs, hV, if_neg (fun h => h.1 hnil)]
    constructor
    · intro n h1; exact absurd h1 (by simp)
    · intro _
      exact ⟨_, rfl⟩

end strconv

end Meeseeks

namespace Meeseeks

theorem toDigitsCore_append (fuel n : Nat) (ds : List Char) :
    Nat.toDigitsCore 10 fuel n ds = Nat.toDigitsCore 10 fuel n [] ++ ds := by
  induction fuel generalizing n ds with
  | zero => simp [Nat.toDigitsCore]
  | succ fuel ih =>
    simp only [Nat.toDigitsCore]
    split_ifs
    · simp
    · rw [ih (n / 10) (Nat.digitChar (n % 10) :: ds), ih (n / 10) [Nat.digitChar (n % 10)]]
      simp

theorem digitChar_decimal (d : Nat) (hd : d < 10) :
    isDecimalDigit (Nat.digitChar d) ∧ (Nat.digitChar d).toNat - 48 = d ∧
      (0 < d → Nat.digitChar d ≠ '0') := by
  interval_cases d <;> refine ⟨by decide, by decide, by decide⟩

/-- The decimal text of a number: its characters are decimal digits, they
denote the number, and the first one is not a zero unless the number is. -/
theorem toDigitsCore_spec (fuel n : Nat) (h : n < fuel) :
    (∀ c ∈ Nat.toDigitsCore 10 fuel n [], isDecimalDigit c) ∧
    decimalFold 0 (Nat.toDigitsCore 10 fuel n []) = n ∧
    (0 < n → ∃ c rest, Nat.toDigitsCore 10 fuel n [] = c :: rest ∧ c ≠ '0') := by
  induction fuel generalizing n with
  | zero => omega
  | succ fuel ih =>
    obtain ⟨d1, d2, d3⟩ := digitChar_decimal (n % 10) (Nat.mod_lt _ (by norm_num))
    simp only [Nat.toDigitsCore]
    split_ifs with h0
    · have hn : n % 10 = n := by omega
      refine ⟨?_, ?_, ?_⟩
      · intro c hc
        rw [List.mem_singleton] at hc
        rw [hc]; exact d1
      · simp only [decimalFold, List.foldl_cons, List.foldl_nil]
        omega
      · intro hpos
        exact ⟨_, [], rfl, d3 (by omega)⟩
    · have hlt : n / 10 < fuel := by omega
      obtain ⟨i1, i2, i3⟩ := ih (n / 10) hlt
      rw [toDigitsCore_append]
      refine ⟨?_, ?_, ?_⟩
      · intro c hc
        rcases List.mem_append.mp hc with hc | hc
        · exact i1 c hc
        · rw [List.mem_singleton] at hc
          rw [hc]; exact d1
      · have : decimalFold 0 (Nat.toDigitsCore 10 fuel (n / 10) [] ++ [Nat.digitChar (n % 10)])
            = decimalFold 0 (Nat.toDigitsCore 10 fuel (n / 10) []) * 10
              + ((Nat.digitChar (n % 10)).toNat - 48) := by
          simp [decimalFold, List.foldl_append]
        rw [this, i2]
        omega
      · intro _
        obtain ⟨c, rest, e, hc⟩ := i3 (by omega)
        exact ⟨c, rest ++ [Nat.digitChar (n % 10)], by rw [e]; rfl, hc⟩

theorem toString_toList (n : Nat) : (toString n).toList = Nat.toDigitsCore 10 (n + 1) n [] := rfl

theorem toString_spec (n : Nat) :
    (∀ c ∈ (toString n).toList, isDecimalDigit c) ∧
    decimalFold 0 (toString n).toList = n ∧
    (0 < n → ∃ c rest, (toString n).toList = c :: rest ∧ c ≠ '0') := by
  rw [toString_toList]
  exact toDigitsCore_spec (n + 1) n (by omega)

theorem decimalValue_toString (n : Nat) : decimalValue (toString n) = some n := by
  obtain ⟨h1, h2, _⟩ := toString_spec n
  have hne : (toString n).toList ≠ [] := by
    rw [toString_toList]
    simp only [Nat.toDigitsCore]
    split_ifs <;> simp [toDigitsCore_append _ _ [_]]
  have hV : decimalValue (toString n)
      = if (toString n).toList ≠ [] ∧ ∀ c ∈ (toString n).toList, isDecimalDigit c then
          some (decimalFold 0 (toString n).toList)
        else none := rfl
  rw [hV, if_pos ⟨hne, h1⟩, h2]

end Meeseeks

/-! ## Properties of job identifiers and of the ledger -/

namespace Meeseeks

namespace builtins

/-- C14: `parseJobID` returns the error "no job id passed" when there is no
argument; when the first argument is a non-empty sequence of decimal digits
denoting a number below `2^64` it returns that number, whatever arguments
follow; for every other first argument (empty, signed, with a character that is
not a digit, or denoting `2^64` or more) it returns an "invalid job ID" error
for that argument; in particular the decimal text of every `uint64` is read
back as that number. -/
theorem parseJobID_spec (job : jobs.Job) :
    (job.Request.Args = [] → parseJobID job = .error (.text "no job id passed")) ∧
    (∀ arg rest, job.Request.Args = arg :: rest →
      (∀ n, decimalValue arg = some n → n < 2 ^ 64 → parseJobID job = .ok n) ∧
      ((decimalValue arg = none ∨ ∃ n, decimalValue arg = some n ∧ 2 ^ 64 ≤ n) →
        ∃ cause, parseJobID job = .error (.invalidJobID arg cause))) ∧
    (∀ n rest, n < 2 ^ 64 → job.Request.Args = toString n :: rest → parseJobID job = .ok n) := by
  have key : ∀ arg rest, job.Request.Args = arg :: rest →
      (∀ n, decimalValue arg = some n → n < 2 ^ 64 → parseJobID job = .ok n) ∧
      ((decimalValue arg = none ∨ ∃ n, decimalValue arg = some n ∧ 2 ^ 64 ≤ n) →
        ∃ cause, parseJobID job = .error (.invalidJobID arg cause)) := by
    intro arg rest hargs
    obtain ⟨p1, p2⟩ := strconv.ParseUint_eq arg
    constructor
    · intro n h1 h2
      simp only [parseJobID, hargs, p1 n h1 h2]
    · intro h
      obtain ⟨kind, hk⟩ := p2 h
      exact ⟨kind, by simp only [parseJobID, hargs, hk]⟩
  refine ⟨?_, key, ?_⟩
  · intro h
    simp only [parseJobID, h]
  · intro n rest hn hargs
    exact (key _ rest hargs).1 n (decimalValue_toString n) hn

/-- Instances of C14: the largest `uint64` with a further argument, and an
empty, a signed, a non-numeric and an overflowing first argument. -/
theorem parseJobID_spec_witness :
    parseJobID { Request := { Args := ["18446744073709551615", "x"] } }
      = .ok 18446744073709551615 ∧
    (∃ cause, parseJobID { Request := { Args := [""] } } = .error (.invalidJobID "" cause)) ∧
    (∃ cause, parseJobID { Request := { Args := ["+1"] } } = .error (.invalidJobID "+1" cause)) ∧
    (∃ cause, parseJobID { Request := { Args := ["12a"] } }
      = .error (.invalidJobID "12a" cause)) ∧
    (∃ cause, parseJobID { Request := { Args := ["18446744073709551616"] } }
      = .error (.invalidJobID "18446744073709551616" cause)) :=
  ⟨((parseJobID_spec { Request := { Args := ["18446744073709551615", "x"] } }).2.1
      "18446744073709551615" ["x"] rfl).1 18446744073709551615 (by decide) (by decide),
   ((parseJobID_spec { Request := { Args := [""] } }).2.1 "" [] rfl).2 (Or.inl (by decide)),
   ((parseJobID_spec { Request := { Args := ["+1"] } }).2.1 "+1" [] rfl).2 (Or.inl (by decide)),
   ((parseJobID_spec { Request := { Args := ["12a"] } }).2.1 "12a" [] rfl).2
      (Or.inl (by decide)),
   ((parseJobID_spec { Request := { Args := ["18446744073709551616"] } }).2.1
      "18446744073709551616" [] rfl).2
      (Or.inr ⟨18446744073709551616, by decide, by decide⟩)⟩

end builtins

namespace jobs

theorem Get_cons (jobID : Nat) (j : Job) (rest : List Job) :
    Get jobID (j :: rest) = if j.ID = jobID then .ok j else Get jobID rest := by
  unfold Get
  by_cases h : j.ID = jobID
  · simp [List.find?, h]
  · simp [List.find?, h]

theorem Get_setStatus_same (jobID : Nat) (status : String) (ledger : List Job) (j : Job)
    (h : Get jobID ledger = .ok j) :
    Get jobID (setStatus jobID status ledger) = .ok { j with Status := status } := by
  induction ledger with
  | nil => simp [Get] at h
  | cons x rest ih =>
    rw [Get_cons] at h
    by_cases hx : x.ID = jobID
    · rw [if_pos hx] at h
      have e : x = j := Except.ok.inj h
      subst e
      have hs : setStatus jobID status (x :: rest) = { x with Status := status } :: rest := by
        simp only [setStatus, if_pos hx]
      rw [hs, Get_cons, if_pos (show ({ x with Status := status } : Job).ID = jobID from hx)]
    · rw [if_neg hx] at h
      simp only [setStatus, hx, if_false]
      rw [Get_cons, if_neg hx]
      exact ih h

theorem Get_setStatus_other (jobID other : Nat) (status : String) (ledger : List Job)
    (hne : other ≠ jobID) :
    Get jobID (setStatus other status ledger) = Get jobID ledger := by
  induction ledger with
  | nil => rfl
  | cons x rest ih =>
    by_cases hx : x.ID = other
    · have hx2 : ¬ x.ID = jobID := fun e => hne (hx.symm.trans e)
      simp only [setStatus, hx, if_true]
      rw [Get_cons, Get_cons, if_neg hx2]
      show (if other = jobID then _ else _) = _
      rw [if_neg hne]
    · simp only [setStatus, hx, if_false]
      rw [Get_cons, Get_cons, ih]

theorem Finish_of_Get_ok (jobID : Nat) (status : String) (ledger : List Job) (j : Job)
    (h : Get jobID ledger = .ok j) :
    Finish jobID status ledger
      = if j.Status = RunningStatus then (none, setStatus jobID status ledger)
        else (some ErrAlreadyTerminal, ledger) := by
  unfold Finish
  rw [h]

/-- A `Finish` call leaves the status of a job that is already terminal as it
is, whichever job the call is addressed to. -/
theorem statusOf_Finish_terminal (jobID other : Nat) (status terminal : String)
    (ledger : List Job) (h : statusOf jobID ledger = some terminal)
    (hterm : terminal ≠ RunningStatus) :
    statusOf jobID (Finish other status ledger).2 = some terminal := by
  unfold Finish
  cases hget : Get other ledger with
  | error err => exact h
  | ok j =>
    dsimp only
    split_ifs with hrun
    · by_cases hne : other = jobID
      · subst hne
        simp only [statusOf, hget] at h
        have : j.Status = terminal := Option.some.inj h
        exact absurd (this ▸ hrun) hterm
      · show statusOf jobID (setStatus other status ledger) = some terminal
        unfold statusOf
        rw [Get_setStatus_other jobID other status ledger hne]
        exact h
    · exact h

theorem statusOf_finishAll_terminal (jobID : Nat) (terminal : String) (calls : List (Nat × String))
    (ledger : List Job) (h : statusOf jobID ledger = some terminal)
    (hterm : terminal ≠ RunningStatus) :
    statusOf jobID (finishAll calls ledger) = some terminal := by
  induction calls generalizing ledger with
  | nil => exact h
  | cons c rest ih =>
    exact ih _ (statusOf_Finish_terminal jobID c.1 c.2 terminal ledger h hterm)

/-- C15: once a `Finish` call has set a terminal status on a job, the stored
status of that job stays the same through every later sequence of `Finish`
calls, with any status and on any job, and each later call on that job is
rejected. -/
theorem Finish_first_terminal_write_wins (ledger : List Job) (jobID : Nat) (status : String)
    (hok : (Finish jobID status ledger).1 = none) (hterm : status ≠ RunningStatus)
    (later : List (Nat × String)) (again : String) :
    statusOf jobID (Finish jobID status ledger).2 = some status ∧
    statusOf jobID (finishAll later (Finish jobID status ledger).2) = some status ∧
    (Finish jobID again (finishAll later (Finish jobID status ledger).2)).1
      = some ErrAlreadyTerminal := by
  have h1 : statusOf jobID (Finish jobID status ledger).2 = some status := by
    unfold Finish at hok ⊢
    cases hget : Get jobID ledger with
    | error err => rw [hget] at hok; simp at hok
    | ok j =>
      rw [hget] at hok
      dsimp only at hok ⊢
      split_ifs at hok ⊢ with hrun
      show statusOf jobID (setStatus jobID status ledger) = some status
      unfold statusOf
      rw [Get_setStatus_same jobID status ledger j hget]
  have h2 := statusOf_finishAll_terminal jobID status later _ h1 hterm
  refine ⟨h1, h2, ?_⟩
  unfold statusOf at h2
  cases hget : Get jobID (finishAll later (Finish jobID status ledger).2) with
  | error err => rw [hget] at h2; simp at h2
  | ok j =>
    rw [hget] at h2
    have e : j.Status = status := Option.some.inj h2
    rw [Finish_of_Get_ok _ _ _ j hget, if_neg (by rw [e]; exact hterm)]

/-- An instance of C15: job 1 is finished as successful; later calls that try
to fail or restart it change nothing. -/
theorem Finish_first_terminal_write_wins_witness :
    statusOf 1 (Finish 1 SuccessStatus [{ ID := 1, Status := RunningStatus }]).2
      = some SuccessStatus ∧
    statusOf 1 (finishAll [(1, FailedStatus), (1, RunningStatus)]
        (Finish 1 SuccessStatus [{ ID := 1, Status := RunningStatus }]).2)
      = some SuccessStatus ∧
    (Finish 1 FailedStatus (finishAll [(1, FailedStatus), (1, RunningStatus)]
        (Finish 1 SuccessStatus [{ ID := 1, Status := RunningStatus }]).2)).1
      = some ErrAlreadyTerminal :=
  Finish_first_terminal_write_wins [{ ID := 1, Status := RunningStatus }] 1 SuccessStatus
    (by decide) (by decide) [(1, FailedStatus), (1, RunningStatus)] FailedStatus

end jobs

end Meeseeks

/-! ## Scanning and the order of the ledger -/

namespace Meeseeks

theorem scan_eq_take_filter {α : Type} (p : α → Bool) (n : Nat) (l : List α) :
    scan p n l = (l.filter p).take n := by
  induction l generalizing n with
  | nil => cases n <;> simp [scan]
  | cons x rest ih =>
    cases n with
    | zero => simp [scan]
    | succ n =>
      by_cases hx : p x = true
      · simp [scan, hx, ih, List.filter_cons]
      · have hx2 : p x = false := by simpa using hx
        simp [scan, hx2, ih, List.filter_cons]

theorem filter_eq_nil_of_forall {α : Type} (p : α → Bool) (l : List α)
    (h : ∀ x ∈ l, p x = false) : l.filter p = [] := by
  rw [List.filter_eq_nil_iff]
  intro x hx
  rw [h x hx]
  simp

namespace jobs

theorem mem_sorted (ledger : List Job) (x : Job) :
    x ∈ ledger.insertionSort newerFirst ↔ x ∈ ledger :=
  (List.perm_insertionSort newerFirst ledger).mem_iff

theorem nodup_sorted (ledger : List Job) (h : (ledger.map (fun j => j.ID)).Nodup) :
    ((ledger.insertionSort newerFirst).map (fun j => j.ID)).Nodup :=
  ((List.perm_insertionSort newerFirst ledger).map _).nodup_iff.mpr h

theorem sorted_newerFirst (ledger : List Job) :
    (ledger.insertionSort newerFirst).Sorted newerFirst :=
  @List.sorted_insertionSort Job newerFirst _
    ⟨fun a b => Nat.le_total b.ID a.ID⟩ ⟨fun _ _ _ hab hbc => Nat.le_trans hbc hab⟩ ledger

/-- In a list with distinct IDs, a filter that only lets jobs with the ID of
`J` through, and lets `J` through, yields `J` alone. -/
theorem filter_eq_singleton (p : Job → Bool) (l : List Job) (J : Job)
    (hnodup : (l.map (fun j => j.ID)).Nodup) (hJ : J ∈ l) (hp : p J = true)
    (honly : ∀ x ∈ l, p x = true → x.ID = J.ID) : l.filter p = [J] := by
  induction l with
  | nil => simp at hJ
  | cons x rest ih =>
    rw [List.map_cons, List.nodup_cons] at hnodup
    obtain ⟨hx, hrest⟩ := hnodup
    by_cases hxJ : x = J
    · subst hxJ
      have hnone : rest.filter p = [] := by
        apply filter_eq_nil_of_forall
        intro y hy
        by_contra hc
        have hpy : p y = true := by simpa using hc
        have e := honly y (by simp [hy]) hpy
        exact hx (List.mem_map.mpr ⟨y, hy, e⟩)
      rw [List.filter_cons, if_pos hp, hnone]
    · have hJrest : J ∈ rest := by
        rcases List.mem_cons.mp hJ with e | e
        · exact absurd e.symm hxJ
        · exact e
      have hpx : p x = false := by
        by_contra hc
        have hpx : p x = true := by simpa using hc
        have e := honly x (by simp) hpx
        exact hx (List.mem_map.mpr ⟨J, hJrest, e.symm⟩)
      rw [List.filter_cons, hpx]
      exact ih hrest hJrest (fun y hy => honly y (by simp [hy]))

theorem createAll_spec (calls : List (request.Request × Nat)) (s : Store)
    (h : s.sequence + calls.length < 2 ^ 64) :
    (createAll calls s).1.map (fun j => j.ID) = List.range' (s.sequence + 1) calls.length ∧
    (createAll calls s).2.sequence = s.sequence + calls.length := by
  induction calls generalizing s with
  | nil => simp [createAll]
  | cons c rest ih =>
    have hlen : (c :: rest).length = rest.length + 1 := rfl
    rw [hlen] at h
    have hseq : (Create c.1 c.2 s).2.sequence = s.sequence + 1 := by
      show (s.sequence + 1) % 2 ^ 64 = s.sequence + 1
      exact Nat.mod_eq_of_lt (by omega)
    have hid : (Create c.1 c.2 s).1.ID = s.sequence + 1 := by
      show (s.sequence + 1) % 2 ^ 64 = s.sequence + 1
      exact Nat.mod_eq_of_lt (by omega)
    obtain ⟨i1, i2⟩ := ih (Create c.1 c.2 s).2 (by rw [hseq]; omega)
    constructor
    · show (Create c.1 c.2 s).1.ID :: (createAll rest (Create c.1 c.2 s).2).1.map (fun j => j.ID)
          = _
      rw [i1, hid, hseq, hlen, List.range'_succ]
    · show (createAll rest (Create c.1 c.2 s).2).2.sequence = _
      rw [i2, hseq, hlen]
      omega

end jobs

end Meeseeks

namespace Meeseeks

namespace jobs

/-- C16: on a fresh ledger the IDs returned by any sequence of `Create` calls
are 1, 2, 3, ... in call order: strictly increasing, without gap or repeat,
the k-th call returning k (the sequence counter is a `uint64`, so for fewer
than `2^64` calls).  After three calls the last command of the user of the
third request reports the job with ID 3. -/
theorem Create_IDs_consecutive (calls : List (request.Request × Nat))
    (hn : calls.length < 2 ^ 64) (HumanizeTime : Nat → String)
    (r1 r2 r3 : request.Request) (t1 t2 t3 : Nat) :
    (createAll calls Store.empty).1.map (fun j => j.ID) = List.range' 1 calls.length ∧
    ((createAll calls Store.empty).1.map (fun j => j.ID)).Pairwise (fun a b => a < b) ∧
    (∀ k, k < calls.length →
      ((createAll calls Store.empty).1.map (fun j => j.ID))[k]? = some (k + 1)) ∧
    (createAll [(r1, t1), (r2, t2), (r3, t3)] Store.empty).1.map (fun j => j.ID) = [1, 2, 3] ∧
    builtins.lastCommand.Execute HumanizeTime { Request := { Username := r3.Username } }
        (createAll [(r1, t1), (r2, t2), (r3, t3)] Store.empty).2.jobs
      = (builtins.renderJobTemplate HumanizeTime
          { ID := 3, Request := r3, StartTime := t3, Status := RunningStatus }, none) := by
  have h := (createAll_spec calls Store.empty (by simpa [Store.empty] using hn)).1
  have h0 : Store.empty.sequence + 1 = 1 := rfl
  rw [h0] at h
  refine ⟨h, ?_, ?_, rfl, ?_⟩
  · rw [h]
    exact List.pairwise_lt_range' 1 calls.length
  · intro k hk
    rw [h, List.getElem?_range']
    · simp; omega
    · exact hk
  · have hl : (createAll [(r1, t1), (r2, t2), (r3, t3)] Store.empty).2.jobs
        = [{ ID := 1, Request := r1, StartTime := t1, Status := RunningStatus },
           { ID := 2, Request := r2, StartTime := t2, Status := RunningStatus },
           { ID := 3, Request := r3, StartTime := t3, Status := RunningStatus }] := rfl
    rw [hl]
    simp [builtins.lastCommand.Execute, Find, List.insertionSort, List.orderedInsert, newerFirst,
      scan, builtins.isUser]

/-- An instance of C16: the three requests of the test of the last command. -/
theorem Create_IDs_consecutive_witness :
    (createAll [({ Username := "someone" }, 0), ({ Username := "someone" }, 0),
        ({ Username := "someone" }, 0)] Store.empty).1.map (fun j => j.ID) = [1, 2, 3] :=
  (Create_IDs_consecutive [({ Username := "someone" }, 0), ({ Username := "someone" }, 0),
      ({ Username := "someone" }, 0)] (by decide) (fun _ => "now") {} {} {} 0 0 0).1

end jobs

namespace builtins

theorem Find_filtered (limit : Int) (p : jobs.Job → Bool) (ledger : List jobs.Job) :
    jobs.Find { Limit := limit, Match := p } ledger
      = .ok (((ledger.insertionSort jobs.newerFirst).filter p).take limit.toNat) := by
  unfold jobs.Find
  rw [scan_eq_take_filter]

theorem Find_none (limit : Int) (p : jobs.Job → Bool) (ledger : List jobs.Job)
    (h : ∀ x ∈ ledger, p x = false) :
    jobs.Find { Limit := limit, Match := p } ledger = .ok [] := by
  rw [Find_filtered, filter_eq_nil_of_forall p _ (fun x hx => h x ((jobs.mem_sorted _ _).mp hx))]
  simp

theorem Find_one (p : jobs.Job → Bool) (ledger : List jobs.Job) (J : jobs.Job)
    (hnodup : (ledger.map (fun j => j.ID)).Nodup) (hJ : J ∈ ledger) (hp : p J = true)
    (honly : ∀ x ∈ ledger, p x = true → x.ID = J.ID) :
    jobs.Find { Limit := 1, Match := p } ledger = .ok [J] := by
  rw [Find_filtered, jobs.filter_eq_singleton p _ J (jobs.nodup_sorted _ hnodup)
    ((jobs.mem_sorted _ _).mpr hJ) hp (fun x hx => honly x ((jobs.mem_sorted _ _).mp hx))]
  rfl

/-- C19 (the owner always gets the pair made of the output and `GetError()`
of the log) does not hold: the owner of a stored job without log gets the
error of `logs.Get`, not a nil error. -/
theorem logs_owner_without_log :
    logsCommand.Execute { Request := { Username := "someone", Args := ["1"] } }
        [{ ID := 1, Request := { Username := "someone" }, Status := "Running" }] DB.empty
      = ("", some logs.ErrNoLogsForJob) ∧
    ((logs.Get 1 DB.empty).1.Output, (logs.Get 1 DB.empty).1.GetError) = ("", none) := by
  decide

/-- C19, amended: for a stored job `J` (in a ledger with one job per ID) and a
first argument that parses to `J.ID`: for a caller who is not the user of `J`,
the logs command returns an empty output and the error "No job with id <id>
for user <caller>" whatever the log store holds, and the job command returns
an empty output and an error; for the user of `J`, the logs command returns
the output and `GetError()` of `logs.Get(J.ID)` when that call succeeds, and
an empty output with its error when it fails. -/
theorem logs_and_job_only_for_owner (HumanizeTime : Nat → String) (job J : jobs.Job)
    (ledger : List jobs.Job) (d : DB)
    (hparse : parseJobID job = .ok J.ID) (hJ : J ∈ ledger)
    (hnodup : (ledger.map (fun j => j.ID)).Nodup) :
    (job.Request.Username ≠ J.Request.Username →
      (∀ d2, logsCommand.Execute job ledger d2
        = ("", some (.text ("No job with id " ++ toString J.ID ++ " for user "
            ++ job.Request.Username)))) ∧
      findJobCommand.Execute HumanizeTime job ledger
        = ("", some (.text "No last command for current user"))) ∧
    (job.Request.Username = J.Request.Username →
      logsCommand.Execute job ledger d
        = if (logs.Get J.ID d).2 = none then
            ((logs.Get J.ID d).1.Output, (logs.Get J.ID d).1.GetError)
          else ("", (logs.Get J.ID d).2)) := by
  have hunique : ∀ x ∈ ledger, x.ID = J.ID → x = J := by
    intro x hx hid
    exact List.inj_on_of_nodup_map hnodup hx hJ hid
  constructor
  · intro huser
    have hnone : ∀ x ∈ ledger,
        jobs.MultiMatch [isUser job.Request.Username, isJobID J.ID] x = false := by
      intro x hx
      by_cases hid : x.ID = J.ID
      · have e := hunique x hx hid
        subst e
        have : ¬ x.Request.Username = job.Request.Username := fun e => huser e.symm
        simp [jobs.MultiMatch, isUser, isJobID, this]
      · simp [jobs.MultiMatch, isUser, isJobID, hid]
    constructor
    · intro d2
      simp only [logsCommand.Execute, hparse, Find_none _ _ ledger hnone]
    · simp only [findJobCommand.Execute, hparse, Find_none _ _ ledger hnone]
  · intro huser
    have hp : jobs.MultiMatch [isUser job.Request.Username, isJobID J.ID] J = true := by
      simp [jobs.MultiMatch, isUser, isJobID, huser]
    have honly : ∀ x ∈ ledger,
        jobs.MultiMatch [isUser job.Request.Username, isJobID J.ID] x = true → x.ID = J.ID := by
      intro x _ hx
      simp only [jobs.MultiMatch, List.all_cons, List.all_nil, Bool.and_true, Bool.and_eq_true,
        isJobID, decide_eq_true_eq] at hx
      exact hx.2
    simp only [logsCommand.Execute, hparse, Find_one _ ledger J hnodup hJ hp honly]
    cases hget : logs.Get J.ID d with
    | mk jobLogs err =>
      cases err with
      | none => simp
      | some e => simp

/-- An instance of C19: job 1 of "someone" with a line of log, asked for by
"someone_else" and by "someone". -/
theorem logs_and_job_only_for_owner_witness :
    logsCommand.Execute { Request := { Username := "someone_else", Args := ["1"] } }
        [{ ID := 1, Request := { Username := "someone" }, Status := "Running" }]
        (logs.run [.append 1 "something to say 1"] DB.empty)
      = ("", some (.text "No job with id 1 for user someone_else")) ∧
    logsCommand.Execute { Request := { Username := "someone", Args := ["1"] } }
        [{ ID := 1, Request := { Username := "someone" }, Status := "Running" }]
        (logs.run [.append 1 "something to say 1"] DB.empty)
      = ("something to say 1", none) :=
  ⟨((logs_and_job_only_for_owner (fun _ => "now")
        { Request := { Username := "someone_else", Args := ["1"] } }
        { ID := 1, Request := { Username := "someone" }, Status := "Running" }
        [{ ID := 1, Request := { Username := "someone" }, Status := "Running" }]
        DB.empty rfl (by decide) (by decide)).1 (by decide)).1 _,
   ((logs_and_job_only_for_owner (fun _ => "now")
        { Request := { Username := "someone", Args := ["1"] } }
        { ID := 1, Request := { Username := "someone" }, Status := "Running" }
        [{ ID := 1, Request := { Username := "someone" }, Status := "Running" }]
        (logs.run [.append 1 "something to say 1"] DB.empty) rfl (by decide) (by decide)).2
      rfl).trans (by decide)⟩

end builtins

end Meeseeks

/-! ## Lines and the error bucket -/

namespace Meeseeks

theorem put_before_last {α : Type} (k ke : Key) (v ve : α) (l : List (Key × α))
    (h : ∀ p ∈ l, k ≠ p.1 ∧ keyLt k p.1 = false) (hne : k ≠ ke) (hlt : keyLt k ke = true) :
    put k v (l ++ [(ke, ve)]) = l ++ [(k, v), (ke, ve)] := by
  induction l with
  | nil => simp [put, hne, hlt]
  | cons q rest ih =>
    obtain ⟨k1, v1⟩ := q
    have hq := h (k1, v1) (by simp)
    have ihr := ih (fun p hp => h p (by simp [hp]))
    simp [put, hq.1, hq.2, ihr]

theorem put_replace_last {α : Type} (k : Key) (v old : α) (l : List (Key × α))
    (h : ∀ p ∈ l, k ≠ p.1 ∧ keyLt k p.1 = false) :
    put k v (l ++ [(k, old)]) = l ++ [(k, v)] := by
  induction l with
  | nil => simp [put]
  | cons q rest ih =>
    obtain ⟨k1, v1⟩ := q
    have hq := h (k1, v1) (by simp)
    have ihr := ih (fun p hp => h p (by simp [hp]))
    simp [put, hq.1, hq.2, ihr]

theorem lookup_append_last {α : Type} (k : Key) (v : α) (l : List (Key × α))
    (h : ∀ p ∈ l, k ≠ p.1) : lookup k (l ++ [(k, v)]) = some v := by
  induction l with
  | nil => simp [lookup]
  | cons q rest ih =>
    obtain ⟨k1, v1⟩ := q
    have hq := h (k1, v1) (by simp)
    simp [lookup, hq, ih (fun p hp => h p (by simp [hp]))]

namespace logs

theorem keyLt_line_error (i : Nat) (h : i < 2 ^ 56) :
    keyLt (db.IDToBytes i) errorKey = true := by
  simp [db.IDToBytes, errorKey, keyLt]
  omega

theorem keyLt_error_line (i : Nat) (h : i < 2 ^ 56) :
    keyLt errorKey (db.IDToBytes i) = false := by
  simp [db.IDToBytes, errorKey, keyLt]
  omega

theorem line_ne_error (i : Nat) : db.IDToBytes i ≠ errorKey := by
  intro e
  have := congrArg List.length e
  simp [db.IDToBytes, errorKey] at this

theorem readLines_lines_tail (s : Nat) (cs : List String) (tail : List (Key × Entry))
    (ht : ErrorTail tail) : readLines (lineEntries s cs ++ tail) = String.join cs := by
  induction cs generalizing s with
  | nil =>
    rcases ht with ht | ⟨eb, ht⟩ <;> subst ht <;> rfl
  | cons c cs ih =>
    show c ++ readLines (lineEntries (s + 1) cs ++ tail) = _
    rw [ih, String_join_cons]

theorem WellFormed_lines_tail (n : Nat) (cs : List String) (tail : List (Key × Entry))
    (ht : ErrorTail tail) :
    WellFormed { sequence := n, entries := lineEntries 0 cs ++ tail } := by
  intro p hp
  rcases List.mem_append.mp hp with hp | hp
  · obtain ⟨i, _, _, hk, hv⟩ := mem_lineEntries 0 cs p hp
    exact Or.inl ⟨by rw [hk]; rfl, hv⟩
  · rcases ht with ht | ⟨eb, ht⟩
    · subst ht; simp at hp
    · subst ht
      rw [List.mem_singleton] at hp
      subst hp
      exact Or.inr ⟨rfl, eb, rfl⟩

/-- Appending a line to a bucket that holds fewer than `2^56` lines puts it
after the lines and before the `error` bucket. -/
theorem appendLine_holdsLines (cs : List String) (c : String) (b : JobBucket)
    (hb : HoldsLines cs b) (h : cs.length + 1 < 2 ^ 56) :
    ∃ b2, appendLine c b = .ok b2 ∧ HoldsLines (cs ++ [c]) b2 := by
  obtain ⟨tail, ht, hb⟩ := hb
  subst hb
  have hlt64 : cs.length + 1 < 2 ^ 64 := by
    have : (2 : Nat) ^ 56 < 2 ^ 64 := by norm_num
    omega
  have hlines : ∀ p ∈ lineEntries 0 cs,
      db.IDToBytes (cs.length + 1) ≠ p.1 ∧ keyLt (db.IDToBytes (cs.length + 1)) p.1 = false := by
    intro p hp
    obtain ⟨i, h1, h2, hk, _⟩ := mem_lineEntries 0 cs p hp
    rw [hk]
    constructor
    · intro e
      have := IDToBytes_injective _ _ hlt64 (by omega) e
      omega
    · rw [keyLt_IDToBytes _ _ hlt64 (by omega)]
      simp
      omega
  refine ⟨{ sequence := cs.length + 1, entries := lineEntries 0 (cs ++ [c]) ++ tail }, ?_,
    tail, ht, by simp⟩
  rw [appendLine_ok c _ (WellFormed_lines_tail _ cs tail ht)]
  simp only [Nat.mod_eq_of_lt hlt64, lineEntries_append, Nat.zero_add]
  rcases ht with ht | ⟨eb, ht⟩
  · subst ht
    simp only [List.append_nil]
    rw [put_eq_append _ _ _ hlines]
  · subst ht
    rw [put_before_last _ _ _ _ _ hlines (line_ne_error _) (keyLt_line_error _ h)]
    simp

/-- Setting the error on a bucket that holds fewer than `2^56` lines leaves the
lines as they are. -/
theorem putError_holdsLines (cs : List String) (msg : String) (b : JobBucket)
    (hb : HoldsLines cs b) (h : cs.length < 2 ^ 56) :
    ∃ b2, putError msg b = .ok b2 ∧ HoldsLines cs b2 := by
  obtain ⟨tail, ht, hb⟩ := hb
  subst hb
  have hlines : ∀ p ∈ lineEntries 0 cs, errorKey ≠ p.1 ∧ keyLt errorKey p.1 = false := by
    intro p hp
    obtain ⟨i, h1, h2, hk, _⟩ := mem_lineEntries 0 cs p hp
    rw [hk]
    exact ⟨fun e => line_ne_error i e.symm, keyLt_error_line i (by omega)⟩
  rcases ht with ht | ⟨eb, ht⟩
  · subst ht
    have hnone : lookup errorKey (lineEntries 0 cs) = none :=
      lookup_eq_none _ _ (fun p hp => fun e => (hlines p hp).1 e.symm)
    refine ⟨{ sequence := cs.length,
              entries := lineEntries 0 cs ++ [(errorKey, .bucket (put errorKey msg []))] }, ?_,
      _, Or.inr ⟨_, rfl⟩, rfl⟩
    unfold putError
    simp only [List.append_nil, hnone]
    rw [put_eq_append _ _ _ hlines]
  · subst ht
    have hsome : lookup errorKey (lineEntries 0 cs ++ [(errorKey, Entry.bucket eb)])
        = some (.bucket eb) := lookup_append_last _ _ _ (fun p hp => (hlines p hp).1)
    refine ⟨{ sequence := cs.length,
              entries := lineEntries 0 cs ++ [(errorKey, .bucket (put errorKey msg eb))] }, ?_,
      _, Or.inr ⟨_, rfl⟩, rfl⟩
    unfold putError
    simp only [hsome]
    rw [put_replace_last _ _ _ _ hlines]

theorem getJobBucket_commit (j : Nat) (b : JobBucket) (d : DB) :
    getJobBucket j (commitJobBucket j b d) = b := by
  rw [getJobBucket_eq, bucketOf_commit]
  simp

theorem getJobBucket_of_bucketOf_eq (j : Nat) (d1 d2 : DB) (h : bucketOf j d1 = bucketOf j d2) :
    getJobBucket j d1 = getJobBucket j d2 := by
  rw [getJobBucket_eq, getJobBucket_eq, h]

theorem appended_cons (j : Nat) (o : Op) (rest : List Op) :
    appended j (o :: rest)
      = (match o with
         | .append k c => if k = j ∧ c ≠ "" then [c] else []
         | .setError _ _ => []) ++ appended j rest := by
  cases o with
  | append k c =>
    by_cases h : k = j ∧ c ≠ ""
    · simp [appended, h]
    · simp only [appended, h, if_false]
      rfl
  | setError k e => rfl

/-- The job bucket after any sequence of calls, while fewer than `2^56` lines
have been appended to the job. -/
theorem holdsLines_run (j : Nat) (hj : j < 2 ^ 64) (ops : List Op)
    (hids : ∀ o ∈ ops, o.jobID < 2 ^ 64) (cs0 : List String) (d : DB)
    (hd : HoldsLines cs0 (getJobBucket j d)) (hnone : bucketOf j d = none → cs0 = [])
    (hn : (cs0 ++ appended j ops).length < 2 ^ 56) :
    HoldsLines (cs0 ++ appended j ops) (getJobBucket j (run ops d)) ∧
    (bucketOf j (run ops d) = none → cs0 ++ appended j ops = []) := by
  induction ops generalizing cs0 d with
  | nil => simpa [appended, run] using ⟨hd, hnone⟩
  | cons o rest ih =>
    have hrest : ∀ q ∈ rest, q.jobID < 2 ^ 64 := fun q hq => hids q (by simp [hq])
    have ho : o.jobID < 2 ^ 64 := hids o (by simp)
    have hrun : run (o :: rest) d = run rest (o.apply d) := rfl
    rw [hrun, appended_cons, ← List.append_assoc]
    rw [appended_cons, ← List.append_assoc] at hn
    have hlen0 : cs0.length < 2 ^ 56 := by
      simp only [List.length_append] at hn
      omega
    cases o with
    | append k c =>
      simp only [Op.jobID] at ho
      by_cases hkc : k = j ∧ c ≠ ""
      · obtain ⟨hkj, hc⟩ := hkc
        subst hkj
        simp only [hc, ne_eq, not_false_eq_true, and_self, if_true] at hn ⊢
        have hlen : cs0.length + 1 < 2 ^ 56 := by
          simp only [List.length_append, List.length_cons, List.length_nil] at hn
          omega
        obtain ⟨b2, hb2, hh2⟩ := appendLine_holdsLines cs0 c _ hd hlen
        have happ : (Op.append k c).apply d = commitJobBucket k b2 d := by
          simp only [Op.apply, Append, hc, if_false, hb2]
        rw [happ]
        apply ih hrest
        · rw [getJobBucket_commit]; exact hh2
        · intro h
          rw [bucketOf_commit] at h
          simp at h
        · exact hn
      · simp only [hkc, if_false, List.append_nil] at hn ⊢
        have hsame : bucketOf j ((Op.append k c).apply d) = bucketOf j d := by
          by_cases hc : c = ""
          · simp [Op.apply, Append, hc]
          · have hne : k ≠ j := fun e => hkc ⟨e, hc⟩
            exact bucketOf_Append_ne j k c d
              (fun e => hne (IDToBytes_injective _ _ hj ho e).symm)
        apply ih hrest
        · rw [getJobBucket_of_bucketOf_eq j _ d hsame]; exact hd
        · rw [hsame]; exact hnone
        · exact hn
    | setError k e =>
      simp only [Op.jobID] at ho
      simp only [List.append_nil] at hn ⊢
      cases e with
      | none => exact ih hrest cs0 d hd hnone hn
      | some msg =>
        by_cases hkj : k = j
        · subst hkj
          obtain ⟨b2, hb2, hh2⟩ := putError_holdsLines cs0 msg _ hd hlen0
          have happ : (Op.setError k (some msg)).apply d = commitJobBucket k b2 d := by
            simp only [Op.apply, SetError, hb2]
          rw [happ]
          apply ih hrest
          · rw [getJobBucket_commit]; exact hh2
          · intro h
            rw [bucketOf_commit] at h
            simp at h
          · exact hn
        · have hsame : bucketOf j ((Op.setError k (some msg)).apply d) = bucketOf j d :=
            bucketOf_SetError_ne j k _ d
              (fun e => hkj (IDToBytes_injective _ _ hj ho e).symm)
          apply ih hrest
          · rw [getJobBucket_of_bucketOf_eq j _ d hsame]; exact hd
          · rw [hsame]; exact hnone
          · exact hn

theorem Get_output_of_holdsLines (j : Nat) (d : DB) (cs : List String)
    (h : HoldsLines cs (getJobBucket j d)) (hnone : bucketOf j d = none → cs = []) :
    (Get j d).1.Output = String.join cs := by
  rw [Get_eq]
  cases hb : bucketOf j d with
  | none =>
    rw [hnone hb]
    rfl
  | some b =>
    rw [getJobBucket_eq, hb] at h
    obtain ⟨tail, ht, e⟩ := h
    have e2 : b = { sequence := cs.length, entries := lineEntries 0 cs ++ tail } := e
    subst e2
    exact readLines_lines_tail 0 cs tail ht

theorem appended_filter_isAppend (j : Nat) (ops : List Op) :
    appended j (ops.filter Op.isAppend) = appended j ops := by
  induction ops with
  | nil => rfl
  | cons o rest ih =>
    cases o with
    | append k c =>
      have hf : (Op.append k c :: rest).filter Op.isAppend
          = Op.append k c :: rest.filter Op.isAppend := by
        simp [List.filter_cons, Op.isAppend]
      rw [hf, appended_cons, appended_cons, ih]
    | setError k e =>
      have hf : (Op.setError k e :: rest).filter Op.isAppend = rest.filter Op.isAppend := by
        simp [List.filter_cons, Op.isAppend]
      rw [hf, appended_cons, ih]
      rfl

/-- C20: on an initially empty store, after any interleaving of `Append` and
`SetError` calls (on any jobs) in which fewer than `2^56` non-empty contents
were appended to job `j`, the output `Get` returns for `j` is the
concatenation in call order of those contents, the same as if the `SetError`
calls had not been made; every sequence key below `2^56` sorts before the
`error` key, so the read loop meets the nested bucket after all the lines. -/
theorem Get_output_unaffected_by_SetError (ops : List Op) (j : Nat) (hj : j < 2 ^ 64)
    (hids : ∀ o ∈ ops, o.jobID < 2 ^ 64) (hn : (appended j ops).length < 2 ^ 56) :
    (Get j (run ops DB.empty)).1.Output = String.join (appended j ops) ∧
    (Get j (run ops DB.empty)).1.Output
      = (Get j (run (ops.filter Op.isAppend) DB.empty)).1.Output ∧
    (∀ i, i < 2 ^ 56 → keyLt (db.IDToBytes i) errorKey = true) := by
  have h0 : HoldsLines [] (getJobBucket j DB.empty) := ⟨[], Or.inl rfl, rfl⟩
  have key : ∀ l : List Op, (∀ o ∈ l, o.jobID < 2 ^ 64) → (appended j l).length < 2 ^ 56 →
      (Get j (run l DB.empty)).1.Output = String.join (appended j l) := by
    intro l hl hlen
    obtain ⟨a, b⟩ := holdsLines_run j hj l hl [] DB.empty h0 (fun _ => rfl) (by simpa using hlen)
    exact Get_output_of_holdsLines j _ _ (by simpa using a) (by simpa using b)
  refine ⟨key ops hids hn, ?_, fun i hi => keyLt_line_error i hi⟩
  rw [key ops hids hn, key (ops.filter Op.isAppend)
    (fun o ho => hids o (List.mem_filter.mp ho).1)
    (by rw [appended_filter_isAppend]; exact hn), appended_filter_isAppend]

/-- An instance of C20: the error of job 1 is set before, between and after
its two lines. -/
theorem Get_output_unaffected_by_SetError_witness :
    (Get 1 (run [.setError 1 (some "e0"), .append 1 "a", .setError 1 (some "e1"),
        .append 2 "x", .append 1 "b", .setError 1 (some "e2")] DB.empty)).1.Output = "ab" :=
  (Get_output_unaffected_by_SetError [.setError 1 (some "e0"), .append 1 "a",
      .setError 1 (some "e1"), .append 2 "x", .append 1 "b", .setError 1 (some "e2")] 1
    (by decide) (by decide) (by decide)).1.trans (by decide)

end logs

end Meeseeks

/-! ## Properties of the token commands and of the flags -/

namespace Meeseeks

namespace builtins

/-- C13 (a channel and a command are enough, and the token is for the calling
user) does not hold: over an IM, the call of "admin_user" with the channel
"#general" and the command "echo" is refused with "not enough arguments passed
in" and creates nothing, and with the argument "hello" added it creates a token
whose user link is "#general", not the calling user. -/
theorem token_new_channel_and_command_refused :
    newAPITokenCommand.Execute "fresh"
        { Request := { Username := "admin_user", IsIM := true, Args := ["#general", "echo"] } }
        []
      = (("", some (.text "not enough arguments passed in")), []) ∧
    newAPITokenCommand.Execute "fresh"
        { Request := { Username := "admin_user", IsIM := true,
                       Args := ["#general", "echo", "hello"] } } []
      = (("created token fresh", none),
          [{ TokenID := "fresh", UserLink := "#general", ChannelLink := "echo",
             Text := "hello" }]) := by
  decide

/-- C13, amended: over an IM, token-new takes the user, the channel and the
command from its arguments and requires at least three of them.  With the
arguments `user`, `channel`, `command` and then any others it succeeds with the
output "created token <id>" and adds to the store one token, whose user link is
`user` whoever calls, whose channel link is `channel` and whose text is the
command and the other arguments joined by single spaces; with fewer than three
arguments it returns the error "not enough arguments passed in" and leaves the
store as it is. -/
theorem token_new_scoped_by_arguments (newID : String) (job : jobs.Job)
    (store : List tokens.Token) (hIM : job.Request.IsIM = true) :
    (∀ user channel command rest,
      job.Request.Args = user :: channel :: command :: rest →
      newAPITokenCommand.Execute newID job store
        = (("created token " ++ newID, none),
            store ++ [{ TokenID := newID, UserLink := user, ChannelLink := channel,
                        Text := " ".intercalate (command :: rest) }])) ∧
    (job.Request.Args.length < 3 →
      newAPITokenCommand.Execute newID job store
        = (("", some (.text "not enough arguments passed in")), store)) := by
  constructor
  · intro user channel command rest hargs
    simp [newAPITokenCommand.Execute, tokens.Create, hIM, hargs]
  · intro hlen
    simp [newAPITokenCommand.Execute, hIM, hlen]

/-- An instance of C13, amended: the call of the test of token-new, where
"admin_user" names itself as the user, and the same call made by "user_one". -/
theorem token_new_scoped_by_arguments_witness :
    newAPITokenCommand.Execute "fresh"
        { Request := { Username := "admin_user", IsIM := true,
                       Args := ["admin_user", "yolo", "rm", "-rf"] } } []
      = (("created token fresh", none),
          [{ TokenID := "fresh", UserLink := "admin_user", ChannelLink := "yolo",
             Text := "rm -rf" }]) ∧
    newAPITokenCommand.Execute "fresh"
        { Request := { Username := "user_one", IsIM := true,
                       Args := ["admin_user", "yolo", "rm", "-rf"] } } []
      = (("created token fresh", none),
          [{ TokenID := "fresh", UserLink := "admin_user", ChannelLink := "yolo",
             Text := "rm -rf" }]) ∧
    newAPITokenCommand.Execute "fresh"
        { Request := { Username := "admin_user", IsIM := true, Args := ["yolo", "rm"] } } []
      = (("", some (.text "not enough arguments passed in")), []) :=
  ⟨((token_new_scoped_by_arguments "fresh"
      { Request := { Username := "admin_user", IsIM := true,
                     Args := ["admin_user", "yolo", "rm", "-rf"] } } [] rfl).1
      "admin_user" "yolo" "rm" ["-rf"] rfl).trans (by decide),
   ((token_new_scoped_by_arguments "fresh"
      { Request := { Username := "user_one", IsIM := true,
                     Args := ["admin_user", "yolo", "rm", "-rf"] } } [] rfl).1
      "admin_user" "yolo" "rm" ["-rf"] rfl).trans (by decide),
   (token_new_scoped_by_arguments "fresh"
      { Request := { Username := "admin_user", IsIM := true, Args := ["yolo", "rm"] } } []
      rfl).2 (by decide)⟩

theorem tokens_MultiMatch_matchers (user channel command : String) (t : tokens.Token) :
    tokens.MultiMatch (tokenMatchers user channel command) t
      = tokenSelected user channel command t := by
  have hb : ∀ a b : List Char, a.isPrefixOf b = decide (a <+: b) := by
    intro a b
    rw [Bool.eq_iff_iff]
    simp [ List.isPrefixOf_iff_prefix]
  unfold tokens.MultiMatch tokenMatchers tokenSelected
  by_cases h1 : user = "" <;> by_cases h2 : channel = "" <;> by_cases h3 : command = "" <;>
    simp [h1, h2, h3, hb]

theorem tokens_Find_filtered (limit : Int) (p : tokens.Token → Bool) (store : List tokens.Token) :
    tokens.Find { Limit := limit, Match := p } store
      = .ok ((store.filter p).take limit.toNat) := by
  unfold tokens.Find
  rw [scan_eq_take_filter]

/-- C18 (every flag-parsing builtin fails on arguments that the flag parser
rejects) holds of jobs and audit but not of tokens: jobs and audit return an
empty output with the error of the parser, while tokens drops that error, so
that on the undefined flag `-bogus` it lists the tokens and returns a nil
error. -/
theorem tokens_ignores_flag_errors (HumanizeTime : Nat → String) (u : unicode.Tables)
    (job : jobs.Job) (ledger : List jobs.Job) (err : Error) :
    ((flag.Parse jobsCommand.flags job.Request.Args).1 = some err →
      jobsCommand.Execute HumanizeTime u job ledger = ("", some err)) ∧
    ((flag.Parse auditCommand.flags job.Request.Args).1 = some err →
      auditCommand.Execute HumanizeTime u job ledger = ("", some err)) ∧
    (flag.Parse listAPITokensCommand.flags ["-bogus"]).1
      = some (.text "flag provided but not defined: -bogus") ∧
    listAPITokensCommand.Execute { Request := { IsIM := true, Args := ["-bogus"] } }
        [{ TokenID := "t", UserLink := "userLink", ChannelLink := "channelLink",
           Text := "something" }]
      = ("- *t* userLink at channelLink _something_\n", none) := by
  refine ⟨?_, ?_, by decide, by decide⟩
  · intro h
    simp only [jobsCommand.Execute, h]
  · intro h
    simp only [auditCommand.Execute, h]

end builtins

end Meeseeks

/-! ## Properties of the listings of jobs -/

namespace Meeseeks

namespace strconv

theorem inferBase_decimal (c : Char) (rest : List Char) (hc : c ≠ '0') :
    inferBase (c :: rest) = (10, c :: rest) := by
  unfold inferBase
  split
  · rename_i h
    exact absurd (List.cons.inj h).1 hc
  · rename_i h
    exact absurd (List.cons.inj h).1 hc
  · rfl

theorem digitLoop_digits (cs : List Char) (n : Nat) (us : Bool)
    (hcs : ∀ c ∈ cs, isDecimalDigit c) (h : decimalFold n cs < 2 ^ 64) :
    digitLoop 10 true cs n us = .ok (decimalFold n cs, us) := by
  have P : (2 : Nat) ^ 64 = 18446744073709551616 := by norm_num
  rw [P] at h
  induction cs generalizing n with
  | nil => rfl
  | cons c cs ih =>
    have hc : isDecimalDigit c := hcs c (by simp)
    have hrest : ∀ x ∈ cs, isDecimalDigit x := fun x hx => hcs x (by simp [hx])
    obtain ⟨b1, b2⟩ := isDecimalDigit_toNat c hc
    have e0 : ('0' : Char).toNat = 48 := rfl
    have hfold : decimalFold n (c :: cs) = decimalFold (n * 10 + (c.toNat - 48)) cs := rfl
    have hge := decimalFold_ge cs (n * 10 + (c.toNat - 48))
    have hc2 : '0' ≤ c ∧ c ≤ '9' := hc
    have hus : ¬ c = '_' := by
      intro e
      rw [e] at b2
      exact absurd b2 (by decide)
    rw [hfold] at h ⊢
    simp only [digitLoop, hus, false_and, if_false, hc2, and_self, if_true, e0, maxUint64, P]
    have e : (n * 10 % 18446744073709551616 + (c.toNat - 48)) % 18446744073709551616
        = n * 10 + (c.toNat - 48) := by omega
    split_ifs with h1 h2 h3
    · omega
    · omega
    · omega
    · rw [e]
      exact ih _ hrest h

/-- The decimal text of a positive number below `2^63` is read back as that
number by `ParseInt` with base 0. -/
theorem ParseInt_toString (L : Nat) (h0 : 0 < L) (h : L < 2 ^ 63) :
    ParseInt (toString L) = ((L : Int), none) := by
  obtain ⟨d1, d2, d3⟩ := toString_spec L
  obtain ⟨c, rest, hs, hc0⟩ := d3 h0
  rw [hs] at d1 d2
  have hcd : isDecimalDigit c := d1 c (by simp)
  obtain ⟨b1, b2⟩ := isDecimalDigit_toNat c hcd
  have hplus : ¬ c = '+' := by
    intro e; rw [e] at b1; exact absurd b1 (by decide)
  have hminus : ¬ c = '-' := by
    intro e; rw [e] at b1; exact absurd b1 (by decide)
  have hlt : decimalFold 0 (c :: rest) < 2 ^ 64 := by
    rw [d2]
    have : (2 : Nat) ^ 63 < 2 ^ 64 := by norm_num
    omega
  have hU : parseUintBase0 (c :: rest) = (L, none) := by
    unfold parseUintBase0
    simp only [inferBase_decimal c rest hc0, digitLoop_digits (c :: rest) 0 false d1 hlt, d2]
    simp
  unfold ParseInt
  simp only [hs, hplus, hminus, or_self, if_false, hU, decide_False]
  have hn : L < 9223372036854775808 := by omega
  simp [hn]

/-- The decimal text of a number below `2^63` is read back as that number by
`ParseInt` with base 0; the text of zero is "0", which base 0 reads as octal. -/
theorem ParseInt_toString_int (L : Nat) (h : L < 2 ^ 63) :
    ParseInt (toString L) = ((L : Int), none) := by
  rcases Nat.eq_zero_or_pos L with h0 | h0
  · subst h0
    decide
  · exact ParseInt_toString L h0 h

end strconv

namespace strings

theorem Title_empty (u : unicode.Tables) : Title u "" = "" := rfl

theorem Title_ne_empty (u : unicode.Tables) (s : String) (hs : s ≠ "") : Title u s ≠ "" := by
  intro h
  have hl : s.toList ≠ [] := fun e => hs ((strconv.String_eq_empty_iff s).mpr e)
  cases hcs : s.toList with
  | nil => exact hl hcs
  | cons c rest =>
    have ht : (Title u s).toList = titleLoop u s.toList ' ' := rfl
    rw [h, hcs] at ht
    simp [titleLoop] at ht

end strings

namespace builtins

theorem newestFirst_perm (ledger : List jobs.Job) : (newestFirst ledger).Perm ledger :=
  List.perm_insertionSort jobs.newerFirst ledger

/-- With one job per ID, the ledger read newest first has strictly decreasing
IDs. -/
theorem newestFirst_strict (ledger : List jobs.Job)
    (hnodup : (ledger.map (fun j => j.ID)).Nodup) :
    (newestFirst ledger).Pairwise (fun a b => b.ID < a.ID) := by
  have h1 : (newestFirst ledger).Pairwise jobs.newerFirst := jobs.sorted_newerFirst ledger
  have h2 : (newestFirst ledger).Pairwise (fun a b => a.ID ≠ b.ID) := by
    have := jobs.nodup_sorted ledger hnodup
    rw [List.Nodup, List.pairwise_map] at this
    exact this
  exact (h1.and h2).imp (fun ⟨hle, hne⟩ => by
    unfold jobs.newerFirst at hle
    omega)

theorem Pairwise_take_filter {α : Type} (R : α → α → Prop) (p : α → Bool) (n : Nat)
    (l : List α) (h : l.Pairwise R) : ((l.filter p).take n).Pairwise R :=
  (h.sublist (List.filter_sublist l)).sublist (List.take_sublist n _)

theorem length_filter_newestFirst (p : jobs.Job → Bool) (ledger : List jobs.Job) :
    ((newestFirst ledger).filter p).length = (ledger.filter p).length :=
  ((newestFirst_perm ledger).filter p).length_eq

theorem jobs_Find_newestFirst (limit : Int) (p : jobs.Job → Bool) (ledger : List jobs.Job) :
    jobs.Find { Limit := limit, Match := p } ledger
      = .ok (((newestFirst ledger).filter p).take limit.toNat) :=
  Find_filtered limit p ledger

end builtins

end Meeseeks

namespace Meeseeks

namespace builtins

theorem listed_props (selected : jobs.Job → Bool) (limit : Int) (ledger : List jobs.Job)
    (hnodup : (ledger.map (fun j => j.ID)).Nodup) :
    (listed selected limit ledger).Pairwise (fun a b => b.ID < a.ID) ∧
    (listed selected limit ledger).length = min limit.toNat (ledger.filter selected).length ∧
    (∀ j ∈ listed selected limit ledger, j ∈ ledger ∧ selected j = true) := by
  refine ⟨Pairwise_take_filter _ _ _ _ (newestFirst_strict ledger hnodup), ?_, ?_⟩
  · unfold listed
    rw [List.length_take, length_filter_newestFirst]
  · intro j hj
    have h1 := List.mem_of_mem_take hj
    rw [List.mem_filter] at h1
    exact ⟨(newestFirst_perm ledger).mem_iff.mp h1.1, h1.2⟩

theorem jobsCommand_Execute_eq (HumanizeTime : Nat → String) (u : unicode.Tables)
    (job : jobs.Job) (ledger : List jobs.Job)
    (hparse : (flag.Parse jobsCommand.flags job.Request.Args).1 = none) :
    jobsCommand.Execute HumanizeTime u job ledger
      = (renderJobsTemplate HumanizeTime
          (listed
            (jobsCommand.selected u job.Request.Username
              (flag.stringOf "status" (flag.Parse jobsCommand.flags job.Request.Args).2))
            (flag.intOf "limit" (flag.Parse jobsCommand.flags job.Request.Args).2) ledger),
          none) := by
  have hf : ∀ status : String,
      jobs.MultiMatch [isUser job.Request.Username, isStatusOrEmpty (strings.Title u status)]
        = jobsCommand.selected u job.Request.Username status := by
    intro status
    funext j
    unfold jobs.MultiMatch isUser isStatusOrEmpty jobsCommand.selected
    by_cases h : strings.Title u status = "" <;> simp [h]
  unfold jobsCommand.Execute
  simp only [hparse, jobs_Find_newestFirst, hf]
  rfl

theorem auditCommand_Execute_eq (HumanizeTime : Nat → String) (u : unicode.Tables)
    (job : jobs.Job) (ledger : List jobs.Job)
    (hparse : (flag.Parse auditCommand.flags job.Request.Args).1 = none) :
    auditCommand.Execute HumanizeTime u job ledger
      = (renderJobsTemplate HumanizeTime
          (listed
            (auditCommand.selected u
              (flag.stringOf "status" (flag.Parse auditCommand.flags job.Request.Args).2)
              (flag.stringOf "user" (flag.Parse auditCommand.flags job.Request.Args).2))
            (flag.intOf "limit" (flag.Parse auditCommand.flags job.Request.Args).2) ledger),
          none) := by
  have hf : ∀ status user : String,
      jobs.MultiMatch [isStatusOrEmpty (strings.Title u status),
          fun j => if user = "" then true else decide (user = j.Request.Username)]
        = auditCommand.selected u status user := by
    intro status user
    funext j
    unfold jobs.MultiMatch isStatusOrEmpty auditCommand.selected
    by_cases h : strings.Title u status = "" <;> by_cases h2 : user = "" <;>
      simp [h, h2, eq_comm]
  unfold auditCommand.Execute
  simp only [hparse, jobs_Find_newestFirst, hf]
  rfl

theorem audit_flags_user_limit (user : String) (L : Nat) (h0 : 0 < L) (h63 : L < 2 ^ 63) :
    flag.Parse auditCommand.flags ["-user", user, "-limit", toString L]
      = (none, [("limit", .intValue L), ("user", .stringValue user),
          ("status", .stringValue "")]) := by
  have r1 : flag.read "-user" = .named "user" none := by decide
  have r2 : flag.read "-limit" = .named "limit" none := by decide
  have s1 : flag.splitName ['u', 's', 'e', 'r'] = ("user", none) := by decide
  have s2 : flag.splitName ['l', 'i', 'm', 'i', 't'] = ("limit", none) := by decide
  simp [flag.Parse, flag.parseLoop, flag.parseOne, r1, r2, s1, s2, auditCommand.flags,
    List.lookup, flag.setFlag, flag.Value.Set, flag.assign,
    strconv.ParseInt_toString L h0 h63]

theorem audit_flags_limit (L : Nat) (h0 : 0 < L) (h63 : L < 2 ^ 63) :
    flag.Parse auditCommand.flags ["-limit", toString L]
      = (none, [("limit", .intValue L), ("user", .stringValue ""),
          ("status", .stringValue "")]) := by
  have r2 : flag.read "-limit" = .named "limit" none := by decide
  have s2 : flag.splitName ['l', 'i', 'm', 'i', 't'] = ("limit", none) := by decide
  simp [flag.Parse, flag.parseLoop, flag.parseOne, r2, s2, auditCommand.flags, List.lookup,
    flag.setFlag, flag.Value.Set, flag.assign, strconv.ParseInt_toString L h0 h63]

theorem audit_flags_user (user : String) :
    flag.Parse auditCommand.flags ["-user", user]
      = (none, [("limit", .intValue 5), ("user", .stringValue user),
          ("status", .stringValue "")]) := by
  have r1 : flag.read "-user" = .named "user" none := by decide
  have s1 : flag.splitName ['u', 's', 'e', 'r'] = ("user", none) := by decide
  simp [flag.Parse, flag.parseLoop, flag.parseOne, r1, s1, auditCommand.flags, List.lookup,
    flag.setFlag, flag.Value.Set, flag.assign]

end builtins

end Meeseeks

namespace Meeseeks

namespace builtins

theorem render_nonempty (HumanizeTime : Nat → String) (js : List jobs.Job) (h : js ≠ []) :
    renderJobsTemplate HumanizeTime js = String.join (js.map (jobLine HumanizeTime)) := by
  cases js with
  | nil => exact absurd rfl h
  | cons j rest => rfl

theorem jobs_flags_limit (L : Nat) (h63 : L < 2 ^ 63) :
    flag.Parse jobsCommand.flags ["-limit", toString L]
      = (none, [("limit", .intValue L), ("status", .stringValue "")]) := by
  have r2 : flag.read "-limit" = .named "limit" none := by decide
  have s2 : flag.splitName ['l', 'i', 'm', 'i', 't'] = ("limit", none) := by decide
  simp [flag.Parse, flag.parseLoop, flag.parseOne, r2, s2, jobsCommand.flags, List.lookup,
    flag.setFlag, flag.Value.Set, flag.assign, strconv.ParseInt_toString_int L h63]

theorem jobs_flags_status (s : String) :
    flag.Parse jobsCommand.flags ["-status", s]
      = (none, [("limit", .intValue 5), ("status", .stringValue s)]) := by
  have r1 : flag.read "-status" = .named "status" none := by decide
  have s1 : flag.splitName ['s', 't', 'a', 't', 'u', 's'] = ("status", none) := by decide
  simp [flag.Parse, flag.parseLoop, flag.parseOne, r1, s1, jobsCommand.flags, List.lookup,
    flag.setFlag, flag.Value.Set, flag.assign]

theorem jobs_flags_status_limit (s : String) (L : Nat) (h63 : L < 2 ^ 63) :
    flag.Parse jobsCommand.flags ["-status", s, "-limit", toString L]
      = (none, [("limit", .intValue L), ("status", .stringValue s)]) := by
  have r1 : flag.read "-status" = .named "status" none := by decide
  have r2 : flag.read "-limit" = .named "limit" none := by decide
  have s1 : flag.splitName ['s', 't', 'a', 't', 'u', 's'] = ("status", none) := by decide
  have s2 : flag.splitName ['l', 'i', 'm', 'i', 't'] = ("limit", none) := by decide
  simp [flag.Parse, flag.parseLoop, flag.parseOne, r1, r2, s1, s2, jobsCommand.flags,
    List.lookup, flag.setFlag, flag.Value.Set, flag.assign,
    strconv.ParseInt_toString_int L h63]

theorem jobs_flags_limit_status (s : String) (L : Nat) (h63 : L < 2 ^ 63) :
    flag.Parse jobsCommand.flags ["-limit", toString L, "-status", s]
      = (none, [("limit", .intValue L), ("status", .stringValue s)]) := by
  have r1 : flag.read "-status" = .named "status" none := by decide
  have r2 : flag.read "-limit" = .named "limit" none := by decide
  have s1 : flag.splitName ['s', 't', 'a', 't', 'u', 's'] = ("status", none) := by decide
  have s2 : flag.splitName ['l', 'i', 'm', 'i', 't'] = ("limit", none) := by decide
  simp [flag.Parse, flag.parseLoop, flag.parseOne, r1, r2, s1, s2, jobsCommand.flags,
    List.lookup, flag.setFlag, flag.Value.Set, flag.assign,
    strconv.ParseInt_toString_int L h63]

/-- The form `-limit=L` of the flag, in one argument. -/
theorem jobs_flags_limit_equals (L : Nat) (h63 : L < 2 ^ 63) :
    flag.Parse jobsCommand.flags ["-limit=" ++ toString L]
      = (none, [("limit", .intValue L), ("status", .stringValue "")]) := by
  have r2 : flag.read ("-limit=" ++ toString L) = .named "limit" (some (toString L)) := by
    unfold flag.read
    have : ("-limit=" ++ toString L).toList
        = '-' :: 'l' :: 'i' :: 'm' :: 'i' :: 't' :: '=' :: (toString L).toList := by
      rw [String.toList, String.data_append]; rfl
    rw [this]
    simp [flag.splitName, List.span_eq_take_drop, List.takeWhile, List.dropWhile]
  simp [flag.Parse, flag.parseLoop, flag.parseOne, r2, jobsCommand.flags, List.lookup,
    flag.setFlag, flag.Value.Set, flag.assign, strconv.ParseInt_toString_int L h63]

/-- The jobs command on arguments whose parse is known. -/
theorem jobsCommand_Execute_of_flags (HumanizeTime : Nat → String) (u : unicode.Tables)
    (job : jobs.Job) (ledger : List jobs.Job) (args : List String) (lim : Int) (st : String)
    (hargs : job.Request.Args = args)
    (hp : flag.Parse jobsCommand.flags args
      = (none, [("limit", .intValue lim), ("status", .stringValue st)])) :
    jobsCommand.Execute HumanizeTime u job ledger
      = (renderJobsTemplate HumanizeTime
          (listed (jobsCommand.selected u job.Request.Username st) lim ledger), none) := by
  have hparse : (flag.Parse jobsCommand.flags job.Request.Args).1 = none := by
    rw [hargs, hp]
  rw [jobsCommand_Execute_eq HumanizeTime u job ledger hparse, hargs, hp]
  have e1 : flag.stringOf "status"
      ([("limit", flag.Value.intValue lim), ("status", flag.Value.stringValue st)]
        : flag.FlagSet) = st := by
    simp [flag.stringOf, List.lookup]
  have e3 : flag.intOf "limit"
      ([("limit", flag.Value.intValue lim), ("status", flag.Value.stringValue st)]
        : flag.FlagSet) = lim := by
    simp [flag.intOf, List.lookup]
  simp only [e1, e3]

/-- The selected jobs that are not listed are older than every listed one. -/
theorem listed_newest (selected : jobs.Job → Bool) (limit : Int) (ledger : List jobs.Job)
    (hnodup : (ledger.map (fun j => j.ID)).Nodup) (j : jobs.Job) (hj : j ∈ ledger)
    (hs : selected j = true) (hn : j ∉ listed selected limit ledger) :
    ∀ k ∈ listed selected limit ledger, j.ID < k.ID := by
  intro k hk
  have hf : ((newestFirst ledger).filter selected).Pairwise (fun a b => b.ID < a.ID) :=
    (newestFirst_strict ledger hnodup).sublist (List.filter_sublist _)
  have hmem : j ∈ (newestFirst ledger).filter selected :=
    List.mem_filter.mpr ⟨(newestFirst_perm ledger).mem_iff.mpr hj, hs⟩
  rw [← List.take_append_drop limit.toNat ((newestFirst ledger).filter selected)] at hf hmem
  rcases List.mem_append.mp hmem with h | h
  · exact absurd h hn
  · exact (List.pairwise_append.mp hf).2.2 k hk j h

theorem jobsCommand_selected_no_status (u : unicode.Tables) (caller : String) (j : jobs.Job) :
    jobsCommand.selected u caller "" j = decide (j.Request.Username = caller) := by
  simp [jobsCommand.selected, strings.Title_empty]

/-- C12: for every ledger with one job per ID, every calling user, every status
text `s` and every limit `L` below `2^63`, the jobs command renders, one line
per job ending with the status of the job, the `min L m` newest of the `m` jobs
of the calling user that are selected, the one with the highest ID first: with
`-limit L` (in two arguments or as `-limit=L`) the limit is `L`, without it 5;
with `-status s` the selected jobs are those of the caller whose status is
`strings.Title(s)` when `s` is not empty, and without it, or with an empty one,
all the jobs of the caller.  The jobs of the caller that are selected but not
listed are older than every listed one.  For any other arguments that parse,
the limit and the status are the values of the two flags, and arguments that do
not parse give the error of the parser. -/
theorem jobs_listing (HumanizeTime : Nat → String) (u : unicode.Tables) (job : jobs.Job)
    (ledger : List jobs.Job) (s : String) (L : Nat) (h63 : L < 2 ^ 63)
    (hnodup : (ledger.map (fun j => j.ID)).Nodup) :
    (job.Request.Args = [] →
      jobsCommand.Execute HumanizeTime u job ledger
        = (renderJobsTemplate HumanizeTime
            (listed (jobsCommand.selected u job.Request.Username "") 5 ledger), none)) ∧
    (job.Request.Args = ["-limit", toString L] →
      jobsCommand.Execute HumanizeTime u job ledger
        = (renderJobsTemplate HumanizeTime
            (listed (jobsCommand.selected u job.Request.Username "") L ledger), none)) ∧
    (job.Request.Args = ["-limit=" ++ toString L] →
      jobsCommand.Execute HumanizeTime u job ledger
        = (renderJobsTemplate HumanizeTime
            (listed (jobsCommand.selected u job.Request.Username "") L ledger), none)) ∧
    (job.Request.Args = ["-status", s] →
      jobsCommand.Execute HumanizeTime u job ledger
        = (renderJobsTemplate HumanizeTime
            (listed (jobsCommand.selected u job.Request.Username s) 5 ledger), none)) ∧
    (job.Request.Args = ["-status", s, "-limit", toString L] →
      jobsCommand.Execute HumanizeTime u job ledger
        = (renderJobsTemplate HumanizeTime
            (listed (jobsCommand.selected u job.Request.Username s) L ledger), none)) ∧
    (job.Request.Args = ["-limit", toString L, "-status", s] →
      jobsCommand.Execute HumanizeTime u job ledger
        = (renderJobsTemplate HumanizeTime
            (listed (jobsCommand.selected u job.Request.Username s) L ledger), none)) ∧
    ((flag.Parse jobsCommand.flags job.Request.Args).1 = none →
      jobsCommand.Execute HumanizeTime u job ledger
        = (renderJobsTemplate HumanizeTime
            (listed (jobsCommand.selected u job.Request.Username (jobsCommand.statusFlag job))
              (jobsCommand.limitFlag job) ledger), none)) ∧
    (∀ err, (flag.Parse jobsCommand.flags job.Request.Args).1 = some err →
      jobsCommand.Execute HumanizeTime u job ledger = ("", some err)) ∧
    (listed (jobsCommand.selected u job.Request.Username s) L ledger).Pairwise
      (fun a b => b.ID < a.ID) ∧
    (listed (jobsCommand.selected u job.Request.Username s) L ledger).length
      = min L (ledger.filter (jobsCommand.selected u job.Request.Username s)).length ∧
    (∀ j ∈ listed (jobsCommand.selected u job.Request.Username s) L ledger,
      j ∈ ledger ∧ j.Request.Username = job.Request.Username ∧
        (s ≠ "" → j.Status = strings.Title u s)) ∧
    (∀ j ∈ ledger, jobsCommand.selected u job.Request.Username s j = true →
      j ∉ listed (jobsCommand.selected u job.Request.Username s) L ledger →
      ∀ k ∈ listed (jobsCommand.selected u job.Request.Username s) L ledger, j.ID < k.ID) ∧
    (∀ j, jobsCommand.selected u job.Request.Username "" j
      = decide (j.Request.Username = job.Request.Username)) ∧
    (∀ j, s ≠ "" → jobsCommand.selected u job.Request.Username s j
      = decide (j.Request.Username = job.Request.Username ∧ j.Status = strings.Title u s)) ∧
    (∀ js : List jobs.Job, js ≠ [] →
      renderJobsTemplate HumanizeTime js = String.join (js.map (jobLine HumanizeTime))) ∧
    (∀ j : jobs.Job, ∃ head : String,
      jobLine HumanizeTime j = head ++ "*" ++ j.Status ++ "*\n") := by
  obtain ⟨p1, p2, p3⟩ := listed_props (jobsCommand.selected u job.Request.Username s) L ledger
    hnodup
  refine ⟨fun h => jobsCommand_Execute_of_flags HumanizeTime u job ledger _ 5 "" h rfl,
    fun h => jobsCommand_Execute_of_flags HumanizeTime u job ledger _ L "" h
      (jobs_flags_limit L h63),
    fun h => jobsCommand_Execute_of_flags HumanizeTime u job ledger _ L "" h
      (jobs_flags_limit_equals L h63),
    fun h => jobsCommand_Execute_of_flags HumanizeTime u job ledger _ 5 s h
      (jobs_flags_status s),
    fun h => jobsCommand_Execute_of_flags HumanizeTime u job ledger _ L s h
      (jobs_flags_status_limit s L h63),
    fun h => jobsCommand_Execute_of_flags HumanizeTime u job ledger _ L s h
      (jobs_flags_limit_status s L h63),
    fun h => jobsCommand_Execute_eq HumanizeTime u job ledger h,
    ?_, p1, ?_, ?_, ?_, ?_, ?_, ?_, ?_⟩
  · intro err h
    simp only [jobsCommand.Execute, h]
  · rw [p2]
    simp
  · intro j hj
    obtain ⟨hm, hs⟩ := p3 j hj
    simp only [jobsCommand.selected, decide_eq_true_eq] at hs
    refine ⟨hm, hs.1, fun hne => ?_⟩
    rcases hs.2 with h | h
    · exact absurd h (strings.Title_ne_empty u _ hne)
    · exact h
  · intro j hj hs hn
    exact listed_newest _ _ ledger hnodup j hj hs hn
  · intro j
    exact jobsCommand_selected_no_status u _ j
  · intro j hne
    simp [jobsCommand.selected, strings.Title_ne_empty u s hne]
  · intro js hne
    exact render_nonempty HumanizeTime js hne
  · intro j
    refine ⟨"*" ++ toString j.ID ++ "* - " ++ HumanizeTime j.StartTime ++ " - *"
      ++ j.Request.Command ++ "* by *" ++ j.Request.Username ++ "* in *"
      ++ (if j.Request.IsIM = true then "DM" else j.Request.ChannelLink) ++ "* - ", ?_⟩
    simp [jobLine, String.append_assoc]

set_option maxRecDepth 8000 in
/-- An instance of C12: jobs 1, 2 and 3 are created for "someone" and job 1 is
finished as successful; the jobs command of "someone" lists 3, 2 and 1, and
with `-limit=1` only job 3. -/
theorem jobs_listing_witness :
    jobsCommand.Execute (fun _ => "now") ⟨id, fun _ => false⟩
        { Request := { Username := "someone" } }
        (jobs.Finish 1 jobs.SuccessStatus
          (jobs.createAll
            [({ Command := "command", ChannelLink := "<#123>", Username := "someone" }, 0),
             ({ Command := "command", ChannelLink := "<#123>", Username := "someone" }, 0),
             ({ Command := "command", ChannelLink := "<#123>", Username := "someone" }, 0)]
            jobs.Store.empty).2.jobs).2
      = ("*3* - now - *command* by *someone* in *<#123>* - *Running*\n" ++
         "*2* - now - *command* by *someone* in *<#123>* - *Running*\n" ++
         "*1* - now - *command* by *someone* in *<#123>* - *Successful*\n", none) ∧
    jobsCommand.Execute (fun _ => "now") ⟨id, fun _ => false⟩
        { Request := { Username := "someone", Args := ["-limit=1"] } }
        (jobs.Finish 1 jobs.SuccessStatus
          (jobs.createAll
            [({ Command := "command", ChannelLink := "<#123>", Username := "someone" }, 0),
             ({ Command := "command", ChannelLink := "<#123>", Username := "someone" }, 0),
             ({ Command := "command", ChannelLink := "<#123>", Username := "someone" }, 0)]
            jobs.Store.empty).2.jobs).2
      = ("*3* - now - *command* by *someone* in *<#123>* - *Running*\n", none) ∧
    jobsCommand.Execute (fun _ => "now") ⟨id, fun _ => false⟩
        { Request := { Username := "someone", Args := ["-status", "successful", "-limit", "2"] } }
        (jobs.Finish 1 jobs.SuccessStatus
          (jobs.createAll
            [({ Command := "command", ChannelLink := "<#123>", Username := "someone" }, 0),
             ({ Command := "command", ChannelLink := "<#123>", Username := "someone" }, 0),
             ({ Command := "command", ChannelLink := "<#123>", Username := "someone" }, 0)]
            jobs.Store.empty).2.jobs).2
      = ("*1* - now - *command* by *someone* in *<#123>* - *Successful*\n", none) :=
  ⟨((jobs_listing (fun _ => "now") ⟨id, fun _ => false⟩
      { Request := { Username := "someone" } }
      (jobs.Finish 1 jobs.SuccessStatus
        (jobs.createAll
          [({ Command := "command", ChannelLink := "<#123>", Username := "someone" }, 0),
           ({ Command := "command", ChannelLink := "<#123>", Username := "someone" }, 0),
           ({ Command := "command", ChannelLink := "<#123>", Username := "someone" }, 0)]
          jobs.Store.empty).2.jobs).2
      "" 1 (by decide) (by decide)).1 rfl).trans (by decide),
   ((jobs_listing (fun _ => "now") ⟨id, fun _ => false⟩
      { Request := { Username := "someone", Args := ["-limit=1"] } }
      (jobs.Finish 1 jobs.SuccessStatus
        (jobs.createAll
          [({ Command := "command", ChannelLink := "<#123>", Username := "someone" }, 0),
           ({ Command := "command", ChannelLink := "<#123>", Username := "someone" }, 0),
           ({ Command := "command", ChannelLink := "<#123>", Username := "someone" }, 0)]
          jobs.Store.empty).2.jobs).2
      "" 1 (by decide) (by decide)).2.2.1 (by decide)).trans (by decide),
   ((jobs_listing (fun _ => "now") ⟨id, fun _ => false⟩
      { Request := { Username := "someone", Args := ["-status", "successful", "-limit", "2"] } }
      (jobs.Finish 1 jobs.SuccessStatus
        (jobs.createAll
          [({ Command := "command", ChannelLink := "<#123>", Username := "someone" }, 0),
           ({ Command := "command", ChannelLink := "<#123>", Username := "someone" }, 0),
           ({ Command := "command", ChannelLink := "<#123>", Username := "someone" }, 0)]
          jobs.Store.empty).2.jobs).2
      "successful" 2 (by decide) (by decide)).2.2.2.2.1 (by decide)).trans (by decide)⟩

theorem auditCommand_selected_no_status (u : unicode.Tables) (user : String) :
    auditCommand.selected u "" user = ofUser user := by
  funext j
  simp [auditCommand.selected, ofUser, strings.Title_empty]

/-- C11: for every ledger with one job per ID, every user name `user` and
every limit `L` with `0 < L < 2^63`, the audit command run with the arguments
`-user user -limit L` renders the first `L` jobs of that user, the one with the
highest ID first: `min L m` jobs when the user has `m`, with strictly
decreasing IDs, one line per job.  Without `-limit` the limit is 5; without
`-user`, or with an empty user name, the jobs of all users are taken. -/
theorem audit_listing (HumanizeTime : Nat → String) (u : unicode.Tables) (job : jobs.Job)
    (ledger : List jobs.Job) (user : String) (L : Nat) (h0 : 0 < L) (h63 : L < 2 ^ 63)
    (hnodup : (ledger.map (fun j => j.ID)).Nodup) :
    (job.Request.Args = ["-user", user, "-limit", toString L] →
      auditCommand.Execute HumanizeTime u job ledger
        = (renderJobsTemplate HumanizeTime (listed (ofUser user) L ledger), none)) ∧
    (job.Request.Args = ["-user", user] →
      auditCommand.Execute HumanizeTime u job ledger
        = (renderJobsTemplate HumanizeTime (listed (ofUser user) 5 ledger), none)) ∧
    (job.Request.Args = ["-limit", toString L] →
      auditCommand.Execute HumanizeTime u job ledger
        = (renderJobsTemplate HumanizeTime (listed (ofUser "") L ledger), none)) ∧
    (listed (ofUser user) L ledger).Pairwise (fun a b => b.ID < a.ID) ∧
    (listed (ofUser user) L ledger).length = min L (ledger.filter (ofUser user)).length ∧
    (∀ j ∈ listed (ofUser user) L ledger,
      j ∈ ledger ∧ (user ≠ "" → j.Request.Username = user)) ∧
    (∀ j ∈ ledger, ofUser "" j = true) ∧
    (listed (ofUser user) L ledger ≠ [] →
      renderJobsTemplate HumanizeTime (listed (ofUser user) L ledger)
        = String.join ((listed (ofUser user) L ledger).map (jobLine HumanizeTime))) := by
  have hE : ∀ (args : List String) (usr : String) (lim : Int),
      job.Request.Args = args →
      flag.Parse auditCommand.flags args
        = (none, [("limit", .intValue lim), ("user", .stringValue usr),
            ("status", .stringValue "")]) →
      auditCommand.Execute HumanizeTime u job ledger
        = (renderJobsTemplate HumanizeTime (listed (ofUser usr) lim ledger), none) := by
    intro args usr lim hargs hp
    have hparse : (flag.Parse auditCommand.flags job.Request.Args).1 = none := by
      rw [hargs, hp]
    rw [auditCommand_Execute_eq HumanizeTime u job ledger hparse, hargs, hp]
    have e1 : flag.stringOf "status"
        ([("limit", flag.Value.intValue lim), ("user", flag.Value.stringValue usr),
          ("status", flag.Value.stringValue "")] : flag.FlagSet) = "" := by
      simp [flag.stringOf, List.lookup]
    have e2 : flag.stringOf "user"
        ([("limit", flag.Value.intValue lim), ("user", flag.Value.stringValue usr),
          ("status", flag.Value.stringValue "")] : flag.FlagSet) = usr := by
      simp [flag.stringOf, List.lookup]
    have e3 : flag.intOf "limit"
        ([("limit", flag.Value.intValue lim), ("user", flag.Value.stringValue usr),
          ("status", flag.Value.stringValue "")] : flag.FlagSet) = lim := by
      simp [flag.intOf, List.lookup]
    simp only [e1, e2, e3, auditCommand_selected_no_status]
  obtain ⟨p1, p2, p3⟩ := listed_props (ofUser user) L ledger hnodup
  refine ⟨fun h => hE _ user L h (audit_flags_user_limit user L h0 h63),
    fun h => hE _ user 5 h (audit_flags_user user),
    fun h => hE _ "" L h (audit_flags_limit L h0 h63), p1, ?_, ?_, ?_, ?_⟩
  · rw [p2]
    simp
  · intro j hj
    obtain ⟨hm, hs⟩ := p3 j hj
    refine ⟨hm, fun hne => ?_⟩
    simp only [ofUser, decide_eq_true_eq] at hs
    rcases hs with h | h
    · exact absurd h hne
    · exact h
  · intro j _
    simp [ofUser]
  · exact render_nonempty HumanizeTime _

/-- An instance of C11: the five jobs of the audit test, asked for with
`-user someone -limit 2`. -/
theorem audit_listing_witness :
    auditCommand.Execute (fun _ => "now") ⟨id, fun _ => false⟩
        { Request := { Args := ["-user", "someone", "-limit", "2"] } }
        (jobs.createAll
          [({ Command := "command", ChannelLink := "<#123>", Username := "someone" }, 0),
           ({ Command := "command", ChannelLink := "<#123>", Username := "someoneelse" }, 0),
           ({ Command := "command", ChannelLink := "<#123>", Username := "someone" }, 0),
           ({ Command := "command", ChannelLink := "<#123>", Username := "someone" }, 0),
           ({ Command := "command", ChannelLink := "<#123>", Username := "someoneelse" }, 0)]
          jobs.Store.empty).2.jobs
      = ("*4* - now - *command* by *someone* in *<#123>* - *Running*\n" ++
         "*3* - now - *command* by *someone* in *<#123>* - *Running*\n", none) :=
  ((audit_listing (fun _ => "now") ⟨id, fun _ => false⟩
    { Request := { Args := ["-user", "someone", "-limit", "2"] } }
    (jobs.createAll
      [({ Command := "command", ChannelLink := "<#123>", Username := "someone" }, 0),
       ({ Command := "command", ChannelLink := "<#123>", Username := "someoneelse" }, 0),
       ({ Command := "command", ChannelLink := "<#123>", Username := "someone" }, 0),
       ({ Command := "command", ChannelLink := "<#123>", Username := "someone" }, 0),
       ({ Command := "command", ChannelLink := "<#123>", Username := "someoneelse" }, 0)]
      jobs.Store.empty).2.jobs
    "someone" 2 (by decide) (by decide) (by decide)).1 rfl).trans (by decide)

end builtins

end Meeseeks

/-! ## Token commands outside an IM conversation -/

namespace Meeseeks

namespace builtins

/-- C21: for a request that does not come from an IM conversation, whatever
its arguments, token-new, token-revoke and tokens return an empty output and
the error "API tokens can only be managed over an IM conversation, security
ffs"; token-new and token-revoke leave the token store as it is, and the result
of tokens is the same whatever the store holds. -/
theorem token_commands_only_over_IM (newID : String) (job : jobs.Job)
    (store : List tokens.Token) (hIM : job.Request.IsIM = false) :
    newAPITokenCommand.Execute newID job store = (("", some errNotIM), store) ∧
    revokeAPITokenCommand.Execute job store = (("", some errNotIM), store) ∧
    (∀ store2, listAPITokensCommand.Execute job store2 = ("", some errNotIM)) ∧
    errNotIM
      = .text "API tokens can only be managed over an IM conversation, security ffs" := by
  refine ⟨?_, ?_, ?_, rfl⟩
  · unfold newAPITokenCommand.Execute
    rw [if_pos hIM]
  · unfold revokeAPITokenCommand.Execute
    rw [if_pos hIM]
  · intro store2
    unfold listAPITokensCommand.Execute
    rw [if_pos hIM]

/-- An instance of C21: the three commands sent from a channel, with arguments
that would be accepted over an IM, on a store that holds the token "t". -/
theorem token_commands_only_over_IM_witness :
    newAPITokenCommand.Execute "fresh"
        { Request := { Username := "admin_user", Args := ["admin_user", "yolo", "rm"] } }
        [{ TokenID := "t", UserLink := "userLink", ChannelLink := "channelLink",
           Text := "something" }]
      = (("", some errNotIM),
          [{ TokenID := "t", UserLink := "userLink", ChannelLink := "channelLink",
             Text := "something" }]) ∧
    revokeAPITokenCommand.Execute
        { Request := { Username := "admin_user", Args := ["t"] } }
        [{ TokenID := "t", UserLink := "userLink", ChannelLink := "channelLink",
           Text := "something" }]
      = (("", some errNotIM),
          [{ TokenID := "t", UserLink := "userLink", ChannelLink := "channelLink",
             Text := "something" }]) ∧
    listAPITokensCommand.Execute { Request := { Username := "admin_user" } }
        [{ TokenID := "t", UserLink := "userLink", ChannelLink := "channelLink",
           Text := "something" }]
      = ("", some errNotIM) :=
  ⟨(token_commands_only_over_IM "fresh"
      { Request := { Username := "admin_user", Args := ["admin_user", "yolo", "rm"] } }
      [{ TokenID := "t", UserLink := "userLink", ChannelLink := "channelLink",
         Text := "something" }] rfl).1,
   (token_commands_only_over_IM "fresh"
      { Request := { Username := "admin_user", Args := ["t"] } }
      [{ TokenID := "t", UserLink := "userLink", ChannelLink := "channelLink",
         Text := "something" }] rfl).2.1,
   (token_commands_only_over_IM "fresh" { Request := { Username := "admin_user" } }
      [] rfl).2.2.1 _⟩

end builtins

end Meeseeks

/-! ## The listing of tokens -/

namespace Meeseeks

namespace builtins

theorem tokens_flags_limit (L : Nat) (h63 : L < 2 ^ 63) :
    flag.Parse listAPITokensCommand.flags ["-limit", toString L]
      = (none, [("limit", .intValue L), ("user", .stringValue ""),
          ("channel", .stringValue ""), ("command", .stringValue "")]) := by
  have r2 : flag.read "-limit" = .named "limit" none := by decide
  have s2 : flag.splitName ['l', 'i', 'm', 'i', 't'] = ("limit", none) := by decide
  simp [flag.Parse, flag.parseLoop, flag.parseOne, r2, s2, listAPITokensCommand.flags,
    List.lookup, flag.setFlag, flag.Value.Set, flag.assign,
    strconv.ParseInt_toString_int L h63]

/-- The form `-limit=L` of the flag, in one argument. -/
theorem tokens_flags_limit_equals (L : Nat) (h63 : L < 2 ^ 63) :
    flag.Parse listAPITokensCommand.flags ["-limit=" ++ toString L]
      = (none, [("limit", .intValue L), ("user", .stringValue ""),
          ("channel", .stringValue ""), ("command", .stringValue "")]) := by
  have r2 : flag.read ("-limit=" ++ toString L) = .named "limit" (some (toString L)) := by
    unfold flag.read
    have : ("-limit=" ++ toString L).toList
        = '-' :: 'l' :: 'i' :: 'm' :: 'i' :: 't' :: '=' :: (toString L).toList := by
      rw [String.toList, String.data_append]; rfl
    rw [this]
    simp [flag.splitName, List.span_eq_take_drop, List.takeWhile, List.dropWhile]
  simp [flag.Parse, flag.parseLoop, flag.parseOne, r2, listAPITokensCommand.flags,
    List.lookup, flag.setFlag, flag.Value.Set, flag.assign,
    strconv.ParseInt_toString_int L h63]

theorem tokens_flags_all (user channel command : String) (L : Nat) (h63 : L < 2 ^ 63) :
    flag.Parse listAPITokensCommand.flags
        ["-user", user, "-channel", channel, "-command", command, "-limit", toString L]
      = (none, [("limit", .intValue L), ("user", .stringValue user),
          ("channel", .stringValue channel), ("command", .stringValue command)]) := by
  have r1 : flag.read "-user" = .named "user" none := by decide
  have r2 : flag.read "-limit" = .named "limit" none := by decide
  have r3 : flag.read "-channel" = .named "channel" none := by decide
  have r4 : flag.read "-command" = .named "command" none := by decide
  have s1 : flag.splitName ['u', 's', 'e', 'r'] = ("user", none) := by decide
  have s2 : flag.splitName ['l', 'i', 'm', 'i', 't'] = ("limit", none) := by decide
  have s3 : flag.splitName ['c', 'h', 'a', 'n', 'n', 'e', 'l'] = ("channel", none) := by
    decide
  have s4 : flag.splitName ['c', 'o', 'm', 'm', 'a', 'n', 'd'] = ("command", none) := by
    decide
  simp [flag.Parse, flag.parseLoop, flag.parseOne, r1, r2, r3, r4, s1, s2, s3, s4,
    listAPITokensCommand.flags, List.lookup, flag.setFlag, flag.Value.Set, flag.assign,
    strconv.ParseInt_toString_int L h63]

theorem tokens_flags_three (user channel command : String) :
    flag.Parse listAPITokensCommand.flags
        ["-user", user, "-channel", channel, "-command", command]
      = (none, [("limit", .intValue 5), ("user", .stringValue user),
          ("channel", .stringValue channel), ("command", .stringValue command)]) := by
  have r1 : flag.read "-user" = .named "user" none := by decide
  have r3 : flag.read "-channel" = .named "channel" none := by decide
  have r4 : flag.read "-command" = .named "command" none := by decide
  have s1 : flag.splitName ['u', 's', 'e', 'r'] = ("user", none) := by decide
  have s3 : flag.splitName ['c', 'h', 'a', 'n', 'n', 'e', 'l'] = ("channel", none) := by
    decide
  have s4 : flag.splitName ['c', 'o', 'm', 'm', 'a', 'n', 'd'] = ("command", none) := by
    decide
  simp [flag.Parse, flag.parseLoop, flag.parseOne, r1, r3, r4, s1, s3, s4,
    listAPITokensCommand.flags, List.lookup, flag.setFlag, flag.Value.Set, flag.assign]

theorem tokens_flags_user (user : String) :
    flag.Parse listAPITokensCommand.flags ["-user", user]
      = (none, [("limit", .intValue 5), ("user", .stringValue user),
          ("channel", .stringValue ""), ("command", .stringValue "")]) := by
  have r1 : flag.read "-user" = .named "user" none := by decide
  have s1 : flag.splitName ['u', 's', 'e', 'r'] = ("user", none) := by decide
  simp [flag.Parse, flag.parseLoop, flag.parseOne, r1, s1,
    listAPITokensCommand.flags, List.lookup, flag.setFlag, flag.Value.Set, flag.assign]

theorem tokens_flags_channel (channel : String) :
    flag.Parse listAPITokensCommand.flags ["-channel", channel]
      = (none, [("limit", .intValue 5), ("user", .stringValue ""),
          ("channel", .stringValue channel), ("command", .stringValue "")]) := by
  have r3 : flag.read "-channel" = .named "channel" none := by decide
  have s3 : flag.splitName ['c', 'h', 'a', 'n', 'n', 'e', 'l'] = ("channel", none) := by
    decide
  simp [flag.Parse, flag.parseLoop, flag.parseOne, r3, s3,
    listAPITokensCommand.flags, List.lookup, flag.setFlag, flag.Value.Set, flag.assign]

theorem tokens_flags_command (command : String) :
    flag.Parse listAPITokensCommand.flags ["-command", command]
      = (none, [("limit", .intValue 5), ("user", .stringValue ""),
          ("channel", .stringValue ""), ("command", .stringValue command)]) := by
  have r4 : flag.read "-command" = .named "command" none := by decide
  have s4 : flag.splitName ['c', 'o', 'm', 'm', 'a', 'n', 'd'] = ("command", none) := by
    decide
  simp [flag.Parse, flag.parseLoop, flag.parseOne, r4, s4,
    listAPITokensCommand.flags, List.lookup, flag.setFlag, flag.Value.Set, flag.assign]

/-- Over an IM, the tokens command lists the first tokens that satisfy the
constraints of the flags, whatever error the parser returned. -/
theorem listAPITokensCommand_Execute_eq (job : jobs.Job) (store : List tokens.Token)
    (hIM : job.Request.IsIM = true) :
    listAPITokensCommand.Execute job store
      = (renderListTokensTemplate
          ((store.filter (tokenSelected
              (flag.stringOf "user" (flag.Parse listAPITokensCommand.flags job.Request.Args).2)
              (flag.stringOf "channel"
                (flag.Parse listAPITokensCommand.flags job.Request.Args).2)
              (flag.stringOf "command"
                (flag.Parse listAPITokensCommand.flags job.Request.Args).2))).take
            (flag.intOf "limit"
              (flag.Parse listAPITokensCommand.flags job.Request.Args).2).toNat), none) := by
  have hf : ∀ a b c : String,
      tokens.MultiMatch (tokenMatchers a b c) = tokenSelected a b c :=
    fun a b c => funext (fun t => tokens_MultiMatch_matchers a b c t)
  unfold listAPITokensCommand.Execute
  simp only [hIM, Bool.true_eq_false, if_false, tokens_Find_filtered, hf]

/-- The tokens command on arguments whose parse is known. -/
theorem listAPITokensCommand_Execute_of_flags (job : jobs.Job) (store : List tokens.Token)
    (hIM : job.Request.IsIM = true) (args : List String) (err : Option Error) (lim : Int)
    (usr ch cmd : String) (hargs : job.Request.Args = args)
    (hp : flag.Parse listAPITokensCommand.flags args
      = (err, [("limit", .intValue lim), ("user", .stringValue usr),
          ("channel", .stringValue ch), ("command", .stringValue cmd)])) :
    listAPITokensCommand.Execute job store
      = (renderListTokensTemplate
          ((store.filter (tokenSelected usr ch cmd)).take lim.toNat), none) := by
  rw [listAPITokensCommand_Execute_eq job store hIM, hargs, hp]
  have e1 : flag.stringOf "user"
      ([("limit", flag.Value.intValue lim), ("user", flag.Value.stringValue usr),
        ("channel", flag.Value.stringValue ch), ("command", flag.Value.stringValue cmd)]
        : flag.FlagSet) = usr := by
    simp [flag.stringOf, List.lookup]
  have e2 : flag.stringOf "channel"
      ([("limit", flag.Value.intValue lim), ("user", flag.Value.stringValue usr),
        ("channel", flag.Value.stringValue ch), ("command", flag.Value.stringValue cmd)]
        : flag.FlagSet) = ch := by
    simp [flag.stringOf, List.lookup]
  have e3 : flag.stringOf "command"
      ([("limit", flag.Value.intValue lim), ("user", flag.Value.stringValue usr),
        ("channel", flag.Value.stringValue ch), ("command", flag.Value.stringValue cmd)]
        : flag.FlagSet) = cmd := by
    simp [flag.stringOf, List.lookup]
  have e4 : flag.intOf "limit"
      ([("limit", flag.Value.intValue lim), ("user", flag.Value.stringValue usr),
        ("channel", flag.Value.stringValue ch), ("command", flag.Value.stringValue cmd)]
        : flag.FlagSet) = lim := by
    simp [flag.intOf, List.lookup]
  simp only [e1, e2, e3, e4]

theorem tokenSelected_iff (user channel command : String) (t : tokens.Token) :
    tokenSelected user channel command t = true ↔
      (user = "" ∨ t.UserLink = user) ∧ (channel = "" ∨ t.ChannelLink = channel) ∧
      (command = "" ∨ command.toList <+: t.Text.toList) := by
  simp [tokenSelected, List.isPrefixOf_iff_prefix ]

theorem renderListTokens_nonempty (ts : List tokens.Token) (h : ts ≠ []) :
    renderListTokensTemplate ts = String.join (ts.map tokenLine) := by
  cases ts with
  | nil => exact absurd rfl h
  | cons t rest => rfl

/-- C17: over an IM, for every token store, all texts `user`, `channel` and
`command` and every limit `L` below `2^63`, the tokens command renders, one
line per token, the first `L` tokens of the store in scan order that satisfy
the constraints of `-user`, `-channel` and `-command` all at once, where `L` is
the value given with `-limit` (in two arguments or as `-limit=L`) and 5
without it: a token satisfies them when its user link is `user`, its channel
link is `channel` and its text starts with `command`, an empty text putting no
constraint.  Without flags the first five tokens of the store are listed, and
with a limit of 0 none.  For any other arguments, the constraints and the
limit are the values of the four flags. -/
theorem tokens_listing (job : jobs.Job) (store : List tokens.Token)
    (hIM : job.Request.IsIM = true) (user channel command : String) (L : Nat)
    (h63 : L < 2 ^ 63) :
    listAPITokensCommand.Execute job store
      = (renderListTokensTemplate
          ((store.filter (tokenSelected
              (flag.stringOf "user" (flag.Parse listAPITokensCommand.flags job.Request.Args).2)
              (flag.stringOf "channel"
                (flag.Parse listAPITokensCommand.flags job.Request.Args).2)
              (flag.stringOf "command"
                (flag.Parse listAPITokensCommand.flags job.Request.Args).2))).take
            (flag.intOf "limit"
              (flag.Parse listAPITokensCommand.flags job.Request.Args).2).toNat), none) ∧
    (job.Request.Args = [] →
      listAPITokensCommand.Execute job store = (renderListTokensTemplate (store.take 5), none)) ∧
    (job.Request.Args = ["-user", user, "-channel", channel, "-command", command] →
      listAPITokensCommand.Execute job store
        = (renderListTokensTemplate
            ((store.filter (tokenSelected user channel command)).take 5), none)) ∧
    (job.Request.Args = ["-limit", "0"] →
      listAPITokensCommand.Execute job store = ("No tokens could be found", none)) ∧
    (job.Request.Args = ["-limit", toString L] →
      listAPITokensCommand.Execute job store = (renderListTokensTemplate (store.take L), none)) ∧
    (job.Request.Args = ["-limit=" ++ toString L] →
      listAPITokensCommand.Execute job store = (renderListTokensTemplate (store.take L), none)) ∧
    (job.Request.Args
        = ["-user", user, "-channel", channel, "-command", command, "-limit", toString L] →
      listAPITokensCommand.Execute job store
        = (renderListTokensTemplate
            ((store.filter (tokenSelected user channel command)).take L), none)) ∧
    (job.Request.Args = ["-user", user] →
      listAPITokensCommand.Execute job store
        = (renderListTokensTemplate ((store.filter (tokenSelected user "" "")).take 5), none)) ∧
    (job.Request.Args = ["-channel", channel] →
      listAPITokensCommand.Execute job store
        = (renderListTokensTemplate
            ((store.filter (tokenSelected "" channel "")).take 5), none)) ∧
    (job.Request.Args = ["-command", command] →
      listAPITokensCommand.Execute job store
        = (renderListTokensTemplate
            ((store.filter (tokenSelected "" "" command)).take 5), none)) ∧
    (∀ t, tokenSelected user channel command t = true ↔
      (user = "" ∨ t.UserLink = user) ∧ (channel = "" ∨ t.ChannelLink = channel) ∧
      (command = "" ∨ command.toList <+: t.Text.toList)) ∧
    ((store.filter (tokenSelected user channel command)).take L).length
      = min L (store.filter (tokenSelected user channel command)).length ∧
    (∀ ts : List tokens.Token, ts ≠ [] →
      renderListTokensTemplate ts = String.join (ts.map tokenLine)) ∧
    renderListTokensTemplate [] = "No tokens could be found" := by
  have hall : tokenSelected "" "" "" = fun _ => true := by
    funext t
    simp [tokenSelected]
  refine ⟨listAPITokensCommand_Execute_eq job store hIM, ?_, ?_, ?_, ?_, ?_, ?_, ?_, ?_, ?_,
    fun t => tokenSelected_iff user channel command t, List.length_take _ _,
    renderListTokens_nonempty, rfl⟩
  · intro hargs
    rw [listAPITokensCommand_Execute_of_flags job store hIM [] none 5 "" "" "" hargs rfl, hall]
    simp
  · intro hargs
    exact listAPITokensCommand_Execute_of_flags job store hIM _ none 5 user channel command
      hargs (tokens_flags_three user channel command)
  · intro hargs
    rw [listAPITokensCommand_Execute_of_flags job store hIM _ none 0 "" "" "" hargs
      (tokens_flags_limit 0 (by norm_num))]
    rfl
  · intro hargs
    rw [listAPITokensCommand_Execute_of_flags job store hIM _ none L "" "" "" hargs
      (tokens_flags_limit L h63), hall]
    simp
  · intro hargs
    rw [listAPITokensCommand_Execute_of_flags job store hIM _ none L "" "" "" hargs
      (tokens_flags_limit_equals L h63), hall]
    simp
  · intro hargs
    exact listAPITokensCommand_Execute_of_flags job store hIM _ none L user channel command
      hargs (tokens_flags_all user channel command L h63)
  · intro hargs
    exact listAPITokensCommand_Execute_of_flags job store hIM _ none 5 user "" ""
      hargs (tokens_flags_user user)
  · intro hargs
    exact listAPITokensCommand_Execute_of_flags job store hIM _ none 5 "" channel ""
      hargs (tokens_flags_channel channel)
  · intro hargs
    exact listAPITokensCommand_Execute_of_flags job store hIM _ none 5 "" "" command
      hargs (tokens_flags_command command)

/-- An instance of C17: the store of the test of the token listing, filtered by
channel, and the same store listed with a limit of 1. -/
theorem tokens_listing_witness :
    listAPITokensCommand.Execute
        { Request := { IsIM := true, Args := ["-channel", "mychannel"] } }
        [{ TokenID := "t1", UserLink := "myuser", ChannelLink := "mychannel",
           Text := "echo something" },
         { TokenID := "t2", UserLink := "someone_else", ChannelLink := "my_other_channel",
           Text := "echo something else" }]
      = ("- *t1* myuser at mychannel _echo something_\n", none) ∧
    listAPITokensCommand.Execute
        { Request := { IsIM := true, Args := ["-limit", "1"] } }
        [{ TokenID := "t1", UserLink := "myuser", ChannelLink := "mychannel",
           Text := "echo something" },
         { TokenID := "t2", UserLink := "someone_else", ChannelLink := "my_other_channel",
           Text := "echo something else" }]
      = ("- *t1* myuser at mychannel _echo something_\n", none) ∧
    listAPITokensCommand.Execute
        { Request := { IsIM := true,
                       Args := ["-user", "someone_else", "-channel", "my_other_channel",
                                "-command", "echo", "-limit", "3"] } }
        [{ TokenID := "t1", UserLink := "myuser", ChannelLink := "mychannel",
           Text := "echo something" },
         { TokenID := "t2", UserLink := "someone_else", ChannelLink := "my_other_channel",
           Text := "echo something else" }]
      = ("- *t2* someone_else at my_other_channel _echo something else_\n", none) :=
  ⟨((tokens_listing { Request := { IsIM := true, Args := ["-channel", "mychannel"] } }
      [{ TokenID := "t1", UserLink := "myuser", ChannelLink := "mychannel",
         Text := "echo something" },
       { TokenID := "t2", UserLink := "someone_else", ChannelLink := "my_other_channel",
         Text := "echo something else" }] rfl "" "mychannel" "" 1 (by decide)).2.2.2.2.2.2.2.2.1
      rfl).trans (by decide),
   ((tokens_listing { Request := { IsIM := true, Args := ["-limit", "1"] } }
      [{ TokenID := "t1", UserLink := "myuser", ChannelLink := "mychannel",
         Text := "echo something" },
       { TokenID := "t2", UserLink := "someone_else", ChannelLink := "my_other_channel",
         Text := "echo something else" }] rfl "" "" "" 1 (by decide)).2.2.2.2.1
      (by decide)).trans (by decide),
   ((tokens_listing
      { Request := { IsIM := true,
                     Args := ["-user", "someone_else", "-channel", "my_other_channel",
                              "-command", "echo", "-limit", "3"] } }
      [{ TokenID := "t1", UserLink := "myuser", ChannelLink := "mychannel",
         Text := "echo something" },
       { TokenID := "t2", UserLink := "someone_else", ChannelLink := "my_other_channel",
         Text := "echo something else" }] rfl "someone_else" "my_other_channel" "echo" 3
      (by decide)).2.2.2.2.2.2.1 (by decide)).trans (by decide)⟩

end builtins

end Meeseeks
